import Mathlib

/-! # Abstract Memory Interface (AMI) for x86 — `stack/src/common/ami/amix86.c`

A shallow embedding of the byte-order accessors of `amix86.c`.

* A raw buffer region (`void* pAddr_p`) is a list of bytes; the pointer designates
  offset 0 of the list.  Every access outside the list is undefined in C and makes
  the embedded function return `none`.
* `UINT16`, `UINT32`, `UINT64` values are natural numbers; stores truncate
  explicitly (`% 2 ^ w`), byte views of a value (`((UINT8*) &v)[k]`) follow the
  little-endian object representation of the x86 host.
* A `Set` returns the buffer after the call.  A `Get` returns the value together
  with the buffer after the call, because some of the accessors store through
  `pAddr_p`.
-/

namespace Ami

set_option autoImplicit false

/-! ## Bytes, values and memory accesses -/

/-- One octet of memory (`UINT8`). -/
abbrev Byte := Fin 256

/-- Raw buffer region addressed by `pAddr_p`. -/
abbrev Buf := List Byte

/-- Conversion of an integer value to `UINT8` (keeps the low eight bits). -/
def byteOf (n : Nat) : Byte := ⟨n % 256, Nat.mod_lt n (by decide)⟩

/-- Read `((UINT8 *) &val)[k]`: byte `k` of the object representation of `val`. -/
def valByte (val k : Nat) : Byte := byteOf (val / 2 ^ (8 * k))

/-- Read `((UINT16 *) &val)[k]`: 16-bit word `k` of the object representation of `val`. -/
def valWord (val k : Nat) : Nat := val / 2 ^ (16 * k) % 2 ^ 16

/-- Read `((UINT32 *) &val)[k]`: 32-bit word `k` of the object representation of `val`. -/
def valDword (val k : Nat) : Nat := val / 2 ^ (32 * k) % 2 ^ 32

/-- Assignment `((UINT8 *) &val)[k] = b`: replaces byte `k` of `val`, keeps the others. -/
def valSetByte (val k : Nat) (b : Byte) : Nat :=
  val / 2 ^ (8 * (k + 1)) * 2 ^ (8 * (k + 1)) + b.val * 2 ^ (8 * k) + val % 2 ^ (8 * k)

/-- Load `((UINT8 *) pAddr_p)[i]`. -/
def ldU8 (m : Buf) (i : Nat) : Option Byte := m[i]?

/-- Store `((UINT8 *) pAddr_p)[i] = b`. -/
def stU8 (m : Buf) (i : Nat) (b : Byte) : Option Buf :=
  if i < m.length then some (m.set i b) else none

/-- Load `((UINT16 *) pAddr_p)[i]` (unaligned, little-endian host). -/
def ldU16 (m : Buf) (i : Nat) : Option Nat := do
  let b0 ← ldU8 m (2 * i)
  let b1 ← ldU8 m (2 * i + 1)
  pure (b0.val + b1.val * 2 ^ 8)

/-- Store `((UINT16 *) pAddr_p)[i] = v` (unaligned, little-endian host). -/
def stU16 (m : Buf) (i : Nat) (v : Nat) : Option Buf := do
  let m ← stU8 m (2 * i) (valByte v 0)
  stU8 m (2 * i + 1) (valByte v 1)

/-- Load `((UINT32 *) pAddr_p)[i]` (unaligned, little-endian host). -/
def ldU32 (m : Buf) (i : Nat) : Option Nat := do
  let b0 ← ldU8 m (4 * i)
  let b1 ← ldU8 m (4 * i + 1)
  let b2 ← ldU8 m (4 * i + 2)
  let b3 ← ldU8 m (4 * i + 3)
  pure (b0.val + b1.val * 2 ^ 8 + b2.val * 2 ^ 16 + b3.val * 2 ^ 24)

/-- Store `((UINT32 *) pAddr_p)[i] = v` (unaligned, little-endian host). -/
def stU32 (m : Buf) (i : Nat) (v : Nat) : Option Buf := do
  let m ← stU8 m (4 * i) (valByte v 0)
  let m ← stU8 m (4 * i + 1) (valByte v 1)
  let m ← stU8 m (4 * i + 2) (valByte v 2)
  stU8 m (4 * i + 3) (valByte v 3)

/-- Load `((UINT64 *) pAddr_p)[i]` (unaligned, little-endian host). -/
def ldU64 (m : Buf) (i : Nat) : Option Nat := do
  let b0 ← ldU8 m (8 * i)
  let b1 ← ldU8 m (8 * i + 1)
  let b2 ← ldU8 m (8 * i + 2)
  let b3 ← ldU8 m (8 * i + 3)
  let b4 ← ldU8 m (8 * i + 4)
  let b5 ← ldU8 m (8 * i + 5)
  let b6 ← ldU8 m (8 * i + 6)
  let b7 ← ldU8 m (8 * i + 7)
  pure (b0.val + b1.val * 2 ^ 8 + b2.val * 2 ^ 16 + b3.val * 2 ^ 24
    + b4.val * 2 ^ 32 + b5.val * 2 ^ 40 + b6.val * 2 ^ 48 + b7.val * 2 ^ 56)

/-- Store `((UINT64 *) pAddr_p)[i] = v` (unaligned, little-endian host). -/
def stU64 (m : Buf) (i : Nat) (v : Nat) : Option Buf := do
  let m ← stU8 m (8 * i) (valByte v 0)
  let m ← stU8 m (8 * i + 1) (valByte v 1)
  let m ← stU8 m (8 * i + 2) (valByte v 2)
  let m ← stU8 m (8 * i + 3) (valByte v 3)
  let m ← stU8 m (8 * i + 4) (valByte v 4)
  let m ← stU8 m (8 * i + 5) (valByte v 5)
  let m ← stU8 m (8 * i + 6) (valByte v 6)
  stU8 m (8 * i + 7) (valByte v 7)

/-! ## 16 bit accessors -/

/-- `void AmiSetWordToBe(void* pAddr_p, UINT16 uint16Val_p)`. -/
def AmiSetWordToBe (pAddr_p : Buf) (uint16Val_p : Nat) : Option Buf := do
  let m ← stU8 pAddr_p 1 (valByte uint16Val_p 0)
  stU8 m 0 (valByte uint16Val_p 1)

/-- `void AmiSetWordToLe(void* pAddr_p, UINT16 uint16Val_p)`. -/
def AmiSetWordToLe (pAddr_p : Buf) (uint16Val_p : Nat) : Option Buf :=
  stU16 pAddr_p 0 uint16Val_p

/-- `UINT16 AmiGetWordFromBe(void* pAddr_p)`.  The local `val` is declared without
initialiser; both of its bytes are assigned before it is returned. -/
def AmiGetWordFromBe (pAddr_p : Buf) : Option (Nat × Buf) := do
  let val := 0
  let val := valSetByte val 1 (← ldU8 pAddr_p 0)
  let val := valSetByte val 0 (← ldU8 pAddr_p 1)
  pure (val, pAddr_p)

/-- `UINT16 AmiGetWordFromLe(void* pAddr_p)`. -/
def AmiGetWordFromLe (pAddr_p : Buf) : Option (Nat × Buf) := do
  let val ← ldU16 pAddr_p 0
  pure (val, pAddr_p)

/-! ## 24 bit accessors -/

/-- `void AmiSetDword24ToBe(void* pAddr_p, UINT32 uint32Val_p)`. -/
def AmiSetDword24ToBe (pAddr_p : Buf) (uint32Val_p : Nat) : Option Buf := do
  let m ← stU8 pAddr_p 0 (valByte uint32Val_p 2)
  let m ← stU8 m 1 (valByte uint32Val_p 1)
  stU8 m 2 (valByte uint32Val_p 0)

/-- `void AmiSetDword24ToLe(void* pAddr_p, UINT32 uint32Val_p)`. -/
def AmiSetDword24ToLe (pAddr_p : Buf) (uint32Val_p : Nat) : Option Buf := do
  let m ← stU16 pAddr_p 0 (valWord uint32Val_p 0)
  stU8 m 2 (valByte uint32Val_p 2)

/-- `UINT32 AmiGetDword24FromBe(void* pAddr_p)`. -/
def AmiGetDword24FromBe (pAddr_p : Buf) : Option (Nat × Buf) := do
  let val := 0
  let val := valSetByte val 0 (← ldU8 pAddr_p 2)
  let val := valSetByte val 1 (← ldU8 pAddr_p 1)
  let val := valSetByte val 2 (← ldU8 pAddr_p 0)
  pure (val, pAddr_p)

/-- `UINT32 AmiGetDword24FromLe(void* pAddr_p)`:
`*pVal &= 0x00FFFFFFL; return *pVal;` with `pVal = (UINT32*) pAddr_p`. -/
def AmiGetDword24FromLe (pAddr_p : Buf) : Option (Nat × Buf) := do
  let x ← ldU32 pAddr_p 0
  let m ← stU32 pAddr_p 0 (x &&& 0x00FFFFFF)
  let val ← ldU32 m 0
  pure (val, m)

/-! ## 32 bit accessors -/

/-- `void AmiSetDwordToBe(void* pAddr_p, UINT32 uint32Val_p)`. -/
def AmiSetDwordToBe (pAddr_p : Buf) (uint32Val_p : Nat) : Option Buf := do
  let m ← stU8 pAddr_p 0 (valByte uint32Val_p 3)
  let m ← stU8 m 1 (valByte uint32Val_p 2)
  let m ← stU8 m 2 (valByte uint32Val_p 1)
  stU8 m 3 (valByte uint32Val_p 0)

/-- `void AmiSetDwordToLe(void* pAddr_p, UINT32 uint32Val_p)`. -/
def AmiSetDwordToLe (pAddr_p : Buf) (uint32Val_p : Nat) : Option Buf :=
  stU32 pAddr_p 0 uint32Val_p

/-- `UINT32 AmiGetDwordFromBe(void* pAddr_p)`.  The local `val` is declared without
initialiser; all of its bytes are assigned before it is returned. -/
def AmiGetDwordFromBe (pAddr_p : Buf) : Option (Nat × Buf) := do
  let val := 0
  let val := valSetByte val 0 (← ldU8 pAddr_p 3)
  let val := valSetByte val 1 (← ldU8 pAddr_p 2)
  let val := valSetByte val 2 (← ldU8 pAddr_p 1)
  let val := valSetByte val 3 (← ldU8 pAddr_p 0)
  pure (val, pAddr_p)

/-- `UINT32 AmiGetDwordFromLe(void* pAddr_p)`: `return *pVal;` with `pVal = (UINT32*) pAddr_p`. -/
def AmiGetDwordFromLe (pAddr_p : Buf) : Option (Nat × Buf) := do
  let val ← ldU32 pAddr_p 0
  pure (val, pAddr_p)

/-! ## 40 bit accessors -/

/-- `void AmiSetQword40ToBe(void* pAddr_p, UINT64 uint64Val_p)`. -/
def AmiSetQword40ToBe (pAddr_p : Buf) (uint64Val_p : Nat) : Option Buf := do
  let m ← stU8 pAddr_p 0 (valByte uint64Val_p 4)
  let m ← stU8 m 1 (valByte uint64Val_p 3)
  let m ← stU8 m 2 (valByte uint64Val_p 2)
  let m ← stU8 m 3 (valByte uint64Val_p 1)
  stU8 m 4 (valByte uint64Val_p 0)

/-- `void AmiSetQword40ToLe(void* pAddr_p, UINT64 uint64Val_p)`. -/
def AmiSetQword40ToLe (pAddr_p : Buf) (uint64Val_p : Nat) : Option Buf := do
  let m ← stU32 pAddr_p 0 (valDword uint64Val_p 0)
  stU8 m 4 (valByte uint64Val_p 4)

/-- `UINT64 AmiGetQword40FromBe(void* pAddr_p)` with `val = 0` initially. -/
def AmiGetQword40FromBe (pAddr_p : Buf) : Option (Nat × Buf) := do
  let val := 0
  let val := valSetByte val 0 (← ldU8 pAddr_p 4)
  let val := valSetByte val 1 (← ldU8 pAddr_p 3)
  let val := valSetByte val 2 (← ldU8 pAddr_p 2)
  let val := valSetByte val 3 (← ldU8 pAddr_p 1)
  let val := valSetByte val 4 (← ldU8 pAddr_p 0)
  pure (val, pAddr_p)

/-- `UINT64 AmiGetQword40FromLe(void* pAddr_p)`:
`*pVal &= 0x000000FFFFFFFFFFLL; return *pVal;` with `pVal = (UINT64*) pAddr_p`. -/
def AmiGetQword40FromLe (pAddr_p : Buf) : Option (Nat × Buf) := do
  let x ← ldU64 pAddr_p 0
  let m ← stU64 pAddr_p 0 (x &&& 0x000000FFFFFFFFFF)
  let val ← ldU64 m 0
  pure (val, m)

/-! ## 48 bit accessors -/

/-- `void AmiSetQword48ToBe(void* pAddr_p, UINT64 uint64Val_p)`. -/
def AmiSetQword48ToBe (pAddr_p : Buf) (uint64Val_p : Nat) : Option Buf := do
  let m ← stU8 pAddr_p 0 (valByte uint64Val_p 5)
  let m ← stU8 m 1 (valByte uint64Val_p 4)
  let m ← stU8 m 2 (valByte uint64Val_p 3)
  let m ← stU8 m 3 (valByte uint64Val_p 2)
  let m ← stU8 m 4 (valByte uint64Val_p 1)
  stU8 m 5 (valByte uint64Val_p 0)

/-- `void AmiSetQword48ToLe(void* pAddr_p, UINT64 uint64Val_p)`. -/
def AmiSetQword48ToLe (pAddr_p : Buf) (uint64Val_p : Nat) : Option Buf := do
  let m ← stU32 pAddr_p 0 (valDword uint64Val_p 0)
  stU16 m 2 (valWord uint64Val_p 2)

/-- `UINT64 AmiGetQword48FromBe(void* pAddr_p)` with `val = 0` initially. -/
def AmiGetQword48FromBe (pAddr_p : Buf) : Option (Nat × Buf) := do
  let val := 0
  let val := valSetByte val 0 (← ldU8 pAddr_p 5)
  let val := valSetByte val 1 (← ldU8 pAddr_p 4)
  let val := valSetByte val 2 (← ldU8 pAddr_p 3)
  let val := valSetByte val 3 (← ldU8 pAddr_p 2)
  let val := valSetByte val 4 (← ldU8 pAddr_p 1)
  let val := valSetByte val 5 (← ldU8 pAddr_p 0)
  pure (val, pAddr_p)

/-- `UINT64 AmiGetQword48FromLe(void* pAddr_p)`:
`*pVal &= 0x0000FFFFFFFFFFFFLL; return *pVal;` with `pVal = (UINT64*) pAddr_p`. -/
def AmiGetQword48FromLe (pAddr_p : Buf) : Option (Nat × Buf) := do
  let x ← ldU64 pAddr_p 0
  let m ← stU64 pAddr_p 0 (x &&& 0x0000FFFFFFFFFFFF)
  let val ← ldU64 m 0
  pure (val, m)

/-! ## 56 bit accessors -/

/-- `void AmiSetQword56ToBe(void* pAddr_p, UINT64 uint64Val_p)`. -/
def AmiSetQword56ToBe (pAddr_p : Buf) (uint64Val_p : Nat) : Option Buf := do
  let m ← stU8 pAddr_p 0 (valByte uint64Val_p 6)
  let m ← stU8 m 1 (valByte uint64Val_p 5)
  let m ← stU8 m 2 (valByte uint64Val_p 4)
  let m ← stU8 m 3 (valByte uint64Val_p 3)
  let m ← stU8 m 4 (valByte uint64Val_p 2)
  let m ← stU8 m 5 (valByte uint64Val_p 1)
  stU8 m 6 (valByte uint64Val_p 0)

/-- `void AmiSetQword56ToLe(void* pAddr_p, UINT64 uint64Val_p)`. -/
def AmiSetQword56ToLe (pAddr_p : Buf) (uint64Val_p : Nat) : Option Buf := do
  let m ← stU32 pAddr_p 0 (valDword uint64Val_p 0)
  let m ← stU16 m 2 (valWord uint64Val_p 2)
  stU8 m 6 (valByte uint64Val_p 6)

/-- `UINT64 AmiGetQword56FromBe(void* pAddr_p)` with `val = 0` initially. -/
def AmiGetQword56FromBe (pAddr_p : Buf) : Option (Nat × Buf) := do
  let val := 0
  let val := valSetByte val 0 (← ldU8 pAddr_p 6)
  let val := valSetByte val 1 (← ldU8 pAddr_p 5)
  let val := valSetByte val 2 (← ldU8 pAddr_p 4)
  let val := valSetByte val 3 (← ldU8 pAddr_p 3)
  let val := valSetByte val 4 (← ldU8 pAddr_p 2)
  let val := valSetByte val 5 (← ldU8 pAddr_p 1)
  let val := valSetByte val 6 (← ldU8 pAddr_p 0)
  pure (val, pAddr_p)

/-- `UINT64 AmiGetQword56FromLe(void* pAddr_p)`:
`*pVal &= 0x00FFFFFFFFFFFFFFLL; return *pVal;` with `pVal = (UINT64*) pAddr_p`. -/
def AmiGetQword56FromLe (pAddr_p : Buf) : Option (Nat × Buf) := do
  let x ← ldU64 pAddr_p 0
  let m ← stU64 pAddr_p 0 (x &&& 0x00FFFFFFFFFFFFFF)
  let val ← ldU64 m 0
  pure (val, m)

/-! ## 64 bit accessors -/

/-- `void AmiSetQword64ToBe(void* pAddr_p, UINT64 uint64Val_p)`. -/
def AmiSetQword64ToBe (pAddr_p : Buf) (uint64Val_p : Nat) : Option Buf := do
  let m ← stU8 pAddr_p 0 (valByte uint64Val_p 7)
  let m ← stU8 m 1 (valByte uint64Val_p 6)
  let m ← stU8 m 2 (valByte uint64Val_p 5)
  let m ← stU8 m 3 (valByte uint64Val_p 4)
  let m ← stU8 m 4 (valByte uint64Val_p 3)
  let m ← stU8 m 5 (valByte uint64Val_p 2)
  let m ← stU8 m 6 (valByte uint64Val_p 1)
  stU8 m 7 (valByte uint64Val_p 0)

/-- `void AmiSetQword64ToLe(void* pAddr_p, UINT64 uint64Val_p)`. -/
def AmiSetQword64ToLe (pAddr_p : Buf) (uint64Val_p : Nat) : Option Buf :=
  stU64 pAddr_p 0 uint64Val_p

/-- `UINT64 AmiGetQword64FromBe(void* pAddr_p)`.  The local `val` is declared without
initialiser; all of its bytes are assigned before it is returned. -/
def AmiGetQword64FromBe (pAddr_p : Buf) : Option (Nat × Buf) := do
  let val := 0
  let val := valSetByte val 0 (← ldU8 pAddr_p 7)
  let val := valSetByte val 1 (← ldU8 pAddr_p 6)
  let val := valSetByte val 2 (← ldU8 pAddr_p 5)
  let val := valSetByte val 3 (← ldU8 pAddr_p 4)
  let val := valSetByte val 4 (← ldU8 pAddr_p 3)
  let val := valSetByte val 5 (← ldU8 pAddr_p 2)
  let val := valSetByte val 6 (← ldU8 pAddr_p 1)
  let val := valSetByte val 7 (← ldU8 pAddr_p 0)
  pure (val, pAddr_p)

/-- `UINT64 AmiGetQword64FromLe(void* pAddr_p)`: `return *pVal;` with `pVal = (UINT64*) pAddr_p`. -/
def AmiGetQword64FromLe (pAddr_p : Buf) : Option (Nat × Buf) := do
  let val ← ldU64 pAddr_p 0
  pure (val, pAddr_p)

/-! ## Time of day -/

/-- The record `tTimeOfDay`: milliseconds after midnight (`UINT32 m_dwMs`) and days
since the epoch (`UINT16 m_wDays`). -/
structure tTimeOfDay where
  m_dwMs : Nat
  m_wDays : Nat
  deriving DecidableEq

/-- Run a store accessor on the region that starts at `((UINT8 *) pAddr_p) + off`. -/
def storeAt (off : Nat) (f : Buf → Option Buf) (m : Buf) : Option Buf :=
  if off ≤ m.length then (f (m.drop off)).map (fun r => m.take off ++ r) else none

/-- Run a load accessor on the region that starts at `((UINT8 *) pAddr_p) + off`. -/
def loadAt (off : Nat) (f : Buf → Option (Nat × Buf)) (m : Buf) : Option (Nat × Buf) :=
  if off ≤ m.length then (f (m.drop off)).map (fun r => (r.1, m.take off ++ r.2)) else none

/-- `void AmiSetTimeOfDay(void* pAddr_p, tTimeOfDay* pTimeOfDay_p)`. -/
def AmiSetTimeOfDay (pAddr_p : Buf) (pTimeOfDay_p : tTimeOfDay) : Option Buf := do
  let m ← AmiSetDwordToLe pAddr_p (pTimeOfDay_p.m_dwMs &&& 0x0FFFFFFF)
  storeAt 4 (fun r => AmiSetWordToLe r pTimeOfDay_p.m_wDays) m

/-- `void AmiGetTimeOfDay(void* pAddr_p, tTimeOfDay* pTimeOfDay_p)`; returns the record
written through `pTimeOfDay_p` and the buffer after the call. -/
def AmiGetTimeOfDay (pAddr_p : Buf) : Option (tTimeOfDay × Buf) := do
  let (ms, m) ← AmiGetDwordFromLe pAddr_p
  let (days, m) ← loadAt 4 AmiGetWordFromLe m
  pure ({ m_dwMs := ms &&& 0x0FFFFFFF, m_wDays := days }, m)

/-! ## The accessor families, indexed by field width -/

/-- The field widths served by the interface. -/
inductive Width where
  | w16 | w24 | w32 | w40 | w48 | w56 | w64
  deriving DecidableEq

/-- Width of the field in bits. -/
def Width.bits : Width → Nat
  | .w16 => 16 | .w24 => 24 | .w32 => 32 | .w40 => 40
  | .w48 => 48 | .w56 => 56 | .w64 => 64

/-- Width of the field in bytes (`W/8`). -/
def Width.bytes (w : Width) : Nat := w.bits / 8

/-- Width in bits of the C type that carries the value (`UINT16`, `UINT32`, `UINT64`). -/
def Width.carrier : Width → Nat
  | .w16 => 16 | .w24 => 32 | .w32 => 32 | .w40 => 64
  | .w48 => 64 | .w56 => 64 | .w64 => 64

/-- The partial widths: fields narrower than their carrier type. -/
def Width.isNarrow : Width → Bool
  | .w24 => true | .w40 => true | .w48 => true | .w56 => true
  | _ => false

/-- Number of bytes the little-endian `Get` of the width accesses through `pAddr_p`:
the size of the type `pVal` points to. -/
def Width.leGetSpan : Width → Nat
  | .w16 => 2 | .w24 => 4 | .w32 => 4 | .w40 => 8
  | .w48 => 8 | .w56 => 8 | .w64 => 8

/-- The big-endian `Set` of each width. -/
def setBe : Width → Buf → Nat → Option Buf
  | .w16 => AmiSetWordToBe
  | .w24 => AmiSetDword24ToBe
  | .w32 => AmiSetDwordToBe
  | .w40 => AmiSetQword40ToBe
  | .w48 => AmiSetQword48ToBe
  | .w56 => AmiSetQword56ToBe
  | .w64 => AmiSetQword64ToBe

/-- The little-endian `Set` of each width. -/
def setLe : Width → Buf → Nat → Option Buf
  | .w16 => AmiSetWordToLe
  | .w24 => AmiSetDword24ToLe
  | .w32 => AmiSetDwordToLe
  | .w40 => AmiSetQword40ToLe
  | .w48 => AmiSetQword48ToLe
  | .w56 => AmiSetQword56ToLe
  | .w64 => AmiSetQword64ToLe

/-- The big-endian `Get` of each width. -/
def getBe : Width → Buf → Option (Nat × Buf)
  | .w16 => AmiGetWordFromBe
  | .w24 => AmiGetDword24FromBe
  | .w32 => AmiGetDwordFromBe
  | .w40 => AmiGetQword40FromBe
  | .w48 => AmiGetQword48FromBe
  | .w56 => AmiGetQword56FromBe
  | .w64 => AmiGetQword64FromBe

/-- The little-endian `Get` of each width. -/
def getLe : Width → Buf → Option (Nat × Buf)
  | .w16 => AmiGetWordFromLe
  | .w24 => AmiGetDword24FromLe
  | .w32 => AmiGetDwordFromLe
  | .w40 => AmiGetQword40FromLe
  | .w48 => AmiGetQword48FromLe
  | .w56 => AmiGetQword56FromLe
  | .w64 => AmiGetQword64FromLe

/-! ## Evaluation of the accessors on explicit buffers -/

theorem and_mask24 (x : Nat) : x &&& 0x00FFFFFF = x % 2 ^ 24 :=
  Nat.and_pow_two_sub_one_eq_mod x 24

theorem and_mask40 (x : Nat) : x &&& 0x000000FFFFFFFFFF = x % 2 ^ 40 :=
  Nat.and_pow_two_sub_one_eq_mod x 40

theorem and_mask48 (x : Nat) : x &&& 0x0000FFFFFFFFFFFF = x % 2 ^ 48 :=
  Nat.and_pow_two_sub_one_eq_mod x 48

theorem and_mask56 (x : Nat) : x &&& 0x00FFFFFFFFFFFFFF = x % 2 ^ 56 :=
  Nat.and_pow_two_sub_one_eq_mod x 56

theorem AmiSetWordToBe_cons (b0 b1 : Byte) (r : Buf) (v : Nat) :
    AmiSetWordToBe (b0 :: b1 :: r) v
      = some (valByte v 1 :: valByte v 0 :: r) := by
  simp [AmiSetWordToBe, stU8]

theorem AmiSetWordToLe_cons (b0 b1 : Byte) (r : Buf) (v : Nat) :
    AmiSetWordToLe (b0 :: b1 :: r) v
      = some (valByte v 0 :: valByte v 1 :: r) := by
  simp [AmiSetWordToLe, stU8, stU16, stU32, stU64, valByte, valWord, valDword, byteOf]

theorem AmiGetWordFromBe_cons (b0 b1 : Byte) (r : Buf) :
    AmiGetWordFromBe (b0 :: b1 :: r)
      = some (b0.val * 2 ^ 8 + b1.val,
          b0 :: b1 :: r) := by
  simp [AmiGetWordFromBe, ldU8, valSetByte]
  omega

theorem AmiGetWordFromLe_cons (b0 b1 : Byte) (r : Buf) :
    AmiGetWordFromLe (b0 :: b1 :: r)
      = some (b0.val + b1.val * 2 ^ 8,
          b0 :: b1 :: r) := by
  simp [AmiGetWordFromLe, ldU8, ldU16]

theorem AmiGetWordFromBe_short (src : Buf) (h : src.length < 2) :
    AmiGetWordFromBe src = none := by
  rcases src with _ | ⟨b0, _ | ⟨b1, r⟩⟩ <;>
    first | rfl | (simp only [List.length_cons] at h; omega)

theorem AmiGetWordFromLe_short (src : Buf) (h : src.length < 2) :
    AmiGetWordFromLe src = none := by
  rcases src with _ | ⟨b0, _ | ⟨b1, r⟩⟩ <;>
    first | rfl | (simp only [List.length_cons] at h; omega)

theorem AmiSetDword24ToBe_cons (b0 b1 b2 : Byte) (r : Buf) (v : Nat) :
    AmiSetDword24ToBe (b0 :: b1 :: b2 :: r) v
      = some (valByte v 2 :: valByte v 1 :: valByte v 0 :: r) := by
  simp [AmiSetDword24ToBe, stU8]

theorem AmiSetDword24ToLe_cons (b0 b1 b2 : Byte) (r : Buf) (v : Nat) :
    AmiSetDword24ToLe (b0 :: b1 :: b2 :: r) v
      = some (valByte v 0 :: valByte v 1 :: valByte v 2 :: r) := by
  simp [AmiSetDword24ToLe, stU8, stU16, stU32, stU64, valByte, valWord, valDword, byteOf]
  omega

theorem AmiGetDword24FromBe_cons (b0 b1 b2 : Byte) (r : Buf) :
    AmiGetDword24FromBe (b0 :: b1 :: b2 :: r)
      = some (b0.val * 2 ^ 16 + b1.val * 2 ^ 8 + b2.val,
          b0 :: b1 :: b2 :: r) := by
  simp [AmiGetDword24FromBe, ldU8, valSetByte]
  omega

theorem AmiGetDword24FromLe_cons (b0 b1 b2 b3 : Byte) (r : Buf) :
    AmiGetDword24FromLe (b0 :: b1 :: b2 :: b3 :: r)
      = some (b0.val + b1.val * 2 ^ 8 + b2.val * 2 ^ 16,
          b0 :: b1 :: b2 :: 0 :: r) := by
  simp only [AmiGetDword24FromLe, and_mask24]
  simp [stU8, ldU8, ldU32, stU32, valByte, byteOf, Fin.ext_iff]
  omega

theorem AmiGetDword24FromBe_short (src : Buf) (h : src.length < 3) :
    AmiGetDword24FromBe src = none := by
  rcases src with _ | ⟨b0, _ | ⟨b1, _ | ⟨b2, r⟩⟩⟩ <;>
    first | rfl | (simp only [List.length_cons] at h; omega)

theorem AmiGetDword24FromLe_short (src : Buf) (h : src.length < 4) :
    AmiGetDword24FromLe src = none := by
  rcases src with _ | ⟨b0, _ | ⟨b1, _ | ⟨b2, _ | ⟨b3, r⟩⟩⟩⟩ <;>
    first | rfl | (simp only [List.length_cons] at h; omega)

theorem AmiSetDwordToBe_cons (b0 b1 b2 b3 : Byte) (r : Buf) (v : Nat) :
    AmiSetDwordToBe (b0 :: b1 :: b2 :: b3 :: r) v
      = some (valByte v 3 :: valByte v 2 :: valByte v 1 :: valByte v 0 :: r) := by
  simp [AmiSetDwordToBe, stU8]

theorem AmiSetDwordToLe_cons (b0 b1 b2 b3 : Byte) (r : Buf) (v : Nat) :
    AmiSetDwordToLe (b0 :: b1 :: b2 :: b3 :: r) v
      = some (valByte v 0 :: valByte v 1 :: valByte v 2 :: valByte v 3 :: r) := by
  simp [AmiSetDwordToLe, stU8, stU16, stU32, stU64, valByte, valWord, valDword, byteOf]

theorem AmiGetDwordFromBe_cons (b0 b1 b2 b3 : Byte) (r : Buf) :
    AmiGetDwordFromBe (b0 :: b1 :: b2 :: b3 :: r)
      = some (b0.val * 2 ^ 24 + b1.val * 2 ^ 16 + b2.val * 2 ^ 8 + b3.val,
          b0 :: b1 :: b2 :: b3 :: r) := by
  simp [AmiGetDwordFromBe, ldU8, valSetByte]
  omega

theorem AmiGetDwordFromLe_cons (b0 b1 b2 b3 : Byte) (r : Buf) :
    AmiGetDwordFromLe (b0 :: b1 :: b2 :: b3 :: r)
      = some (b0.val + b1.val * 2 ^ 8 + b2.val * 2 ^ 16 + b3.val * 2 ^ 24,
          b0 :: b1 :: b2 :: b3 :: r) := by
  simp [AmiGetDwordFromLe, ldU8, ldU32]

theorem AmiGetDwordFromBe_short (src : Buf) (h : src.length < 4) :
    AmiGetDwordFromBe src = none := by
  rcases src with _ | ⟨b0, _ | ⟨b1, _ | ⟨b2, _ | ⟨b3, r⟩⟩⟩⟩ <;>
    first | rfl | (simp only [List.length_cons] at h; omega)

theorem AmiGetDwordFromLe_short (src : Buf) (h : src.length < 4) :
    AmiGetDwordFromLe src = none := by
  rcases src with _ | ⟨b0, _ | ⟨b1, _ | ⟨b2, _ | ⟨b3, r⟩⟩⟩⟩ <;>
    first | rfl | (simp only [List.length_cons] at h; omega)

theorem AmiSetQword40ToBe_cons (b0 b1 b2 b3 b4 : Byte) (r : Buf) (v : Nat) :
    AmiSetQword40ToBe (b0 :: b1 :: b2 :: b3 :: b4 :: r) v
      = some (valByte v 4 :: valByte v 3 :: valByte v 2 :: valByte v 1 :: valByte v 0 :: r) := by
  simp [AmiSetQword40ToBe, stU8]

theorem AmiSetQword40ToLe_cons (b0 b1 b2 b3 b4 : Byte) (r : Buf) (v : Nat) :
    AmiSetQword40ToLe (b0 :: b1 :: b2 :: b3 :: b4 :: r) v
      = some (valByte v 0 :: valByte v 1 :: valByte v 2 :: valByte v 3 :: valByte v 4 :: r) := by
  simp [AmiSetQword40ToLe, stU8, stU16, stU32, stU64, valByte, valWord, valDword, byteOf]
  omega

theorem AmiGetQword40FromBe_cons (b0 b1 b2 b3 b4 : Byte) (r : Buf) :
    AmiGetQword40FromBe (b0 :: b1 :: b2 :: b3 :: b4 :: r)
      = some (b0.val * 2 ^ 32 + b1.val * 2 ^ 24 + b2.val * 2 ^ 16 + b3.val * 2 ^ 8 + b4.val,
          b0 :: b1 :: b2 :: b3 :: b4 :: r) := by
  simp [AmiGetQword40FromBe, ldU8, valSetByte]
  omega

theorem AmiGetQword40FromLe_cons (b0 b1 b2 b3 b4 b5 b6 b7 : Byte) (r : Buf) :
    AmiGetQword40FromLe (b0 :: b1 :: b2 :: b3 :: b4 :: b5 :: b6 :: b7 :: r)
      = some (b0.val + b1.val * 2 ^ 8 + b2.val * 2 ^ 16 + b3.val * 2 ^ 24 + b4.val * 2 ^ 32,
          b0 :: b1 :: b2 :: b3 :: b4 :: 0 :: 0 :: 0 :: r) := by
  simp only [AmiGetQword40FromLe, and_mask40]
  simp [stU8, ldU8, ldU64, stU64, valByte, byteOf, Fin.ext_iff]
  omega

theorem AmiGetQword40FromBe_short (src : Buf) (h : src.length < 5) :
    AmiGetQword40FromBe src = none := by
  rcases src with _ | ⟨b0, _ | ⟨b1, _ | ⟨b2, _ | ⟨b3, _ | ⟨b4, r⟩⟩⟩⟩⟩ <;>
    first | rfl | (simp only [List.length_cons] at h; omega)

theorem AmiGetQword40FromLe_short (src : Buf) (h : src.length < 8) :
    AmiGetQword40FromLe src = none := by
  rcases src with _ | ⟨b0, _ | ⟨b1, _ | ⟨b2, _ | ⟨b3, _ | ⟨b4, _ | ⟨b5, _ | ⟨b6, _ | ⟨b7, r⟩⟩⟩⟩⟩⟩⟩⟩ <;>
    first | rfl | (simp only [List.length_cons] at h; omega)

theorem AmiSetQword48ToBe_cons (b0 b1 b2 b3 b4 b5 : Byte) (r : Buf) (v : Nat) :
    AmiSetQword48ToBe (b0 :: b1 :: b2 :: b3 :: b4 :: b5 :: r) v
      = some (valByte v 5 :: valByte v 4 :: valByte v 3 :: valByte v 2 :: valByte v 1 :: valByte v 0 :: r) := by
  simp [AmiSetQword48ToBe, stU8]

theorem AmiSetQword48ToLe_cons (b0 b1 b2 b3 b4 b5 : Byte) (r : Buf) (v : Nat) :
    AmiSetQword48ToLe (b0 :: b1 :: b2 :: b3 :: b4 :: b5 :: r) v
      = some (valByte v 0 :: valByte v 1 :: valByte v 2 :: valByte v 3 :: valByte v 4 :: valByte v 5 :: r) := by
  simp [AmiSetQword48ToLe, stU8, stU16, stU32, stU64, valByte, valWord, valDword, byteOf]
  omega

theorem AmiGetQword48FromBe_cons (b0 b1 b2 b3 b4 b5 : Byte) (r : Buf) :
    AmiGetQword48FromBe (b0 :: b1 :: b2 :: b3 :: b4 :: b5 :: r)
      = some (b0.val * 2 ^ 40 + b1.val * 2 ^ 32 + b2.val * 2 ^ 24 + b3.val * 2 ^ 16 + b4.val * 2 ^ 8 + b5.val,
          b0 :: b1 :: b2 :: b3 :: b4 :: b5 :: r) := by
  simp [AmiGetQword48FromBe, ldU8, valSetByte]
  omega

theorem AmiGetQword48FromLe_cons (b0 b1 b2 b3 b4 b5 b6 b7 : Byte) (r : Buf) :
    AmiGetQword48FromLe (b0 :: b1 :: b2 :: b3 :: b4 :: b5 :: b6 :: b7 :: r)
      = some (b0.val + b1.val * 2 ^ 8 + b2.val * 2 ^ 16 + b3.val * 2 ^ 24 + b4.val * 2 ^ 32 + b5.val * 2 ^ 40,
          b0 :: b1 :: b2 :: b3 :: b4 :: b5 :: 0 :: 0 :: r) := by
  simp only [AmiGetQword48FromLe, and_mask48]
  simp [stU8, ldU8, ldU64, stU64, valByte, byteOf, Fin.ext_iff]
  omega

theorem AmiGetQword48FromBe_short (src : Buf) (h : src.length < 6) :
    AmiGetQword48FromBe src = none := by
  rcases src with _ | ⟨b0, _ | ⟨b1, _ | ⟨b2, _ | ⟨b3, _ | ⟨b4, _ | ⟨b5, r⟩⟩⟩⟩⟩⟩ <;>
    first | rfl | (simp only [List.length_cons] at h; omega)

theorem AmiGetQword48FromLe_short (src : Buf) (h : src.length < 8) :
    AmiGetQword48FromLe src = none := by
  rcases src with _ | ⟨b0, _ | ⟨b1, _ | ⟨b2, _ | ⟨b3, _ | ⟨b4, _ | ⟨b5, _ | ⟨b6, _ | ⟨b7, r⟩⟩⟩⟩⟩⟩⟩⟩ <;>
    first | rfl | (simp only [List.length_cons] at h; omega)

theorem AmiSetQword56ToBe_cons (b0 b1 b2 b3 b4 b5 b6 : Byte) (r : Buf) (v : Nat) :
    AmiSetQword56ToBe (b0 :: b1 :: b2 :: b3 :: b4 :: b5 :: b6 :: r) v
      = some (valByte v 6 :: valByte v 5 :: valByte v 4 :: valByte v 3 :: valByte v 2 :: valByte v 1 :: valByte v 0 :: r) := by
  simp [AmiSetQword56ToBe, stU8]

theorem AmiSetQword56ToLe_cons (b0 b1 b2 b3 b4 b5 b6 : Byte) (r : Buf) (v : Nat) :
    AmiSetQword56ToLe (b0 :: b1 :: b2 :: b3 :: b4 :: b5 :: b6 :: r) v
      = some (valByte v 0 :: valByte v 1 :: valByte v 2 :: valByte v 3 :: valByte v 4 :: valByte v 5 :: valByte v 6 :: r) := by
  simp [AmiSetQword56ToLe, stU8, stU16, stU32, stU64, valByte, valWord, valDword, byteOf]
  omega

theorem AmiGetQword56FromBe_cons (b0 b1 b2 b3 b4 b5 b6 : Byte) (r : Buf) :
    AmiGetQword56FromBe (b0 :: b1 :: b2 :: b3 :: b4 :: b5 :: b6 :: r)
      = some (b0.val * 2 ^ 48 + b1.val * 2 ^ 40 + b2.val * 2 ^ 32 + b3.val * 2 ^ 24 + b4.val * 2 ^ 16 + b5.val * 2 ^ 8 + b6.val,
          b0 :: b1 :: b2 :: b3 :: b4 :: b5 :: b6 :: r) := by
  simp [AmiGetQword56FromBe, ldU8, valSetByte]
  omega

theorem AmiGetQword56FromLe_cons (b0 b1 b2 b3 b4 b5 b6 b7 : Byte) (r : Buf) :
    AmiGetQword56FromLe (b0 :: b1 :: b2 :: b3 :: b4 :: b5 :: b6 :: b7 :: r)
      = some (b0.val + b1.val * 2 ^ 8 + b2.val * 2 ^ 16 + b3.val * 2 ^ 24 + b4.val * 2 ^ 32 + b5.val * 2 ^ 40 + b6.val * 2 ^ 48,
          b0 :: b1 :: b2 :: b3 :: b4 :: b5 :: b6 :: 0 :: r) := by
  simp only [AmiGetQword56FromLe, and_mask56]
  simp [stU8, ldU8, ldU64, stU64, valByte, byteOf, Fin.ext_iff]
  omega

theorem AmiGetQword56FromBe_short (src : Buf) (h : src.length < 7) :
    AmiGetQword56FromBe src = none := by
  rcases src with _ | ⟨b0, _ | ⟨b1, _ | ⟨b2, _ | ⟨b3, _ | ⟨b4, _ | ⟨b5, _ | ⟨b6, r⟩⟩⟩⟩⟩⟩⟩ <;>
    first | rfl | (simp only [List.length_cons] at h; omega)

theorem AmiGetQword56FromLe_short (src : Buf) (h : src.length < 8) :
    AmiGetQword56FromLe src = none := by
  rcases src with _ | ⟨b0, _ | ⟨b1, _ | ⟨b2, _ | ⟨b3, _ | ⟨b4, _ | ⟨b5, _ | ⟨b6, _ | ⟨b7, r⟩⟩⟩⟩⟩⟩⟩⟩ <;>
    first | rfl | (simp only [List.length_cons] at h; omega)

theorem AmiSetQword64ToBe_cons (b0 b1 b2 b3 b4 b5 b6 b7 : Byte) (r : Buf) (v : Nat) :
    AmiSetQword64ToBe (b0 :: b1 :: b2 :: b3 :: b4 :: b5 :: b6 :: b7 :: r) v
      = some (valByte v 7 :: valByte v 6 :: valByte v 5 :: valByte v 4 :: valByte v 3 :: valByte v 2 :: valByte v 1 :: valByte v 0 :: r) := by
  simp [AmiSetQword64ToBe, stU8]

theorem AmiSetQword64ToLe_cons (b0 b1 b2 b3 b4 b5 b6 b7 : Byte) (r : Buf) (v : Nat) :
    AmiSetQword64ToLe (b0 :: b1 :: b2 :: b3 :: b4 :: b5 :: b6 :: b7 :: r) v
      = some (valByte v 0 :: valByte v 1 :: valByte v 2 :: valByte v 3 :: valByte v 4 :: valByte v 5 :: valByte v 6 :: valByte v 7 :: r) := by
  simp [AmiSetQword64ToLe, stU8, stU16, stU32, stU64, valByte, valWord, valDword, byteOf]

theorem AmiGetQword64FromBe_cons (b0 b1 b2 b3 b4 b5 b6 b7 : Byte) (r : Buf) :
    AmiGetQword64FromBe (b0 :: b1 :: b2 :: b3 :: b4 :: b5 :: b6 :: b7 :: r)
      = some (b0.val * 2 ^ 56 + b1.val * 2 ^ 48 + b2.val * 2 ^ 40 + b3.val * 2 ^ 32 + b4.val * 2 ^ 24 + b5.val * 2 ^ 16 + b6.val * 2 ^ 8 + b7.val,
          b0 :: b1 :: b2 :: b3 :: b4 :: b5 :: b6 :: b7 :: r) := by
  simp [AmiGetQword64FromBe, ldU8, valSetByte]
  omega

theorem AmiGetQword64FromLe_cons (b0 b1 b2 b3 b4 b5 b6 b7 : Byte) (r : Buf) :
    AmiGetQword64FromLe (b0 :: b1 :: b2 :: b3 :: b4 :: b5 :: b6 :: b7 :: r)
      = some (b0.val + b1.val * 2 ^ 8 + b2.val * 2 ^ 16 + b3.val * 2 ^ 24 + b4.val * 2 ^ 32 + b5.val * 2 ^ 40 + b6.val * 2 ^ 48 + b7.val * 2 ^ 56,
          b0 :: b1 :: b2 :: b3 :: b4 :: b5 :: b6 :: b7 :: r) := by
  simp [AmiGetQword64FromLe, ldU8, ldU64]

theorem AmiGetQword64FromBe_short (src : Buf) (h : src.length < 8) :
    AmiGetQword64FromBe src = none := by
  rcases src with _ | ⟨b0, _ | ⟨b1, _ | ⟨b2, _ | ⟨b3, _ | ⟨b4, _ | ⟨b5, _ | ⟨b6, _ | ⟨b7, r⟩⟩⟩⟩⟩⟩⟩⟩ <;>
    first | rfl | (simp only [List.length_cons] at h; omega)

theorem AmiGetQword64FromLe_short (src : Buf) (h : src.length < 8) :
    AmiGetQword64FromLe src = none := by
  rcases src with _ | ⟨b0, _ | ⟨b1, _ | ⟨b2, _ | ⟨b3, _ | ⟨b4, _ | ⟨b5, _ | ⟨b6, _ | ⟨b7, r⟩⟩⟩⟩⟩⟩⟩⟩ <;>
    first | rfl | (simp only [List.length_cons] at h; omega)

/-! ## Buffers of a known minimal length -/

theorem exists_cons_of_succ_le {l : Buf} {n : Nat} (h : n + 1 ≤ l.length) :
    ∃ b r, l = b :: r ∧ n ≤ r.length := by
  cases l with
  | nil => simp at h
  | cons b r => exact ⟨b, r, rfl, by simpa using h⟩

theorem buf_split2 {l : Buf} (h : 2 ≤ l.length) :
    ∃ b0 b1 r, l = b0 :: b1 :: r := by
  obtain ⟨b0, r0, rfl, h0⟩ := exists_cons_of_succ_le h
  obtain ⟨b1, r1, rfl, h1⟩ := exists_cons_of_succ_le h0
  exact ⟨_, _, _, rfl⟩

theorem buf_split3 {l : Buf} (h : 3 ≤ l.length) :
    ∃ b0 b1 b2 r, l = b0 :: b1 :: b2 :: r := by
  obtain ⟨b0, r0, rfl, h0⟩ := exists_cons_of_succ_le h
  obtain ⟨b1, r1, rfl, h1⟩ := exists_cons_of_succ_le h0
  obtain ⟨b2, r2, rfl, h2⟩ := exists_cons_of_succ_le h1
  exact ⟨_, _, _, _, rfl⟩

theorem buf_split4 {l : Buf} (h : 4 ≤ l.length) :
    ∃ b0 b1 b2 b3 r, l = b0 :: b1 :: b2 :: b3 :: r := by
  obtain ⟨b0, r0, rfl, h0⟩ := exists_cons_of_succ_le h
  obtain ⟨b1, r1, rfl, h1⟩ := exists_cons_of_succ_le h0
  obtain ⟨b2, r2, rfl, h2⟩ := exists_cons_of_succ_le h1
  obtain ⟨b3, r3, rfl, h3⟩ := exists_cons_of_succ_le h2
  exact ⟨_, _, _, _, _, rfl⟩

theorem buf_split5 {l : Buf} (h : 5 ≤ l.length) :
    ∃ b0 b1 b2 b3 b4 r, l = b0 :: b1 :: b2 :: b3 :: b4 :: r := by
  obtain ⟨b0, r0, rfl, h0⟩ := exists_cons_of_succ_le h
  obtain ⟨b1, r1, rfl, h1⟩ := exists_cons_of_succ_le h0
  obtain ⟨b2, r2, rfl, h2⟩ := exists_cons_of_succ_le h1
  obtain ⟨b3, r3, rfl, h3⟩ := exists_cons_of_succ_le h2
  obtain ⟨b4, r4, rfl, h4⟩ := exists_cons_of_succ_le h3
  exact ⟨_, _, _, _, _, _, rfl⟩

theorem buf_split6 {l : Buf} (h : 6 ≤ l.length) :
    ∃ b0 b1 b2 b3 b4 b5 r, l = b0 :: b1 :: b2 :: b3 :: b4 :: b5 :: r := by
  obtain ⟨b0, r0, rfl, h0⟩ := exists_cons_of_succ_le h
  obtain ⟨b1, r1, rfl, h1⟩ := exists_cons_of_succ_le h0
  obtain ⟨b2, r2, rfl, h2⟩ := exists_cons_of_succ_le h1
  obtain ⟨b3, r3, rfl, h3⟩ := exists_cons_of_succ_le h2
  obtain ⟨b4, r4, rfl, h4⟩ := exists_cons_of_succ_le h3
  obtain ⟨b5, r5, rfl, h5⟩ := exists_cons_of_succ_le h4
  exact ⟨_, _, _, _, _, _, _, rfl⟩

theorem buf_split7 {l : Buf} (h : 7 ≤ l.length) :
    ∃ b0 b1 b2 b3 b4 b5 b6 r, l = b0 :: b1 :: b2 :: b3 :: b4 :: b5 :: b6 :: r := by
  obtain ⟨b0, r0, rfl, h0⟩ := exists_cons_of_succ_le h
  obtain ⟨b1, r1, rfl, h1⟩ := exists_cons_of_succ_le h0
  obtain ⟨b2, r2, rfl, h2⟩ := exists_cons_of_succ_le h1
  obtain ⟨b3, r3, rfl, h3⟩ := exists_cons_of_succ_le h2
  obtain ⟨b4, r4, rfl, h4⟩ := exists_cons_of_succ_le h3
  obtain ⟨b5, r5, rfl, h5⟩ := exists_cons_of_succ_le h4
  obtain ⟨b6, r6, rfl, h6⟩ := exists_cons_of_succ_le h5
  exact ⟨_, _, _, _, _, _, _, _, rfl⟩

theorem buf_split8 {l : Buf} (h : 8 ≤ l.length) :
    ∃ b0 b1 b2 b3 b4 b5 b6 b7 r, l = b0 :: b1 :: b2 :: b3 :: b4 :: b5 :: b6 :: b7 :: r := by
  obtain ⟨b0, r0, rfl, h0⟩ := exists_cons_of_succ_le h
  obtain ⟨b1, r1, rfl, h1⟩ := exists_cons_of_succ_le h0
  obtain ⟨b2, r2, rfl, h2⟩ := exists_cons_of_succ_le h1
  obtain ⟨b3, r3, rfl, h3⟩ := exists_cons_of_succ_le h2
  obtain ⟨b4, r4, rfl, h4⟩ := exists_cons_of_succ_le h3
  obtain ⟨b5, r5, rfl, h5⟩ := exists_cons_of_succ_le h4
  obtain ⟨b6, r6, rfl, h6⟩ := exists_cons_of_succ_le h5
  obtain ⟨b7, r7, rfl, h7⟩ := exists_cons_of_succ_le h6
  exact ⟨_, _, _, _, _, _, _, _, _, rfl⟩

/-! ## Locals declared without initialiser

`AmiGetWordFromBe`, `AmiGetDwordFromBe` and `AmiGetQword64FromBe` assign every byte of
`val` before returning it, so the value `val` starts from has no influence. -/

theorem valSetByte_all16 (val0 : Nat) (h : val0 < 2 ^ 16) (a0 a1 : Byte) :
    valSetByte (valSetByte val0 1 a1) 0 a0 = valSetByte (valSetByte 0 1 a1) 0 a0 := by
  simp only [valSetByte]
  norm_num
  omega

theorem valSetByte_step32 (x y k : Nat) (a : Byte) (hk : k < 4)
    (hx : x < 2 ^ 32) (hy : y < 2 ^ 32) (h : x % 2 ^ (8 * k) = y % 2 ^ (8 * k)) :
    valSetByte x k a % 2 ^ (8 * (k + 1)) = valSetByte y k a % 2 ^ (8 * (k + 1)) ∧
    valSetByte x k a < 2 ^ 32 ∧ valSetByte y k a < 2 ^ 32 := by
  interval_cases k <;> simp only [valSetByte] at h ⊢ <;> norm_num at h ⊢ <;> omega

theorem valSetByte_all32 (val0 : Nat) (h : val0 < 2 ^ 32) (a0 a1 a2 a3 : Byte) :
    valSetByte (valSetByte (valSetByte (valSetByte val0 0 a0) 1 a1) 2 a2) 3 a3
      = valSetByte (valSetByte (valSetByte (valSetByte 0 0 a0) 1 a1) 2 a2) 3 a3 := by
  obtain ⟨e0, x0, y0⟩ := valSetByte_step32 val0 0 0 a0 (by decide) h (by decide)
    (by rw [Nat.mul_zero, Nat.pow_zero, Nat.mod_one, Nat.mod_one])
  obtain ⟨e1, x1, y1⟩ := valSetByte_step32 _ _ 1 a1 (by decide) x0 y0 e0
  obtain ⟨e2, x2, y2⟩ := valSetByte_step32 _ _ 2 a2 (by decide) x1 y1 e1
  obtain ⟨e3, x3, y3⟩ := valSetByte_step32 _ _ 3 a3 (by decide) x2 y2 e2
  rw [← Nat.mod_eq_of_lt x3, ← Nat.mod_eq_of_lt y3]
  exact e3

theorem valSetByte_step64 (x y k : Nat) (a : Byte) (hk : k < 8)
    (hx : x < 2 ^ 64) (hy : y < 2 ^ 64) (h : x % 2 ^ (8 * k) = y % 2 ^ (8 * k)) :
    valSetByte x k a % 2 ^ (8 * (k + 1)) = valSetByte y k a % 2 ^ (8 * (k + 1)) ∧
    valSetByte x k a < 2 ^ 64 ∧ valSetByte y k a < 2 ^ 64 := by
  interval_cases k <;> simp only [valSetByte] at h ⊢ <;> norm_num at h ⊢ <;> omega

theorem valSetByte_all64 (val0 : Nat) (h : val0 < 2 ^ 64) (a0 a1 a2 a3 a4 a5 a6 a7 : Byte) :
    valSetByte (valSetByte (valSetByte (valSetByte (valSetByte (valSetByte (valSetByte
        (valSetByte val0 0 a0) 1 a1) 2 a2) 3 a3) 4 a4) 5 a5) 6 a6) 7 a7
      = valSetByte (valSetByte (valSetByte (valSetByte (valSetByte (valSetByte (valSetByte
        (valSetByte 0 0 a0) 1 a1) 2 a2) 3 a3) 4 a4) 5 a5) 6 a6) 7 a7 := by
  obtain ⟨e0, x0, y0⟩ := valSetByte_step64 val0 0 0 a0 (by decide) h (by decide)
    (by rw [Nat.mul_zero, Nat.pow_zero, Nat.mod_one, Nat.mod_one])
  obtain ⟨e1, x1, y1⟩ := valSetByte_step64 _ _ 1 a1 (by decide) x0 y0 e0
  obtain ⟨e2, x2, y2⟩ := valSetByte_step64 _ _ 2 a2 (by decide) x1 y1 e1
  obtain ⟨e3, x3, y3⟩ := valSetByte_step64 _ _ 3 a3 (by decide) x2 y2 e2
  obtain ⟨e4, x4, y4⟩ := valSetByte_step64 _ _ 4 a4 (by decide) x3 y3 e3
  obtain ⟨e5, x5, y5⟩ := valSetByte_step64 _ _ 5 a5 (by decide) x4 y4 e4
  obtain ⟨e6, x6, y6⟩ := valSetByte_step64 _ _ 6 a6 (by decide) x5 y5 e5
  obtain ⟨e7, x7, y7⟩ := valSetByte_step64 _ _ 7 a7 (by decide) x6 y6 e6
  rw [← Nat.mod_eq_of_lt x7, ← Nat.mod_eq_of_lt y7]
  exact e7

/-! ## Reassembling a value from its bytes -/

theorem valByte_sum_be16 (v : Nat) (h : v < 2 ^ 16) :
    (valByte v 1).val * 2 ^ 8 + (valByte v 0).val = v := by
  simp only [valByte, byteOf]
  norm_num
  omega

theorem valByte_sum_le16 (v : Nat) (h : v < 2 ^ 16) :
    (valByte v 0).val + (valByte v 1).val * 2 ^ 8 = v := by
  simp only [valByte, byteOf]
  norm_num
  omega

theorem valByte_sum_be24 (v : Nat) (h : v < 2 ^ 24) :
    (valByte v 2).val * 2 ^ 16 + (valByte v 1).val * 2 ^ 8 + (valByte v 0).val = v := by
  simp only [valByte, byteOf]
  norm_num
  omega

theorem valByte_sum_le24 (v : Nat) (h : v < 2 ^ 24) :
    (valByte v 0).val + (valByte v 1).val * 2 ^ 8 + (valByte v 2).val * 2 ^ 16 = v := by
  simp only [valByte, byteOf]
  norm_num
  omega

theorem valByte_sum_be32 (v : Nat) (h : v < 2 ^ 32) :
    (valByte v 3).val * 2 ^ 24 + (valByte v 2).val * 2 ^ 16 + (valByte v 1).val * 2 ^ 8 + (valByte v 0).val = v := by
  simp only [valByte, byteOf]
  norm_num
  omega

theorem valByte_sum_le32 (v : Nat) (h : v < 2 ^ 32) :
    (valByte v 0).val + (valByte v 1).val * 2 ^ 8 + (valByte v 2).val * 2 ^ 16 + (valByte v 3).val * 2 ^ 24 = v := by
  simp only [valByte, byteOf]
  norm_num
  omega

theorem valByte_sum_be40 (v : Nat) (h : v < 2 ^ 40) :
    (valByte v 4).val * 2 ^ 32 + (valByte v 3).val * 2 ^ 24 + (valByte v 2).val * 2 ^ 16 + (valByte v 1).val * 2 ^ 8 + (valByte v 0).val = v := by
  simp only [valByte, byteOf]
  norm_num
  omega

theorem valByte_sum_le40 (v : Nat) (h : v < 2 ^ 40) :
    (valByte v 0).val + (valByte v 1).val * 2 ^ 8 + (valByte v 2).val * 2 ^ 16 + (valByte v 3).val * 2 ^ 24 + (valByte v 4).val * 2 ^ 32 = v := by
  simp only [valByte, byteOf]
  norm_num
  omega

theorem valByte_sum_be48 (v : Nat) (h : v < 2 ^ 48) :
    (valByte v 5).val * 2 ^ 40 + (valByte v 4).val * 2 ^ 32 + (valByte v 3).val * 2 ^ 24 + (valByte v 2).val * 2 ^ 16 + (valByte v 1).val * 2 ^ 8 + (valByte v 0).val = v := by
  simp only [valByte, byteOf]
  norm_num
  omega

theorem valByte_sum_le48 (v : Nat) (h : v < 2 ^ 48) :
    (valByte v 0).val + (valByte v 1).val * 2 ^ 8 + (valByte v 2).val * 2 ^ 16 + (valByte v 3).val * 2 ^ 24 + (valByte v 4).val * 2 ^ 32 + (valByte v 5).val * 2 ^ 40 = v := by
  simp only [valByte, byteOf]
  norm_num
  omega

theorem valByte_sum_be56 (v : Nat) (h : v < 2 ^ 56) :
    (valByte v 6).val * 2 ^ 48 + (valByte v 5).val * 2 ^ 40 + (valByte v 4).val * 2 ^ 32 + (valByte v 3).val * 2 ^ 24 + (valByte v 2).val * 2 ^ 16 + (valByte v 1).val * 2 ^ 8 + (valByte v 0).val = v := by
  simp only [valByte, byteOf]
  norm_num
  omega

theorem valByte_sum_le56 (v : Nat) (h : v < 2 ^ 56) :
    (valByte v 0).val + (valByte v 1).val * 2 ^ 8 + (valByte v 2).val * 2 ^ 16 + (valByte v 3).val * 2 ^ 24 + (valByte v 4).val * 2 ^ 32 + (valByte v 5).val * 2 ^ 40 + (valByte v 6).val * 2 ^ 48 = v := by
  simp only [valByte, byteOf]
  norm_num
  omega

theorem valByte_sum_be64 (v : Nat) (h : v < 2 ^ 64) :
    (valByte v 7).val * 2 ^ 56 + (valByte v 6).val * 2 ^ 48 + (valByte v 5).val * 2 ^ 40 + (valByte v 4).val * 2 ^ 32 + (valByte v 3).val * 2 ^ 24 + (valByte v 2).val * 2 ^ 16 + (valByte v 1).val * 2 ^ 8 + (valByte v 0).val = v := by
  simp only [valByte, byteOf]
  norm_num
  omega

theorem valByte_sum_le64 (v : Nat) (h : v < 2 ^ 64) :
    (valByte v 0).val + (valByte v 1).val * 2 ^ 8 + (valByte v 2).val * 2 ^ 16 + (valByte v 3).val * 2 ^ 24 + (valByte v 4).val * 2 ^ 32 + (valByte v 5).val * 2 ^ 40 + (valByte v 6).val * 2 ^ 48 + (valByte v 7).val * 2 ^ 56 = v := by
  simp only [valByte, byteOf]
  norm_num
  omega

theorem valByte_val (v k : Nat) : (valByte v k).val = (v >>> (8 * k)) &&& 0xFF := by
  show v / 2 ^ (8 * k) % 256 = _
  rw [Nat.shiftRight_eq_div_pow]
  exact (Nat.and_pow_two_sub_one_eq_mod _ 8).symm

/-! ## Where the `Get`s are defined -/

/-- An accessor that fails below `n` bytes and succeeds from `n` bytes on is defined
exactly on the buffers of at least `n` bytes. -/
theorem isSome_iff_le {α : Type} {f : Buf → Option α} {n : Nat}
    (hshort : ∀ src : Buf, src.length < n → f src = none)
    (hlong : ∀ src : Buf, n ≤ src.length → (f src).isSome = true) (src : Buf) :
    (f src).isSome = true ↔ n ≤ src.length := by
  constructor
  · intro h
    by_contra hc
    rw [hshort src (by omega)] at h
    simp at h
  · exact hlong src

theorem AmiGetWordFromBe_isSome (src : Buf) :
    (AmiGetWordFromBe src).isSome = true ↔ 2 ≤ src.length :=
  isSome_iff_le AmiGetWordFromBe_short
    (fun l h => by
      obtain ⟨b0, b1, r, rfl⟩ := buf_split2 h
      rw [AmiGetWordFromBe_cons]
      rfl) src

theorem AmiGetDword24FromBe_isSome (src : Buf) :
    (AmiGetDword24FromBe src).isSome = true ↔ 3 ≤ src.length :=
  isSome_iff_le AmiGetDword24FromBe_short
    (fun l h => by
      obtain ⟨b0, b1, b2, r, rfl⟩ := buf_split3 h
      rw [AmiGetDword24FromBe_cons]
      rfl) src

theorem AmiGetDwordFromBe_isSome (src : Buf) :
    (AmiGetDwordFromBe src).isSome = true ↔ 4 ≤ src.length :=
  isSome_iff_le AmiGetDwordFromBe_short
    (fun l h => by
      obtain ⟨b0, b1, b2, b3, r, rfl⟩ := buf_split4 h
      rw [AmiGetDwordFromBe_cons]
      rfl) src

theorem AmiGetQword40FromBe_isSome (src : Buf) :
    (AmiGetQword40FromBe src).isSome = true ↔ 5 ≤ src.length :=
  isSome_iff_le AmiGetQword40FromBe_short
    (fun l h => by
      obtain ⟨b0, b1, b2, b3, b4, r, rfl⟩ := buf_split5 h
      rw [AmiGetQword40FromBe_cons]
      rfl) src

theorem AmiGetQword48FromBe_isSome (src : Buf) :
    (AmiGetQword48FromBe src).isSome = true ↔ 6 ≤ src.length :=
  isSome_iff_le AmiGetQword48FromBe_short
    (fun l h => by
      obtain ⟨b0, b1, b2, b3, b4, b5, r, rfl⟩ := buf_split6 h
      rw [AmiGetQword48FromBe_cons]
      rfl) src

theorem AmiGetQword56FromBe_isSome (src : Buf) :
    (AmiGetQword56FromBe src).isSome = true ↔ 7 ≤ src.length :=
  isSome_iff_le AmiGetQword56FromBe_short
    (fun l h => by
      obtain ⟨b0, b1, b2, b3, b4, b5, b6, r, rfl⟩ := buf_split7 h
      rw [AmiGetQword56FromBe_cons]
      rfl) src

theorem AmiGetQword64FromBe_isSome (src : Buf) :
    (AmiGetQword64FromBe src).isSome = true ↔ 8 ≤ src.length :=
  isSome_iff_le AmiGetQword64FromBe_short
    (fun l h => by
      obtain ⟨b0, b1, b2, b3, b4, b5, b6, b7, r, rfl⟩ := buf_split8 h
      rw [AmiGetQword64FromBe_cons]
      rfl) src

theorem AmiGetWordFromLe_isSome (src : Buf) :
    (AmiGetWordFromLe src).isSome = true ↔ 2 ≤ src.length :=
  isSome_iff_le AmiGetWordFromLe_short
    (fun l h => by
      obtain ⟨b0, b1, r, rfl⟩ := buf_split2 h
      rw [AmiGetWordFromLe_cons]
      rfl) src

theorem AmiGetDword24FromLe_isSome (src : Buf) :
    (AmiGetDword24FromLe src).isSome = true ↔ 4 ≤ src.length :=
  isSome_iff_le AmiGetDword24FromLe_short
    (fun l h => by
      obtain ⟨b0, b1, b2, b3, r, rfl⟩ := buf_split4 h
      rw [AmiGetDword24FromLe_cons]
      rfl) src

theorem AmiGetDwordFromLe_isSome (src : Buf) :
    (AmiGetDwordFromLe src).isSome = true ↔ 4 ≤ src.length :=
  isSome_iff_le AmiGetDwordFromLe_short
    (fun l h => by
      obtain ⟨b0, b1, b2, b3, r, rfl⟩ := buf_split4 h
      rw [AmiGetDwordFromLe_cons]
      rfl) src

theorem AmiGetQword40FromLe_isSome (src : Buf) :
    (AmiGetQword40FromLe src).isSome = true ↔ 8 ≤ src.length :=
  isSome_iff_le AmiGetQword40FromLe_short
    (fun l h => by
      obtain ⟨b0, b1, b2, b3, b4, b5, b6, b7, r, rfl⟩ := buf_split8 h
      rw [AmiGetQword40FromLe_cons]
      rfl) src

theorem AmiGetQword48FromLe_isSome (src : Buf) :
    (AmiGetQword48FromLe src).isSome = true ↔ 8 ≤ src.length :=
  isSome_iff_le AmiGetQword48FromLe_short
    (fun l h => by
      obtain ⟨b0, b1, b2, b3, b4, b5, b6, b7, r, rfl⟩ := buf_split8 h
      rw [AmiGetQword48FromLe_cons]
      rfl) src

theorem AmiGetQword56FromLe_isSome (src : Buf) :
    (AmiGetQword56FromLe src).isSome = true ↔ 8 ≤ src.length :=
  isSome_iff_le AmiGetQword56FromLe_short
    (fun l h => by
      obtain ⟨b0, b1, b2, b3, b4, b5, b6, b7, r, rfl⟩ := buf_split8 h
      rw [AmiGetQword56FromLe_cons]
      rfl) src

theorem AmiGetQword64FromLe_isSome (src : Buf) :
    (AmiGetQword64FromLe src).isSome = true ↔ 8 ≤ src.length :=
  isSome_iff_le AmiGetQword64FromLe_short
    (fun l h => by
      obtain ⟨b0, b1, b2, b3, b4, b5, b6, b7, r, rfl⟩ := buf_split8 h
      rw [AmiGetQword64FromLe_cons]
      rfl) src

/-- The accessors next to the partial-width little-endian `Get`s are pure reads: every
big-endian `Get`, and the little-endian `Get` of the native widths 16, 32 and 64, returns
the buffer it was given. -/
theorem get_pure_elsewhere (w : Width) (src : Buf) (r : Nat × Buf) :
    (getBe w src = some r → r.2 = src) ∧
    (w.isNarrow = false → getLe w src = some r → r.2 = src) := by
  cases w
  · refine ⟨fun h => ?_, fun hp h => ?_⟩
    · have hl := (AmiGetWordFromBe_isSome src).1 (by
        rw [show AmiGetWordFromBe src = some r from h]
        rfl)
      obtain ⟨b0, b1, t, rfl⟩ := buf_split2 hl
      change AmiGetWordFromBe _ = _ at h
      rw [AmiGetWordFromBe_cons] at h
      cases h
      rfl
    · have hl := (AmiGetWordFromLe_isSome src).1 (by
        rw [show AmiGetWordFromLe src = some r from h]
        rfl)
      obtain ⟨b0, b1, t, rfl⟩ := buf_split2 hl
      change AmiGetWordFromLe _ = _ at h
      rw [AmiGetWordFromLe_cons] at h
      cases h
      rfl
  · refine ⟨fun h => ?_, fun hp h => ?_⟩
    · have hl := (AmiGetDword24FromBe_isSome src).1 (by
        rw [show AmiGetDword24FromBe src = some r from h]
        rfl)
      obtain ⟨b0, b1, b2, t, rfl⟩ := buf_split3 hl
      change AmiGetDword24FromBe _ = _ at h
      rw [AmiGetDword24FromBe_cons] at h
      cases h
      rfl
    · cases hp
  · refine ⟨fun h => ?_, fun hp h => ?_⟩
    · have hl := (AmiGetDwordFromBe_isSome src).1 (by
        rw [show AmiGetDwordFromBe src = some r from h]
        rfl)
      obtain ⟨b0, b1, b2, b3, t, rfl⟩ := buf_split4 hl
      change AmiGetDwordFromBe _ = _ at h
      rw [AmiGetDwordFromBe_cons] at h
      cases h
      rfl
    · have hl := (AmiGetDwordFromLe_isSome src).1 (by
        rw [show AmiGetDwordFromLe src = some r from h]
        rfl)
      obtain ⟨b0, b1, b2, b3, t, rfl⟩ := buf_split4 hl
      change AmiGetDwordFromLe _ = _ at h
      rw [AmiGetDwordFromLe_cons] at h
      cases h
      rfl
  · refine ⟨fun h => ?_, fun hp h => ?_⟩
    · have hl := (AmiGetQword40FromBe_isSome src).1 (by
        rw [show AmiGetQword40FromBe src = some r from h]
        rfl)
      obtain ⟨b0, b1, b2, b3, b4, t, rfl⟩ := buf_split5 hl
      change AmiGetQword40FromBe _ = _ at h
      rw [AmiGetQword40FromBe_cons] at h
      cases h
      rfl
    · cases hp
  · refine ⟨fun h => ?_, fun hp h => ?_⟩
    · have hl := (AmiGetQword48FromBe_isSome src).1 (by
        rw [show AmiGetQword48FromBe src = some r from h]
        rfl)
      obtain ⟨b0, b1, b2, b3, b4, b5, t, rfl⟩ := buf_split6 hl
      change AmiGetQword48FromBe _ = _ at h
      rw [AmiGetQword48FromBe_cons] at h
      cases h
      rfl
    · cases hp
  · refine ⟨fun h => ?_, fun hp h => ?_⟩
    · have hl := (AmiGetQword56FromBe_isSome src).1 (by
        rw [show AmiGetQword56FromBe src = some r from h]
        rfl)
      obtain ⟨b0, b1, b2, b3, b4, b5, b6, t, rfl⟩ := buf_split7 hl
      change AmiGetQword56FromBe _ = _ at h
      rw [AmiGetQword56FromBe_cons] at h
      cases h
      rfl
    · cases hp
  · refine ⟨fun h => ?_, fun hp h => ?_⟩
    · have hl := (AmiGetQword64FromBe_isSome src).1 (by
        rw [show AmiGetQword64FromBe src = some r from h]
        rfl)
      obtain ⟨b0, b1, b2, b3, b4, b5, b6, b7, t, rfl⟩ := buf_split8 hl
      change AmiGetQword64FromBe _ = _ at h
      rw [AmiGetQword64FromBe_cons] at h
      cases h
      rfl
    · have hl := (AmiGetQword64FromLe_isSome src).1 (by
        rw [show AmiGetQword64FromLe src = some r from h]
        rfl)
      obtain ⟨b0, b1, b2, b3, b4, b5, b6, b7, t, rfl⟩ := buf_split8 hl
      change AmiGetQword64FromLe _ = _ at h
      rw [AmiGetQword64FromLe_cons] at h
      cases h
      rfl

/-! ## Round trips -/

/-- C1: big-endian round trip.  For every width `W`, every buffer of at least `W/8`
bytes and every value `v < 2 ^ W`, the big-endian `Set` of `v` succeeds and the matching
big-endian `Get` on the resulting buffer returns exactly `v`. -/
theorem be_roundtrip (w : Width) (buf : Buf) (v : Nat)
    (hlen : w.bytes ≤ buf.length) (hv : v < 2 ^ w.bits) :
    ∃ buf1 buf2, setBe w buf v = some buf1 ∧ getBe w buf1 = some (v, buf2) := by
  cases w
  · obtain ⟨b0, b1, r, rfl⟩ := buf_split2 hlen
    exact ⟨_, _, AmiSetWordToBe_cons _ _ _ _, by
      show AmiGetWordFromBe _ = _
      rw [AmiGetWordFromBe_cons, valByte_sum_be16 v hv]⟩
  · obtain ⟨b0, b1, b2, r, rfl⟩ := buf_split3 hlen
    exact ⟨_, _, AmiSetDword24ToBe_cons _ _ _ _ _, by
      show AmiGetDword24FromBe _ = _
      rw [AmiGetDword24FromBe_cons, valByte_sum_be24 v hv]⟩
  · obtain ⟨b0, b1, b2, b3, r, rfl⟩ := buf_split4 hlen
    exact ⟨_, _, AmiSetDwordToBe_cons _ _ _ _ _ _, by
      show AmiGetDwordFromBe _ = _
      rw [AmiGetDwordFromBe_cons, valByte_sum_be32 v hv]⟩
  · obtain ⟨b0, b1, b2, b3, b4, r, rfl⟩ := buf_split5 hlen
    exact ⟨_, _, AmiSetQword40ToBe_cons _ _ _ _ _ _ _, by
      show AmiGetQword40FromBe _ = _
      rw [AmiGetQword40FromBe_cons, valByte_sum_be40 v hv]⟩
  · obtain ⟨b0, b1, b2, b3, b4, b5, r, rfl⟩ := buf_split6 hlen
    exact ⟨_, _, AmiSetQword48ToBe_cons _ _ _ _ _ _ _ _, by
      show AmiGetQword48FromBe _ = _
      rw [AmiGetQword48FromBe_cons, valByte_sum_be48 v hv]⟩
  · obtain ⟨b0, b1, b2, b3, b4, b5, b6, r, rfl⟩ := buf_split7 hlen
    exact ⟨_, _, AmiSetQword56ToBe_cons _ _ _ _ _ _ _ _ _, by
      show AmiGetQword56FromBe _ = _
      rw [AmiGetQword56FromBe_cons, valByte_sum_be56 v hv]⟩
  · obtain ⟨b0, b1, b2, b3, b4, b5, b6, b7, r, rfl⟩ := buf_split8 hlen
    exact ⟨_, _, AmiSetQword64ToBe_cons _ _ _ _ _ _ _ _ _ _, by
      show AmiGetQword64FromBe _ = _
      rw [AmiGetQword64FromBe_cons, valByte_sum_be64 v hv]⟩

/-- Witness for C1: `SetToBigEndian24(buf, 0x00123456)` followed by
`GetFromBigEndian24(buf)` on a three byte buffer. -/
theorem be_roundtrip_witness :
    Width.w24.bytes ≤ ([0, 0, 0] : Buf).length ∧ 0x123456 < 2 ^ Width.w24.bits ∧
    ∃ buf1 buf2, setBe Width.w24 [0, 0, 0] 0x123456 = some buf1 ∧
      getBe Width.w24 buf1 = some (0x123456, buf2) :=
  ⟨by decide, by decide, be_roundtrip Width.w24 [0, 0, 0] 0x123456 (by decide) (by decide)⟩

/-- C2: little-endian round trip.  For every width `W`, every value `v < 2 ^ W` and
every buffer large enough for both calls (at least the bytes the little-endian `Get`
accesses), whatever it holds beforehand, the little-endian `Set` of `v` succeeds and the
matching little-endian `Get` on the resulting buffer returns exactly `v`. -/
theorem le_roundtrip (w : Width) (buf : Buf) (v : Nat)
    (hlen : w.leGetSpan ≤ buf.length) (hv : v < 2 ^ w.bits) :
    ∃ buf1 buf2, setLe w buf v = some buf1 ∧ getLe w buf1 = some (v, buf2) := by
  cases w
  · obtain ⟨b0, b1, r, rfl⟩ := buf_split2 hlen
    exact ⟨_, _, AmiSetWordToLe_cons _ _ _ _, by
      show AmiGetWordFromLe _ = _
      rw [AmiGetWordFromLe_cons, valByte_sum_le16 v hv]⟩
  · obtain ⟨b0, b1, b2, b3, r, rfl⟩ := buf_split4 hlen
    exact ⟨_, _, AmiSetDword24ToLe_cons _ _ _ _ _, by
      show AmiGetDword24FromLe _ = _
      rw [AmiGetDword24FromLe_cons, valByte_sum_le24 v hv]⟩
  · obtain ⟨b0, b1, b2, b3, r, rfl⟩ := buf_split4 hlen
    exact ⟨_, _, AmiSetDwordToLe_cons _ _ _ _ _ _, by
      show AmiGetDwordFromLe _ = _
      rw [AmiGetDwordFromLe_cons, valByte_sum_le32 v hv]⟩
  · obtain ⟨b0, b1, b2, b3, b4, b5, b6, b7, r, rfl⟩ := buf_split8 hlen
    exact ⟨_, _, AmiSetQword40ToLe_cons _ _ _ _ _ _ _, by
      show AmiGetQword40FromLe _ = _
      rw [AmiGetQword40FromLe_cons, valByte_sum_le40 v hv]⟩
  · obtain ⟨b0, b1, b2, b3, b4, b5, b6, b7, r, rfl⟩ := buf_split8 hlen
    exact ⟨_, _, AmiSetQword48ToLe_cons _ _ _ _ _ _ _ _, by
      show AmiGetQword48FromLe _ = _
      rw [AmiGetQword48FromLe_cons, valByte_sum_le48 v hv]⟩
  · obtain ⟨b0, b1, b2, b3, b4, b5, b6, b7, r, rfl⟩ := buf_split8 hlen
    exact ⟨_, _, AmiSetQword56ToLe_cons _ _ _ _ _ _ _ _ _, by
      show AmiGetQword56FromLe _ = _
      rw [AmiGetQword56FromLe_cons, valByte_sum_le56 v hv]⟩
  · obtain ⟨b0, b1, b2, b3, b4, b5, b6, b7, r, rfl⟩ := buf_split8 hlen
    exact ⟨_, _, AmiSetQword64ToLe_cons _ _ _ _ _ _ _ _ _ _, by
      show AmiGetQword64FromLe _ = _
      rw [AmiGetQword64FromLe_cons, valByte_sum_le64 v hv]⟩

/-- Witness for C2: a 24 bit little-endian round trip on a buffer whose byte at offset 3
holds `0xFF` beforehand. -/
theorem le_roundtrip_witness :
    Width.w24.leGetSpan ≤ ([0, 0, 0, 0xFF] : Buf).length ∧ 0xABCDEF < 2 ^ Width.w24.bits ∧
    ∃ buf1 buf2, setLe Width.w24 [0, 0, 0, 0xFF] 0xABCDEF = some buf1 ∧
      getLe Width.w24 buf1 = some (0xABCDEF, buf2) :=
  ⟨by decide, by decide,
    le_roundtrip Width.w24 [0, 0, 0, 0xFF] 0xABCDEF (by decide) (by decide)⟩

/-! ## Byte layout written by the `Set`s -/

/-- C3: big-endian `Set` byte layout.  For every width `W`, every value `v` and every
index `i < W/8`, the big-endian `Set` succeeds on a buffer of at least `W/8` bytes and
afterwards the byte at offset `i` equals `(v >> (W - 8*(i+1))) & 0xFF`: offset 0 holds
the most significant byte of the field, offset `W/8 - 1` the least significant one. -/
theorem be_set_layout (w : Width) (buf : Buf) (v i : Nat)
    (hlen : w.bytes ≤ buf.length) (hi : i < w.bytes) :
    ∃ buf1, setBe w buf v = some buf1 ∧
      (buf1[i]?).map Fin.val = some ((v >>> (w.bits - 8 * (i + 1))) &&& 0xFF) := by
  cases w
  · obtain ⟨b0, b1, r, rfl⟩ := buf_split2 hlen
    refine ⟨_, AmiSetWordToBe_cons _ _ _ _, ?_⟩
    have hi' : i < 2 := hi
    interval_cases i <;> simp [valByte_val, Width.bits]
  · obtain ⟨b0, b1, b2, r, rfl⟩ := buf_split3 hlen
    refine ⟨_, AmiSetDword24ToBe_cons _ _ _ _ _, ?_⟩
    have hi' : i < 3 := hi
    interval_cases i <;> simp [valByte_val, Width.bits]
  · obtain ⟨b0, b1, b2, b3, r, rfl⟩ := buf_split4 hlen
    refine ⟨_, AmiSetDwordToBe_cons _ _ _ _ _ _, ?_⟩
    have hi' : i < 4 := hi
    interval_cases i <;> simp [valByte_val, Width.bits]
  · obtain ⟨b0, b1, b2, b3, b4, r, rfl⟩ := buf_split5 hlen
    refine ⟨_, AmiSetQword40ToBe_cons _ _ _ _ _ _ _, ?_⟩
    have hi' : i < 5 := hi
    interval_cases i <;> simp [valByte_val, Width.bits]
  · obtain ⟨b0, b1, b2, b3, b4, b5, r, rfl⟩ := buf_split6 hlen
    refine ⟨_, AmiSetQword48ToBe_cons _ _ _ _ _ _ _ _, ?_⟩
    have hi' : i < 6 := hi
    interval_cases i <;> simp [valByte_val, Width.bits]
  · obtain ⟨b0, b1, b2, b3, b4, b5, b6, r, rfl⟩ := buf_split7 hlen
    refine ⟨_, AmiSetQword56ToBe_cons _ _ _ _ _ _ _ _ _, ?_⟩
    have hi' : i < 7 := hi
    interval_cases i <;> simp [valByte_val, Width.bits]
  · obtain ⟨b0, b1, b2, b3, b4, b5, b6, b7, r, rfl⟩ := buf_split8 hlen
    refine ⟨_, AmiSetQword64ToBe_cons _ _ _ _ _ _ _ _ _ _, ?_⟩
    have hi' : i < 8 := hi
    interval_cases i <;> simp [valByte_val, Width.bits]

/-- Witness for C3: byte 1 of the 24 bit big-endian encoding of `0x00123456`, and the
literal vectors `0x1234`, `0x12345678` and `0x00123456`. -/
theorem be_set_layout_witness :
    Width.w24.bytes ≤ ([0, 0, 0] : Buf).length ∧ 1 < Width.w24.bytes ∧
    (∃ buf1, setBe Width.w24 [0, 0, 0] 0x123456 = some buf1 ∧
      (buf1[1]?).map Fin.val = some ((0x123456 >>> (Width.w24.bits - 8 * (1 + 1))) &&& 0xFF)) ∧
    setBe Width.w16 [0, 0] 0x1234 = some [0x12, 0x34] ∧
    setBe Width.w32 [0, 0, 0, 0] 0x12345678 = some [0x12, 0x34, 0x56, 0x78] ∧
    setBe Width.w24 [0, 0, 0] 0x123456 = some [0x12, 0x34, 0x56] :=
  ⟨by decide, by decide, be_set_layout Width.w24 [0, 0, 0] 0x123456 1 (by decide) (by decide),
    by decide, by decide, by decide⟩

/-- C4: little-endian `Set` byte layout.  For every width `W`, every value `v` and every
index `i < W/8`, the little-endian `Set` succeeds on a buffer of at least `W/8` bytes and
afterwards the byte at offset `i` equals `(v >> (8*i)) & 0xFF`: offset 0 holds the least
significant byte.  The widths 24, 40, 48 and 56 are written in segments (16+8, 32+8,
32+16, 32+16+8 bits), the widths 16, 32 and 64 by one native store. -/
theorem le_set_layout (w : Width) (buf : Buf) (v i : Nat)
    (hlen : w.bytes ≤ buf.length) (hi : i < w.bytes) :
    ∃ buf1, setLe w buf v = some buf1 ∧
      (buf1[i]?).map Fin.val = some ((v >>> (8 * i)) &&& 0xFF) := by
  cases w
  · obtain ⟨b0, b1, r, rfl⟩ := buf_split2 hlen
    refine ⟨_, AmiSetWordToLe_cons _ _ _ _, ?_⟩
    have hi' : i < 2 := hi
    interval_cases i <;> simp [valByte_val, Width.bits]
  · obtain ⟨b0, b1, b2, r, rfl⟩ := buf_split3 hlen
    refine ⟨_, AmiSetDword24ToLe_cons _ _ _ _ _, ?_⟩
    have hi' : i < 3 := hi
    interval_cases i <;> simp [valByte_val, Width.bits]
  · obtain ⟨b0, b1, b2, b3, r, rfl⟩ := buf_split4 hlen
    refine ⟨_, AmiSetDwordToLe_cons _ _ _ _ _ _, ?_⟩
    have hi' : i < 4 := hi
    interval_cases i <;> simp [valByte_val, Width.bits]
  · obtain ⟨b0, b1, b2, b3, b4, r, rfl⟩ := buf_split5 hlen
    refine ⟨_, AmiSetQword40ToLe_cons _ _ _ _ _ _ _, ?_⟩
    have hi' : i < 5 := hi
    interval_cases i <;> simp [valByte_val, Width.bits]
  · obtain ⟨b0, b1, b2, b3, b4, b5, r, rfl⟩ := buf_split6 hlen
    refine ⟨_, AmiSetQword48ToLe_cons _ _ _ _ _ _ _ _, ?_⟩
    have hi' : i < 6 := hi
    interval_cases i <;> simp [valByte_val, Width.bits]
  · obtain ⟨b0, b1, b2, b3, b4, b5, b6, r, rfl⟩ := buf_split7 hlen
    refine ⟨_, AmiSetQword56ToLe_cons _ _ _ _ _ _ _ _ _, ?_⟩
    have hi' : i < 7 := hi
    interval_cases i <;> simp [valByte_val, Width.bits]
  · obtain ⟨b0, b1, b2, b3, b4, b5, b6, b7, r, rfl⟩ := buf_split8 hlen
    refine ⟨_, AmiSetQword64ToLe_cons _ _ _ _ _ _ _ _ _ _, ?_⟩
    have hi' : i < 8 := hi
    interval_cases i <;> simp [valByte_val, Width.bits]

/-- Witness for C4: byte 2 of the 24 bit little-endian encoding of `0x00ABCDEF` (written
by the 8 bit segment), and the literal vectors `0x1234`, `0x12345678` and `0x00ABCDEF`. -/
theorem le_set_layout_witness :
    Width.w24.bytes ≤ ([0, 0, 0] : Buf).length ∧ 2 < Width.w24.bytes ∧
    (∃ buf1, setLe Width.w24 [0, 0, 0] 0xABCDEF = some buf1 ∧
      (buf1[2]?).map Fin.val = some ((0xABCDEF >>> (8 * 2)) &&& 0xFF)) ∧
    setLe Width.w16 [0, 0] 0x1234 = some [0x34, 0x12] ∧
    setLe Width.w32 [0, 0, 0, 0] 0x12345678 = some [0x78, 0x56, 0x34, 0x12] ∧
    setLe Width.w24 [0, 0, 0] 0xABCDEF = some [0xEF, 0xCD, 0xAB] :=
  ⟨by decide, by decide, le_set_layout Width.w24 [0, 0, 0] 0xABCDEF 2 (by decide) (by decide),
    by decide, by decide, by decide⟩

/-! ## Value returned by the `Get`s -/

/-- C5: little-endian `Get` value.  For every width `W` and every source buffer that
holds the bytes the call accesses, the little-endian `Get` returns exactly the sum over
`i < W/8` of `src[i] * 2 ^ (8*i)`; two such buffers that agree on their first `W/8` bytes
yield the same value, whatever their following bytes are. -/
theorem le_get_value (w : Width) (src : Buf) (hlen : w.leGetSpan ≤ src.length) :
    (∃ buf1, getLe w src
        = some (∑ i in Finset.range w.bytes, (src.getD i 0).val * 2 ^ (8 * i), buf1)) ∧
    ∀ src2 : Buf, w.leGetSpan ≤ src2.length → src2.take w.bytes = src.take w.bytes →
      (getLe w src2).map Prod.fst = (getLe w src).map Prod.fst := by
  cases w
  · obtain ⟨b0, b1, r, rfl⟩ := buf_split2 hlen
    refine ⟨?_, ?_⟩
    · show ∃ buf1, AmiGetWordFromLe _ = _
      rw [AmiGetWordFromLe_cons]
      simp [Finset.sum_range_succ, Width.bytes, Width.bits]
    · intro src2 hlen2 htake
      obtain ⟨c0, c1, r2, rfl⟩ := buf_split2 hlen2
      simp [Width.bytes, Width.bits] at htake
      show (AmiGetWordFromLe _).map Prod.fst = (AmiGetWordFromLe _).map Prod.fst
      rw [AmiGetWordFromLe_cons, AmiGetWordFromLe_cons]
      simp [htake]
  · obtain ⟨b0, b1, b2, b3, r, rfl⟩ := buf_split4 hlen
    refine ⟨?_, ?_⟩
    · show ∃ buf1, AmiGetDword24FromLe _ = _
      rw [AmiGetDword24FromLe_cons]
      simp [Finset.sum_range_succ, Width.bytes, Width.bits]
    · intro src2 hlen2 htake
      obtain ⟨c0, c1, c2, c3, r2, rfl⟩ := buf_split4 hlen2
      simp [Width.bytes, Width.bits] at htake
      show (AmiGetDword24FromLe _).map Prod.fst = (AmiGetDword24FromLe _).map Prod.fst
      rw [AmiGetDword24FromLe_cons, AmiGetDword24FromLe_cons]
      simp [htake]
  · obtain ⟨b0, b1, b2, b3, r, rfl⟩ := buf_split4 hlen
    refine ⟨?_, ?_⟩
    · show ∃ buf1, AmiGetDwordFromLe _ = _
      rw [AmiGetDwordFromLe_cons]
      simp [Finset.sum_range_succ, Width.bytes, Width.bits]
    · intro src2 hlen2 htake
      obtain ⟨c0, c1, c2, c3, r2, rfl⟩ := buf_split4 hlen2
      simp [Width.bytes, Width.bits] at htake
      show (AmiGetDwordFromLe _).map Prod.fst = (AmiGetDwordFromLe _).map Prod.fst
      rw [AmiGetDwordFromLe_cons, AmiGetDwordFromLe_cons]
      simp [htake]
  · obtain ⟨b0, b1, b2, b3, b4, b5, b6, b7, r, rfl⟩ := buf_split8 hlen
    refine ⟨?_, ?_⟩
    · show ∃ buf1, AmiGetQword40FromLe _ = _
      rw [AmiGetQword40FromLe_cons]
      simp [Finset.sum_range_succ, Width.bytes, Width.bits]
    · intro src2 hlen2 htake
      obtain ⟨c0, c1, c2, c3, c4, c5, c6, c7, r2, rfl⟩ := buf_split8 hlen2
      simp [Width.bytes, Width.bits] at htake
      show (AmiGetQword40FromLe _).map Prod.fst = (AmiGetQword40FromLe _).map Prod.fst
      rw [AmiGetQword40FromLe_cons, AmiGetQword40FromLe_cons]
      simp [htake]
  · obtain ⟨b0, b1, b2, b3, b4, b5, b6, b7, r, rfl⟩ := buf_split8 hlen
    refine ⟨?_, ?_⟩
    · show ∃ buf1, AmiGetQword48FromLe _ = _
      rw [AmiGetQword48FromLe_cons]
      simp [Finset.sum_range_succ, Width.bytes, Width.bits]
    · intro src2 hlen2 htake
      obtain ⟨c0, c1, c2, c3, c4, c5, c6, c7, r2, rfl⟩ := buf_split8 hlen2
      simp [Width.bytes, Width.bits] at htake
      show (AmiGetQword48FromLe _).map Prod.fst = (AmiGetQword48FromLe _).map Prod.fst
      rw [AmiGetQword48FromLe_cons, AmiGetQword48FromLe_cons]
      simp [htake]
  · obtain ⟨b0, b1, b2, b3, b4, b5, b6, b7, r, rfl⟩ := buf_split8 hlen
    refine ⟨?_, ?_⟩
    · show ∃ buf1, AmiGetQword56FromLe _ = _
      rw [AmiGetQword56FromLe_cons]
      simp [Finset.sum_range_succ, Width.bytes, Width.bits]
    · intro src2 hlen2 htake
      obtain ⟨c0, c1, c2, c3, c4, c5, c6, c7, r2, rfl⟩ := buf_split8 hlen2
      simp [Width.bytes, Width.bits] at htake
      show (AmiGetQword56FromLe _).map Prod.fst = (AmiGetQword56FromLe _).map Prod.fst
      rw [AmiGetQword56FromLe_cons, AmiGetQword56FromLe_cons]
      simp [htake]
  · obtain ⟨b0, b1, b2, b3, b4, b5, b6, b7, r, rfl⟩ := buf_split8 hlen
    refine ⟨?_, ?_⟩
    · show ∃ buf1, AmiGetQword64FromLe _ = _
      rw [AmiGetQword64FromLe_cons]
      simp [Finset.sum_range_succ, Width.bytes, Width.bits]
    · intro src2 hlen2 htake
      obtain ⟨c0, c1, c2, c3, c4, c5, c6, c7, r2, rfl⟩ := buf_split8 hlen2
      simp [Width.bytes, Width.bits] at htake
      show (AmiGetQword64FromLe _).map Prod.fst = (AmiGetQword64FromLe _).map Prod.fst
      rw [AmiGetQword64FromLe_cons, AmiGetQword64FromLe_cons]
      simp [htake]

/-- Witness for C5: the 24 bit little-endian `Get` on `[0x01, 0x02, 0x03, 0xFF]` and on
`[0x01, 0x02, 0x03, 0x00]`, which agree on their first three bytes. -/
theorem le_get_value_witness :
    Width.w24.leGetSpan ≤ ([0x01, 0x02, 0x03, 0xFF] : Buf).length ∧
    (∃ buf1, getLe Width.w24 [0x01, 0x02, 0x03, 0xFF]
        = some (∑ i in Finset.range Width.w24.bytes,
            (([0x01, 0x02, 0x03, 0xFF] : Buf).getD i 0).val * 2 ^ (8 * i), buf1)) ∧
    (getLe Width.w24 [0x01, 0x02, 0x03, 0x00]).map Prod.fst
      = (getLe Width.w24 [0x01, 0x02, 0x03, 0xFF]).map Prod.fst ∧
    (getLe Width.w24 [0x01, 0x02, 0x03, 0xFF]).map Prod.fst = some 0x030201 :=
  ⟨by decide, (le_get_value Width.w24 [0x01, 0x02, 0x03, 0xFF] (by decide)).1,
    (le_get_value Width.w24 [0x01, 0x02, 0x03, 0xFF] (by decide)).2
      [0x01, 0x02, 0x03, 0x00] (by decide) (by decide),
    by decide⟩

/-- C6: big-endian `Get` value.  For every width `W` and every source buffer of at least
`W/8` bytes, the big-endian `Get` returns exactly the sum over `i < W/8` of
`src[i] * 2 ^ (W - 8*(i+1))`, a value below `2 ^ W` (zero-extended in its carrier), and
leaves the choice of the value to the first `W/8` bytes only. -/
theorem be_get_value (w : Width) (src : Buf) (hlen : w.bytes ≤ src.length) :
    (∃ buf1, getBe w src
        = some (∑ i in Finset.range w.bytes,
            (src.getD i 0).val * 2 ^ (w.bits - 8 * (i + 1)), buf1)) ∧
    (∑ i in Finset.range w.bytes, (src.getD i 0).val * 2 ^ (w.bits - 8 * (i + 1)))
      < 2 ^ w.bits ∧
    ∀ src2 : Buf, w.bytes ≤ src2.length → src2.take w.bytes = src.take w.bytes →
      (getBe w src2).map Prod.fst = (getBe w src).map Prod.fst := by
  cases w
  · obtain ⟨b0, b1, r, rfl⟩ := buf_split2 hlen
    refine ⟨?_, ?_, ?_⟩
    · show ∃ buf1, AmiGetWordFromBe _ = _
      rw [AmiGetWordFromBe_cons]
      simp [Finset.sum_range_succ, Width.bytes, Width.bits]
    · simp [Finset.sum_range_succ, Width.bytes, Width.bits]
      omega
    · intro src2 hlen2 htake
      obtain ⟨c0, c1, r2, rfl⟩ := buf_split2 hlen2
      simp [Width.bytes, Width.bits] at htake
      show (AmiGetWordFromBe _).map Prod.fst = (AmiGetWordFromBe _).map Prod.fst
      rw [AmiGetWordFromBe_cons, AmiGetWordFromBe_cons]
      simp [htake]
  · obtain ⟨b0, b1, b2, r, rfl⟩ := buf_split3 hlen
    refine ⟨?_, ?_, ?_⟩
    · show ∃ buf1, AmiGetDword24FromBe _ = _
      rw [AmiGetDword24FromBe_cons]
      simp [Finset.sum_range_succ, Width.bytes, Width.bits]
    · simp [Finset.sum_range_succ, Width.bytes, Width.bits]
      omega
    · intro src2 hlen2 htake
      obtain ⟨c0, c1, c2, r2, rfl⟩ := buf_split3 hlen2
      simp [Width.bytes, Width.bits] at htake
      show (AmiGetDword24FromBe _).map Prod.fst = (AmiGetDword24FromBe _).map Prod.fst
      rw [AmiGetDword24FromBe_cons, AmiGetDword24FromBe_cons]
      simp [htake]
  · obtain ⟨b0, b1, b2, b3, r, rfl⟩ := buf_split4 hlen
    refine ⟨?_, ?_, ?_⟩
    · show ∃ buf1, AmiGetDwordFromBe _ = _
      rw [AmiGetDwordFromBe_cons]
      simp [Finset.sum_range_succ, Width.bytes, Width.bits]
    · simp [Finset.sum_range_succ, Width.bytes, Width.bits]
      omega
    · intro src2 hlen2 htake
      obtain ⟨c0, c1, c2, c3, r2, rfl⟩ := buf_split4 hlen2
      simp [Width.bytes, Width.bits] at htake
      show (AmiGetDwordFromBe _).map Prod.fst = (AmiGetDwordFromBe _).map Prod.fst
      rw [AmiGetDwordFromBe_cons, AmiGetDwordFromBe_cons]
      simp [htake]
  · obtain ⟨b0, b1, b2, b3, b4, r, rfl⟩ := buf_split5 hlen
    refine ⟨?_, ?_, ?_⟩
    · show ∃ buf1, AmiGetQword40FromBe _ = _
      rw [AmiGetQword40FromBe_cons]
      simp [Finset.sum_range_succ, Width.bytes, Width.bits]
    · simp [Finset.sum_range_succ, Width.bytes, Width.bits]
      omega
    · intro src2 hlen2 htake
      obtain ⟨c0, c1, c2, c3, c4, r2, rfl⟩ := buf_split5 hlen2
      simp [Width.bytes, Width.bits] at htake
      show (AmiGetQword40FromBe _).map Prod.fst = (AmiGetQword40FromBe _).map Prod.fst
      rw [AmiGetQword40FromBe_cons, AmiGetQword40FromBe_cons]
      simp [htake]
  · obtain ⟨b0, b1, b2, b3, b4, b5, r, rfl⟩ := buf_split6 hlen
    refine ⟨?_, ?_, ?_⟩
    · show ∃ buf1, AmiGetQword48FromBe _ = _
      rw [AmiGetQword48FromBe_cons]
      simp [Finset.sum_range_succ, Width.bytes, Width.bits]
    · simp [Finset.sum_range_succ, Width.bytes, Width.bits]
      omega
    · intro src2 hlen2 htake
      obtain ⟨c0, c1, c2, c3, c4, c5, r2, rfl⟩ := buf_split6 hlen2
      simp [Width.bytes, Width.bits] at htake
      show (AmiGetQword48FromBe _).map Prod.fst = (AmiGetQword48FromBe _).map Prod.fst
      rw [AmiGetQword48FromBe_cons, AmiGetQword48FromBe_cons]
      simp [htake]
  · obtain ⟨b0, b1, b2, b3, b4, b5, b6, r, rfl⟩ := buf_split7 hlen
    refine ⟨?_, ?_, ?_⟩
    · show ∃ buf1, AmiGetQword56FromBe _ = _
      rw [AmiGetQword56FromBe_cons]
      simp [Finset.sum_range_succ, Width.bytes, Width.bits]
    · simp [Finset.sum_range_succ, Width.bytes, Width.bits]
      omega
    · intro src2 hlen2 htake
      obtain ⟨c0, c1, c2, c3, c4, c5, c6, r2, rfl⟩ := buf_split7 hlen2
      simp [Width.bytes, Width.bits] at htake
      show (AmiGetQword56FromBe _).map Prod.fst = (AmiGetQword56FromBe _).map Prod.fst
      rw [AmiGetQword56FromBe_cons, AmiGetQword56FromBe_cons]
      simp [htake]
  · obtain ⟨b0, b1, b2, b3, b4, b5, b6, b7, r, rfl⟩ := buf_split8 hlen
    refine ⟨?_, ?_, ?_⟩
    · show ∃ buf1, AmiGetQword64FromBe _ = _
      rw [AmiGetQword64FromBe_cons]
      simp [Finset.sum_range_succ, Width.bytes, Width.bits]
    · simp [Finset.sum_range_succ, Width.bytes, Width.bits]
      omega
    · intro src2 hlen2 htake
      obtain ⟨c0, c1, c2, c3, c4, c5, c6, c7, r2, rfl⟩ := buf_split8 hlen2
      simp [Width.bytes, Width.bits] at htake
      show (AmiGetQword64FromBe _).map Prod.fst = (AmiGetQword64FromBe _).map Prod.fst
      rw [AmiGetQword64FromBe_cons, AmiGetQword64FromBe_cons]
      simp [htake]

/-- Witness for C6: the 24 bit big-endian `Get` on `[0x12, 0x34, 0x56]`. -/
theorem be_get_value_witness :
    Width.w24.bytes ≤ ([0x12, 0x34, 0x56] : Buf).length ∧
    (∃ buf1, getBe Width.w24 [0x12, 0x34, 0x56]
        = some (∑ i in Finset.range Width.w24.bytes,
            (([0x12, 0x34, 0x56] : Buf).getD i 0).val * 2 ^ (Width.w24.bits - 8 * (i + 1)),
          buf1)) ∧
    (getBe Width.w24 [0x12, 0x34, 0x56]).map Prod.fst = some 0x123456 :=
  ⟨by decide, (be_get_value Width.w24 [0x12, 0x34, 0x56] (by decide)).1, by decide⟩

/-! ## Frame properties -/

/-- C7: `Set` non-interference.  For every width `W`, both byte orders, every value `v`
and every buffer of at least `W/8` bytes, the `Set` succeeds, the buffer keeps its length
and every byte at an offset `≥ W/8` keeps the value it had before the call. -/
theorem set_frame (w : Width) (buf : Buf) (v : Nat) (hlen : w.bytes ≤ buf.length) :
    (∃ buf1, setBe w buf v = some buf1 ∧ buf1.length = buf.length ∧
      ∀ j, w.bytes ≤ j → buf1[j]? = buf[j]?) ∧
    (∃ buf1, setLe w buf v = some buf1 ∧ buf1.length = buf.length ∧
      ∀ j, w.bytes ≤ j → buf1[j]? = buf[j]?) := by
  cases w
  · obtain ⟨b0, b1, r, rfl⟩ := buf_split2 hlen
    refine ⟨⟨_, AmiSetWordToBe_cons _ _ _ _, by simp, ?_⟩,
      ⟨_, AmiSetWordToLe_cons _ _ _ _, by simp, ?_⟩⟩ <;>
    · intro j hj
      obtain ⟨k, rfl⟩ : ∃ k, j = k + 2 := ⟨j - 2, by have hj' : 2 ≤ j := hj; omega⟩
      simp
  · obtain ⟨b0, b1, b2, r, rfl⟩ := buf_split3 hlen
    refine ⟨⟨_, AmiSetDword24ToBe_cons _ _ _ _ _, by simp, ?_⟩,
      ⟨_, AmiSetDword24ToLe_cons _ _ _ _ _, by simp, ?_⟩⟩ <;>
    · intro j hj
      obtain ⟨k, rfl⟩ : ∃ k, j = k + 3 := ⟨j - 3, by have hj' : 3 ≤ j := hj; omega⟩
      simp
  · obtain ⟨b0, b1, b2, b3, r, rfl⟩ := buf_split4 hlen
    refine ⟨⟨_, AmiSetDwordToBe_cons _ _ _ _ _ _, by simp, ?_⟩,
      ⟨_, AmiSetDwordToLe_cons _ _ _ _ _ _, by simp, ?_⟩⟩ <;>
    · intro j hj
      obtain ⟨k, rfl⟩ : ∃ k, j = k + 4 := ⟨j - 4, by have hj' : 4 ≤ j := hj; omega⟩
      simp
  · obtain ⟨b0, b1, b2, b3, b4, r, rfl⟩ := buf_split5 hlen
    refine ⟨⟨_, AmiSetQword40ToBe_cons _ _ _ _ _ _ _, by simp, ?_⟩,
      ⟨_, AmiSetQword40ToLe_cons _ _ _ _ _ _ _, by simp, ?_⟩⟩ <;>
    · intro j hj
      obtain ⟨k, rfl⟩ : ∃ k, j = k + 5 := ⟨j - 5, by have hj' : 5 ≤ j := hj; omega⟩
      simp
  · obtain ⟨b0, b1, b2, b3, b4, b5, r, rfl⟩ := buf_split6 hlen
    refine ⟨⟨_, AmiSetQword48ToBe_cons _ _ _ _ _ _ _ _, by simp, ?_⟩,
      ⟨_, AmiSetQword48ToLe_cons _ _ _ _ _ _ _ _, by simp, ?_⟩⟩ <;>
    · intro j hj
      obtain ⟨k, rfl⟩ : ∃ k, j = k + 6 := ⟨j - 6, by have hj' : 6 ≤ j := hj; omega⟩
      simp
  · obtain ⟨b0, b1, b2, b3, b4, b5, b6, r, rfl⟩ := buf_split7 hlen
    refine ⟨⟨_, AmiSetQword56ToBe_cons _ _ _ _ _ _ _ _ _, by simp, ?_⟩,
      ⟨_, AmiSetQword56ToLe_cons _ _ _ _ _ _ _ _ _, by simp, ?_⟩⟩ <;>
    · intro j hj
      obtain ⟨k, rfl⟩ : ∃ k, j = k + 7 := ⟨j - 7, by have hj' : 7 ≤ j := hj; omega⟩
      simp
  · obtain ⟨b0, b1, b2, b3, b4, b5, b6, b7, r, rfl⟩ := buf_split8 hlen
    refine ⟨⟨_, AmiSetQword64ToBe_cons _ _ _ _ _ _ _ _ _ _, by simp, ?_⟩,
      ⟨_, AmiSetQword64ToLe_cons _ _ _ _ _ _ _ _ _ _, by simp, ?_⟩⟩ <;>
    · intro j hj
      obtain ⟨k, rfl⟩ : ∃ k, j = k + 8 := ⟨j - 8, by have hj' : 8 ≤ j := hj; omega⟩
      simp

/-- Witness for C7: the 24 bit little-endian (and big-endian) `Set` of `0x00ABCDEF` on a
four byte buffer; `buf[3]` is not altered. -/
theorem set_frame_witness :
    Width.w24.bytes ≤ ([0x11, 0x22, 0x33, 0x44] : Buf).length ∧
    ((∃ buf1, setBe Width.w24 [0x11, 0x22, 0x33, 0x44] 0xABCDEF = some buf1 ∧
        buf1.length = ([0x11, 0x22, 0x33, 0x44] : Buf).length ∧
        ∀ j, Width.w24.bytes ≤ j → buf1[j]? = ([0x11, 0x22, 0x33, 0x44] : Buf)[j]?) ∧
      (∃ buf1, setLe Width.w24 [0x11, 0x22, 0x33, 0x44] 0xABCDEF = some buf1 ∧
        buf1.length = ([0x11, 0x22, 0x33, 0x44] : Buf).length ∧
        ∀ j, Width.w24.bytes ≤ j → buf1[j]? = ([0x11, 0x22, 0x33, 0x44] : Buf)[j]?)) ∧
    setLe Width.w24 [0x11, 0x22, 0x33, 0x44] 0xABCDEF = some [0xEF, 0xCD, 0xAB, 0x44] :=
  ⟨by decide, set_frame Width.w24 [0x11, 0x22, 0x33, 0x44] 0xABCDEF (by decide), by decide⟩

/-- C8 (the code at the failing input): `AmiGetDword24FromLe` on the four byte buffer
`[0x01, 0x02, 0x03, 0xFF]` returns `0x030201` and leaves `[0x01, 0x02, 0x03, 0x00]`: the
compound assignment `*pVal &= 0x00FFFFFFL` stores the masked carrier back through
`pAddr_p` and clears the byte at offset 3, which lies outside the three byte field. -/
theorem AmiGetDword24FromLe_clears_byte3 :
    getLe Width.w24 [0x01, 0x02, 0x03, 0xFF] = some (0x030201, [0x01, 0x02, 0x03, 0x00]) ∧
    ([0x01, 0x02, 0x03, 0x00] : Buf) ≠ [0x01, 0x02, 0x03, 0xFF] := by
  decide

/-! ## Bytes a `Get` needs -/

/-- C9 as stated fails: the 24 bit little-endian `Get` applied to a region of exactly
`W/8 = 3` bytes is not defined, because it loads a whole `UINT32` and so accesses
offset 3. -/
theorem le_get24_three_bytes_undefined :
    ([0x01, 0x02, 0x03] : Buf).length = Width.w24.bytes ∧
    getLe Width.w24 [0x01, 0x02, 0x03] = none := by
  decide

/-- C9 (amended): the big-endian `Get` of every width is defined exactly on the regions
of at least `W/8` bytes.  The little-endian `Get` is defined exactly on the regions that
hold the type it loads: `W/8` bytes for the native widths 16, 32 and 64, the whole
carrier (4 bytes for `W = 24`, 8 bytes for `W = 40, 48, 56`) for the partial widths. -/
theorem get_defined_iff (w : Width) (src : Buf) :
    ((getBe w src).isSome = true ↔ w.bytes ≤ src.length) ∧
    ((getLe w src).isSome = true ↔ w.leGetSpan ≤ src.length) ∧
    w.leGetSpan = (if w.isNarrow = true then w.carrier / 8 else w.bytes) := by
  cases w
  · exact ⟨AmiGetWordFromBe_isSome src, AmiGetWordFromLe_isSome src, rfl⟩
  · exact ⟨AmiGetDword24FromBe_isSome src, AmiGetDword24FromLe_isSome src, rfl⟩
  · exact ⟨AmiGetDwordFromBe_isSome src, AmiGetDwordFromLe_isSome src, rfl⟩
  · exact ⟨AmiGetQword40FromBe_isSome src, AmiGetQword40FromLe_isSome src, rfl⟩
  · exact ⟨AmiGetQword48FromBe_isSome src, AmiGetQword48FromLe_isSome src, rfl⟩
  · exact ⟨AmiGetQword56FromBe_isSome src, AmiGetQword56FromLe_isSome src, rfl⟩
  · exact ⟨AmiGetQword64FromBe_isSome src, AmiGetQword64FromLe_isSome src, rfl⟩

/-! ## Zero extension of the partial widths -/

/-- C10: partial-width decode is zero-extended.  For every partial width `W` (24, 40,
48, 56), both byte orders and every source buffer, a value returned by the `Get` is
below `2 ^ W`, and the `Get` does return a value on every buffer that holds the bytes it
accesses. -/
theorem narrow_get_zero_extended (w : Width) (src : Buf) (hp : w.isNarrow = true) :
    (∀ r, getBe w src = some r → r.1 < 2 ^ w.bits) ∧
    (∀ r, getLe w src = some r → r.1 < 2 ^ w.bits) ∧
    (w.bytes ≤ src.length → (getBe w src).isSome = true) ∧
    (w.leGetSpan ≤ src.length → (getLe w src).isSome = true) := by
  cases w
  · cases hp
  · refine ⟨?_, ?_, (AmiGetDword24FromBe_isSome src).2, (AmiGetDword24FromLe_isSome src).2⟩
    · intro r h
      have hl := (AmiGetDword24FromBe_isSome src).1 (by
        rw [show AmiGetDword24FromBe src = some r from h]
        rfl)
      obtain ⟨b0, b1, b2, t, rfl⟩ := buf_split3 hl
      change AmiGetDword24FromBe _ = _ at h
      rw [AmiGetDword24FromBe_cons] at h
      cases h
      show _ < 2 ^ 24
      omega
    · intro r h
      have hl := (AmiGetDword24FromLe_isSome src).1 (by
        rw [show AmiGetDword24FromLe src = some r from h]
        rfl)
      obtain ⟨b0, b1, b2, b3, t, rfl⟩ := buf_split4 hl
      change AmiGetDword24FromLe _ = _ at h
      rw [AmiGetDword24FromLe_cons] at h
      cases h
      show _ < 2 ^ 24
      omega
  · cases hp
  · refine ⟨?_, ?_, (AmiGetQword40FromBe_isSome src).2, (AmiGetQword40FromLe_isSome src).2⟩
    · intro r h
      have hl := (AmiGetQword40FromBe_isSome src).1 (by
        rw [show AmiGetQword40FromBe src = some r from h]
        rfl)
      obtain ⟨b0, b1, b2, b3, b4, t, rfl⟩ := buf_split5 hl
      change AmiGetQword40FromBe _ = _ at h
      rw [AmiGetQword40FromBe_cons] at h
      cases h
      show _ < 2 ^ 40
      omega
    · intro r h
      have hl := (AmiGetQword40FromLe_isSome src).1 (by
        rw [show AmiGetQword40FromLe src = some r from h]
        rfl)
      obtain ⟨b0, b1, b2, b3, b4, b5, b6, b7, t, rfl⟩ := buf_split8 hl
      change AmiGetQword40FromLe _ = _ at h
      rw [AmiGetQword40FromLe_cons] at h
      cases h
      show _ < 2 ^ 40
      omega
  · refine ⟨?_, ?_, (AmiGetQword48FromBe_isSome src).2, (AmiGetQword48FromLe_isSome src).2⟩
    · intro r h
      have hl := (AmiGetQword48FromBe_isSome src).1 (by
        rw [show AmiGetQword48FromBe src = some r from h]
        rfl)
      obtain ⟨b0, b1, b2, b3, b4, b5, t, rfl⟩ := buf_split6 hl
      change AmiGetQword48FromBe _ = _ at h
      rw [AmiGetQword48FromBe_cons] at h
      cases h
      show _ < 2 ^ 48
      omega
    · intro r h
      have hl := (AmiGetQword48FromLe_isSome src).1 (by
        rw [show AmiGetQword48FromLe src = some r from h]
        rfl)
      obtain ⟨b0, b1, b2, b3, b4, b5, b6, b7, t, rfl⟩ := buf_split8 hl
      change AmiGetQword48FromLe _ = _ at h
      rw [AmiGetQword48FromLe_cons] at h
      cases h
      show _ < 2 ^ 48
      omega
  · refine ⟨?_, ?_, (AmiGetQword56FromBe_isSome src).2, (AmiGetQword56FromLe_isSome src).2⟩
    · intro r h
      have hl := (AmiGetQword56FromBe_isSome src).1 (by
        rw [show AmiGetQword56FromBe src = some r from h]
        rfl)
      obtain ⟨b0, b1, b2, b3, b4, b5, b6, t, rfl⟩ := buf_split7 hl
      change AmiGetQword56FromBe _ = _ at h
      rw [AmiGetQword56FromBe_cons] at h
      cases h
      show _ < 2 ^ 56
      omega
    · intro r h
      have hl := (AmiGetQword56FromLe_isSome src).1 (by
        rw [show AmiGetQword56FromLe src = some r from h]
        rfl)
      obtain ⟨b0, b1, b2, b3, b4, b5, b6, b7, t, rfl⟩ := buf_split8 hl
      change AmiGetQword56FromLe _ = _ at h
      rw [AmiGetQword56FromLe_cons] at h
      cases h
      show _ < 2 ^ 56
      omega
  · cases hp

/-- Witness for C10: the 24 bit `Get`s on a buffer whose byte at offset 3 is `0xFF`. -/
theorem narrow_get_zero_extended_witness :
    Width.w24.isNarrow = true ∧
    ((∀ r, getBe Width.w24 [0xFF, 0xFF, 0xFF, 0xFF] = some r → r.1 < 2 ^ Width.w24.bits) ∧
      (∀ r, getLe Width.w24 [0xFF, 0xFF, 0xFF, 0xFF] = some r → r.1 < 2 ^ Width.w24.bits) ∧
      (Width.w24.bytes ≤ ([0xFF, 0xFF, 0xFF, 0xFF] : Buf).length →
        (getBe Width.w24 [0xFF, 0xFF, 0xFF, 0xFF]).isSome = true) ∧
      (Width.w24.leGetSpan ≤ ([0xFF, 0xFF, 0xFF, 0xFF] : Buf).length →
        (getLe Width.w24 [0xFF, 0xFF, 0xFF, 0xFF]).isSome = true)) ∧
    (getLe Width.w24 [0xFF, 0xFF, 0xFF, 0xFF]).map Prod.fst = some 0x00FFFFFF ∧
    (getBe Width.w24 [0xFF, 0xFF, 0xFF, 0xFF]).map Prod.fst = some 0x00FFFFFF :=
  ⟨rfl, narrow_get_zero_extended Width.w24 [0xFF, 0xFF, 0xFF, 0xFF] rfl, by decide, by decide⟩

/-! ## Carrier bits above the field width -/

theorem valByte_mod24 (v k : Nat) (hk : k < 3) : valByte (v % 2 ^ 24) k = valByte v k := by
  interval_cases k <;> simp [valByte, byteOf] <;> omega

theorem valByte_mod40 (v k : Nat) (hk : k < 5) : valByte (v % 2 ^ 40) k = valByte v k := by
  interval_cases k <;> simp [valByte, byteOf] <;> omega

theorem valByte_mod48 (v k : Nat) (hk : k < 6) : valByte (v % 2 ^ 48) k = valByte v k := by
  interval_cases k <;> simp [valByte, byteOf] <;> omega

theorem valByte_mod56 (v k : Nat) (hk : k < 7) : valByte (v % 2 ^ 56) k = valByte v k := by
  interval_cases k <;> simp [valByte, byteOf] <;> omega

theorem valWord_mod24 (v : Nat) : valWord (v % 2 ^ 24) 0 = valWord v 0 := by
  simp [valWord]; omega

theorem valDword_mod40 (v : Nat) : valDword (v % 2 ^ 40) 0 = valDword v 0 := by
  simp [valDword]; omega

theorem valDword_mod48 (v : Nat) : valDword (v % 2 ^ 48) 0 = valDword v 0 := by
  simp [valDword]; omega

theorem valDword_mod56 (v : Nat) : valDword (v % 2 ^ 56) 0 = valDword v 0 := by
  simp [valDword]; omega

theorem valWord_mod48 (v : Nat) : valWord (v % 2 ^ 48) 2 = valWord v 2 := by
  simp [valWord]; omega

theorem valWord_mod56 (v : Nat) : valWord (v % 2 ^ 56) 2 = valWord v 2 := by
  simp [valWord]; omega

theorem set_mod24 (buf : Buf) (v : Nat) :
    AmiSetDword24ToBe buf (v % 2 ^ 24) = AmiSetDword24ToBe buf v ∧
    AmiSetDword24ToLe buf (v % 2 ^ 24) = AmiSetDword24ToLe buf v := by
  simp only [AmiSetDword24ToBe, AmiSetDword24ToLe, valWord_mod24, valByte_mod24 v 0 (by decide),
    valByte_mod24 v 1 (by decide), valByte_mod24 v 2 (by decide), and_self]

theorem set_mod40 (buf : Buf) (v : Nat) :
    AmiSetQword40ToBe buf (v % 2 ^ 40) = AmiSetQword40ToBe buf v ∧
    AmiSetQword40ToLe buf (v % 2 ^ 40) = AmiSetQword40ToLe buf v := by
  simp only [AmiSetQword40ToBe, AmiSetQword40ToLe, valDword_mod40, valByte_mod40 v 0 (by decide),
    valByte_mod40 v 1 (by decide), valByte_mod40 v 2 (by decide), valByte_mod40 v 3 (by decide),
    valByte_mod40 v 4 (by decide), and_self]

theorem set_mod48 (buf : Buf) (v : Nat) :
    AmiSetQword48ToBe buf (v % 2 ^ 48) = AmiSetQword48ToBe buf v ∧
    AmiSetQword48ToLe buf (v % 2 ^ 48) = AmiSetQword48ToLe buf v := by
  simp only [AmiSetQword48ToBe, AmiSetQword48ToLe, valDword_mod48, valWord_mod48,
    valByte_mod48 v 0 (by decide),
    valByte_mod48 v 1 (by decide), valByte_mod48 v 2 (by decide), valByte_mod48 v 3 (by decide),
    valByte_mod48 v 4 (by decide), valByte_mod48 v 5 (by decide), and_self]

theorem set_mod56 (buf : Buf) (v : Nat) :
    AmiSetQword56ToBe buf (v % 2 ^ 56) = AmiSetQword56ToBe buf v ∧
    AmiSetQword56ToLe buf (v % 2 ^ 56) = AmiSetQword56ToLe buf v := by
  simp only [AmiSetQword56ToBe, AmiSetQword56ToLe, valDword_mod56, valWord_mod56,
    valByte_mod56 v 0 (by decide),
    valByte_mod56 v 1 (by decide), valByte_mod56 v 2 (by decide), valByte_mod56 v 3 (by decide),
    valByte_mod56 v 4 (by decide), valByte_mod56 v 5 (by decide), valByte_mod56 v 6 (by decide),
    and_self]

/-- C11: `Set` ignores the carrier bits above `W`.  For every partial width `W` (24, 40,
48, 56), both byte orders, every buffer and every value `v`, the `Set` of `v` produces
the same result as the `Set` of `v mod 2 ^ W`; consequently the matching `Get` after
the `Set` returns `v mod 2 ^ W` on every buffer that holds the bytes the calls access. -/
theorem set_ignores_high_bits (w : Width) (buf : Buf) (v : Nat) (hn : w.isNarrow = true) :
    setBe w buf v = setBe w buf (v % 2 ^ w.bits) ∧
    setLe w buf v = setLe w buf (v % 2 ^ w.bits) ∧
    (w.bytes ≤ buf.length →
      ∃ m1 m2, setBe w buf v = some m1 ∧ getBe w m1 = some (v % 2 ^ w.bits, m2)) ∧
    (w.leGetSpan ≤ buf.length →
      ∃ m1 m2, setLe w buf v = some m1 ∧ getLe w m1 = some (v % 2 ^ w.bits, m2)) := by
  cases w
  · cases hn
  · have hbe := valByte_sum_be24 (v % 2 ^ 24) (Nat.mod_lt _ (by positivity))
    have hle := valByte_sum_le24 (v % 2 ^ 24) (Nat.mod_lt _ (by positivity))
    simp only [valByte_mod24 v 0 (by decide), valByte_mod24 v 1 (by decide), valByte_mod24 v 2 (by decide)] at hbe hle
    refine ⟨(set_mod24 buf v).1.symm, (set_mod24 buf v).2.symm, fun hlen => ?_, fun hlen => ?_⟩
    · obtain ⟨b0, b1, b2, r, rfl⟩ := buf_split3 hlen
      exact ⟨_, _, AmiSetDword24ToBe_cons _ _ _ _ _, by
        show AmiGetDword24FromBe _ = _
        rw [AmiGetDword24FromBe_cons, hbe]
        rfl⟩
    · obtain ⟨b0, b1, b2, b3, r, rfl⟩ := buf_split4 hlen
      exact ⟨_, _, AmiSetDword24ToLe_cons _ _ _ _ _, by
        show AmiGetDword24FromLe _ = _
        rw [AmiGetDword24FromLe_cons, hle]
        rfl⟩
  · cases hn
  · have hbe := valByte_sum_be40 (v % 2 ^ 40) (Nat.mod_lt _ (by positivity))
    have hle := valByte_sum_le40 (v % 2 ^ 40) (Nat.mod_lt _ (by positivity))
    simp only [valByte_mod40 v 0 (by decide), valByte_mod40 v 1 (by decide), valByte_mod40 v 2 (by decide), valByte_mod40 v 3 (by decide), valByte_mod40 v 4 (by decide)] at hbe hle
    refine ⟨(set_mod40 buf v).1.symm, (set_mod40 buf v).2.symm, fun hlen => ?_, fun hlen => ?_⟩
    · obtain ⟨b0, b1, b2, b3, b4, r, rfl⟩ := buf_split5 hlen
      exact ⟨_, _, AmiSetQword40ToBe_cons _ _ _ _ _ _ _, by
        show AmiGetQword40FromBe _ = _
        rw [AmiGetQword40FromBe_cons, hbe]
        rfl⟩
    · obtain ⟨b0, b1, b2, b3, b4, b5, b6, b7, r, rfl⟩ := buf_split8 hlen
      exact ⟨_, _, AmiSetQword40ToLe_cons _ _ _ _ _ _ _, by
        show AmiGetQword40FromLe _ = _
        rw [AmiGetQword40FromLe_cons, hle]
        rfl⟩
  · have hbe := valByte_sum_be48 (v % 2 ^ 48) (Nat.mod_lt _ (by positivity))
    have hle := valByte_sum_le48 (v % 2 ^ 48) (Nat.mod_lt _ (by positivity))
    simp only [valByte_mod48 v 0 (by decide), valByte_mod48 v 1 (by decide), valByte_mod48 v 2 (by decide), valByte_mod48 v 3 (by decide), valByte_mod48 v 4 (by decide), valByte_mod48 v 5 (by decide)] at hbe hle
    refine ⟨(set_mod48 buf v).1.symm, (set_mod48 buf v).2.symm, fun hlen => ?_, fun hlen => ?_⟩
    · obtain ⟨b0, b1, b2, b3, b4, b5, r, rfl⟩ := buf_split6 hlen
      exact ⟨_, _, AmiSetQword48ToBe_cons _ _ _ _ _ _ _ _, by
        show AmiGetQword48FromBe _ = _
        rw [AmiGetQword48FromBe_cons, hbe]
        rfl⟩
    · obtain ⟨b0, b1, b2, b3, b4, b5, b6, b7, r, rfl⟩ := buf_split8 hlen
      exact ⟨_, _, AmiSetQword48ToLe_cons _ _ _ _ _ _ _ _, by
        show AmiGetQword48FromLe _ = _
        rw [AmiGetQword48FromLe_cons, hle]
        rfl⟩
  · have hbe := valByte_sum_be56 (v % 2 ^ 56) (Nat.mod_lt _ (by positivity))
    have hle := valByte_sum_le56 (v % 2 ^ 56) (Nat.mod_lt _ (by positivity))
    simp only [valByte_mod56 v 0 (by decide), valByte_mod56 v 1 (by decide), valByte_mod56 v 2 (by decide), valByte_mod56 v 3 (by decide), valByte_mod56 v 4 (by decide), valByte_mod56 v 5 (by decide), valByte_mod56 v 6 (by decide)] at hbe hle
    refine ⟨(set_mod56 buf v).1.symm, (set_mod56 buf v).2.symm, fun hlen => ?_, fun hlen => ?_⟩
    · obtain ⟨b0, b1, b2, b3, b4, b5, b6, r, rfl⟩ := buf_split7 hlen
      exact ⟨_, _, AmiSetQword56ToBe_cons _ _ _ _ _ _ _ _ _, by
        show AmiGetQword56FromBe _ = _
        rw [AmiGetQword56FromBe_cons, hbe]
        rfl⟩
    · obtain ⟨b0, b1, b2, b3, b4, b5, b6, b7, r, rfl⟩ := buf_split8 hlen
      exact ⟨_, _, AmiSetQword56ToLe_cons _ _ _ _ _ _ _ _ _, by
        show AmiGetQword56FromLe _ = _
        rw [AmiGetQword56FromLe_cons, hle]
        rfl⟩
  · cases hn

/-- Witness for C11: the 24 bit `Set`s of the carrier value `0xFF123456` on a four byte
buffer; the `Get`s return `0x00123456`. -/
theorem set_ignores_high_bits_witness :
    Width.w24.isNarrow = true ∧
    (setBe Width.w24 [0, 0, 0, 0] 0xFF123456
        = setBe Width.w24 [0, 0, 0, 0] (0xFF123456 % 2 ^ Width.w24.bits) ∧
      setLe Width.w24 [0, 0, 0, 0] 0xFF123456
        = setLe Width.w24 [0, 0, 0, 0] (0xFF123456 % 2 ^ Width.w24.bits) ∧
      (Width.w24.bytes ≤ ([0, 0, 0, 0] : Buf).length →
        ∃ m1 m2, setBe Width.w24 [0, 0, 0, 0] 0xFF123456 = some m1 ∧
          getBe Width.w24 m1 = some (0xFF123456 % 2 ^ Width.w24.bits, m2)) ∧
      (Width.w24.leGetSpan ≤ ([0, 0, 0, 0] : Buf).length →
        ∃ m1 m2, setLe Width.w24 [0, 0, 0, 0] 0xFF123456 = some m1 ∧
          getLe Width.w24 m1 = some (0xFF123456 % 2 ^ Width.w24.bits, m2))) ∧
    setBe Width.w24 [0, 0, 0, 0] 0xFF123456 = some [0x12, 0x34, 0x56, 0] ∧
    (0xFF123456 % 2 ^ Width.w24.bits = 0x123456) :=
  ⟨rfl, set_ignores_high_bits Width.w24 [0, 0, 0, 0] 0xFF123456 rfl, by decide, by decide⟩

/-! ## Time of day: evaluation -/

theorem and_mask28 (x : Nat) : x &&& 0x0FFFFFFF = x % 2 ^ 28 :=
  Nat.and_pow_two_sub_one_eq_mod x 28

theorem AmiSetTimeOfDay_cons (b0 b1 b2 b3 b4 b5 : Byte) (r : Buf) (t : tTimeOfDay) :
    AmiSetTimeOfDay (b0 :: b1 :: b2 :: b3 :: b4 :: b5 :: r) t
      = some (valByte (t.m_dwMs &&& 0x0FFFFFFF) 0 :: valByte (t.m_dwMs &&& 0x0FFFFFFF) 1
          :: valByte (t.m_dwMs &&& 0x0FFFFFFF) 2 :: valByte (t.m_dwMs &&& 0x0FFFFFFF) 3
          :: valByte t.m_wDays 0 :: valByte t.m_wDays 1 :: r) := by
  simp only [AmiSetTimeOfDay, AmiSetDwordToLe_cons, Option.bind_eq_bind, Option.some_bind]
  simp [storeAt, AmiSetWordToLe_cons]

theorem AmiGetTimeOfDay_cons (b0 b1 b2 b3 b4 b5 : Byte) (r : Buf) :
    AmiGetTimeOfDay (b0 :: b1 :: b2 :: b3 :: b4 :: b5 :: r)
      = some ({ m_dwMs := (b0.val + b1.val * 2 ^ 8 + b2.val * 2 ^ 16 + b3.val * 2 ^ 24)
                  &&& 0x0FFFFFFF,
                m_wDays := b4.val + b5.val * 2 ^ 8 },
          b0 :: b1 :: b2 :: b3 :: b4 :: b5 :: r) := by
  simp only [AmiGetTimeOfDay, AmiGetDwordFromLe_cons, Option.bind_eq_bind, Option.some_bind]
  simp [loadAt, AmiGetWordFromLe_cons]

theorem AmiSetTimeOfDay_short (buf : Buf) (t : tTimeOfDay) (h : buf.length < 6) :
    AmiSetTimeOfDay buf t = none := by
  rcases buf with _ | ⟨b0, _ | ⟨b1, _ | ⟨b2, _ | ⟨b3, _ | ⟨b4, _ | ⟨b5, r⟩⟩⟩⟩⟩⟩ <;>
    first | rfl | (simp only [List.length_cons] at h; omega)

theorem AmiGetTimeOfDay_short (src : Buf) (h : src.length < 6) :
    AmiGetTimeOfDay src = none := by
  rcases src with _ | ⟨b0, _ | ⟨b1, _ | ⟨b2, _ | ⟨b3, _ | ⟨b4, _ | ⟨b5, r⟩⟩⟩⟩⟩⟩ <;>
    first | rfl | (simp only [List.length_cons] at h; omega)

theorem AmiGetTimeOfDay_isSome (src : Buf) :
    (AmiGetTimeOfDay src).isSome = true ↔ 6 ≤ src.length :=
  isSome_iff_le AmiGetTimeOfDay_short
    (fun l h => by
      obtain ⟨b0, b1, b2, b3, b4, b5, r, rfl⟩ := buf_split6 h
      rw [AmiGetTimeOfDay_cons]
      rfl) src

/-! ## Time of day: postconditions and round trip -/

/-- C12: `AmiSetTimeOfDay` postcondition.  For every record and every buffer of at least
6 bytes the call succeeds; afterwards bytes 0..3 are the little-endian encoding of
`m_dwMs & 0x0FFFFFFF` (byte `i` is `((m_dwMs & 0x0FFFFFFF) >> 8*i) & 0xFF`, so the top
four bits of byte 3 are zero), bytes 4..5 are the little-endian encoding of `m_wDays`,
the length is unchanged and every byte at an offset `≥ 6` is unchanged. -/
theorem AmiSetTimeOfDay_post (buf : Buf) (t : tTimeOfDay) (hlen : 6 ≤ buf.length) :
    ∃ buf1, AmiSetTimeOfDay buf t = some buf1 ∧
      (∀ i, i < 4 → (buf1[i]?).map Fin.val
          = some (((t.m_dwMs &&& 0x0FFFFFFF) >>> (8 * i)) &&& 0xFF)) ∧
      (∃ b3, buf1[3]? = some b3 ∧ b3.val < 16) ∧
      (∀ i, i < 2 → (buf1[4 + i]?).map Fin.val = some ((t.m_wDays >>> (8 * i)) &&& 0xFF)) ∧
      buf1.length = buf.length ∧
      ∀ j, 6 ≤ j → buf1[j]? = buf[j]? := by
  obtain ⟨b0, b1, b2, b3, b4, b5, r, rfl⟩ := buf_split6 hlen
  refine ⟨_, AmiSetTimeOfDay_cons _ _ _ _ _ _ _ _, ?_, ?_, ?_, by simp, ?_⟩
  · intro i hi
    interval_cases i <;> simp [valByte_val]
  · refine ⟨_, rfl, ?_⟩
    rw [and_mask28]
    simp only [valByte, byteOf]
    norm_num
    omega
  · intro i hi
    interval_cases i <;> simp [valByte_val]
  · intro j hj
    obtain ⟨k, rfl⟩ : ∃ k, j = k + 6 := ⟨j - 6, by omega⟩
    simp

/-- Witness for C12: the record `{0x1FFFFFFF, 100}` written to a seven byte buffer. -/
theorem AmiSetTimeOfDay_post_witness :
    6 ≤ ([9, 9, 9, 9, 9, 9, 7] : Buf).length ∧
    (∃ buf1, AmiSetTimeOfDay [9, 9, 9, 9, 9, 9, 7] ⟨0x1FFFFFFF, 100⟩ = some buf1 ∧
      (∀ i, i < 4 → (buf1[i]?).map Fin.val
          = some ((((⟨0x1FFFFFFF, 100⟩ : tTimeOfDay).m_dwMs &&& 0x0FFFFFFF) >>> (8 * i))
              &&& 0xFF)) ∧
      (∃ b3, buf1[3]? = some b3 ∧ b3.val < 16) ∧
      (∀ i, i < 2 → (buf1[4 + i]?).map Fin.val
          = some (((⟨0x1FFFFFFF, 100⟩ : tTimeOfDay).m_wDays >>> (8 * i)) &&& 0xFF)) ∧
      buf1.length = ([9, 9, 9, 9, 9, 9, 7] : Buf).length ∧
      ∀ j, 6 ≤ j → buf1[j]? = ([9, 9, 9, 9, 9, 9, 7] : Buf)[j]?) ∧
    AmiSetTimeOfDay [9, 9, 9, 9, 9, 9, 7] ⟨0x1FFFFFFF, 100⟩
      = some [0xFF, 0xFF, 0xFF, 0x0F, 100, 0, 7] :=
  ⟨by decide, AmiSetTimeOfDay_post [9, 9, 9, 9, 9, 9, 7] ⟨0x1FFFFFFF, 100⟩ (by decide),
    by decide⟩

/-- C13: `AmiGetTimeOfDay` postcondition.  For every source buffer of at least 6 bytes the
call succeeds, leaves the buffer unchanged and returns the record with
`m_dwMs = (src[0] + src[1]*2^8 + src[2]*2^16 + src[3]*2^24) & 0x0FFFFFFF`, which is
below `2 ^ 28`, and `m_wDays = src[4] + src[5]*2^8`. -/
theorem AmiGetTimeOfDay_post (src : Buf) (hlen : 6 ≤ src.length) :
    ∃ t, AmiGetTimeOfDay src = some (t, src) ∧
      t.m_dwMs = ((src.getD 0 0).val + (src.getD 1 0).val * 2 ^ 8 + (src.getD 2 0).val * 2 ^ 16
          + (src.getD 3 0).val * 2 ^ 24) &&& 0x0FFFFFFF ∧
      t.m_dwMs < 2 ^ 28 ∧
      t.m_wDays = (src.getD 4 0).val + (src.getD 5 0).val * 2 ^ 8 := by
  obtain ⟨b0, b1, b2, b3, b4, b5, r, rfl⟩ := buf_split6 hlen
  refine ⟨_, AmiGetTimeOfDay_cons _ _ _ _ _ _ _, rfl, ?_, rfl⟩
  show _ &&& 0x0FFFFFFF < 2 ^ 28
  rw [and_mask28]
  exact Nat.mod_lt _ (by positivity)

/-- Witness for C13: a seven byte source whose millisecond field has its top four bits
set. -/
theorem AmiGetTimeOfDay_post_witness :
    6 ≤ ([0xFF, 0xFF, 0xFF, 0xFF, 100, 0, 7] : Buf).length ∧
    AmiGetTimeOfDay [0xFF, 0xFF, 0xFF, 0xFF, 100, 0, 7]
      = some (⟨0x0FFFFFFF, 100⟩, [0xFF, 0xFF, 0xFF, 0xFF, 100, 0, 7]) ∧
    ∃ t, AmiGetTimeOfDay [0xFF, 0xFF, 0xFF, 0xFF, 100, 0, 7]
        = some (t, [0xFF, 0xFF, 0xFF, 0xFF, 100, 0, 7]) ∧
      t.m_dwMs = ((([0xFF, 0xFF, 0xFF, 0xFF, 100, 0, 7] : Buf).getD 0 0).val
          + (([0xFF, 0xFF, 0xFF, 0xFF, 100, 0, 7] : Buf).getD 1 0).val * 2 ^ 8
          + (([0xFF, 0xFF, 0xFF, 0xFF, 100, 0, 7] : Buf).getD 2 0).val * 2 ^ 16
          + (([0xFF, 0xFF, 0xFF, 0xFF, 100, 0, 7] : Buf).getD 3 0).val * 2 ^ 24)
            &&& 0x0FFFFFFF ∧
      t.m_dwMs < 2 ^ 28 ∧
      t.m_wDays = (([0xFF, 0xFF, 0xFF, 0xFF, 100, 0, 7] : Buf).getD 4 0).val
          + (([0xFF, 0xFF, 0xFF, 0xFF, 100, 0, 7] : Buf).getD 5 0).val * 2 ^ 8 :=
  ⟨by decide, by decide,
    AmiGetTimeOfDay_post [0xFF, 0xFF, 0xFF, 0xFF, 100, 0, 7] (by decide)⟩

/-- C14: time-of-day round trip with truncation.  For every record whose day count fits
16 bits and every buffer of at least 6 bytes, `AmiGetTimeOfDay` on the buffer written by
`AmiSetTimeOfDay` returns `{m_dwMs & 0x0FFFFFFF, m_wDays}`; this is the original record
whenever `m_dwMs < 2 ^ 28`. -/
theorem timeOfDay_roundtrip (buf : Buf) (t : tTimeOfDay) (hlen : 6 ≤ buf.length)
    (hd : t.m_wDays < 2 ^ 16) :
    ∃ m1 m2, AmiSetTimeOfDay buf t = some m1 ∧
      AmiGetTimeOfDay m1
        = some ({ m_dwMs := t.m_dwMs &&& 0x0FFFFFFF, m_wDays := t.m_wDays }, m2) ∧
      (t.m_dwMs < 2 ^ 28 → AmiGetTimeOfDay m1 = some (t, m2)) := by
  obtain ⟨b0, b1, b2, b3, b4, b5, r, rfl⟩ := buf_split6 hlen
  have hx : t.m_dwMs &&& 0x0FFFFFFF < 2 ^ 32 := by
    rw [and_mask28]
    have := Nat.mod_lt t.m_dwMs (show 0 < 2 ^ 28 by positivity)
    omega
  have hidem : (t.m_dwMs &&& 0x0FFFFFFF) &&& 0x0FFFFFFF = t.m_dwMs &&& 0x0FFFFFFF := by
    rw [Nat.and_assoc, Nat.and_self]
  have hget : AmiGetTimeOfDay (valByte (t.m_dwMs &&& 0x0FFFFFFF) 0
        :: valByte (t.m_dwMs &&& 0x0FFFFFFF) 1 :: valByte (t.m_dwMs &&& 0x0FFFFFFF) 2
        :: valByte (t.m_dwMs &&& 0x0FFFFFFF) 3 :: valByte t.m_wDays 0 :: valByte t.m_wDays 1 :: r)
      = some ({ m_dwMs := t.m_dwMs &&& 0x0FFFFFFF, m_wDays := t.m_wDays },
          valByte (t.m_dwMs &&& 0x0FFFFFFF) 0
            :: valByte (t.m_dwMs &&& 0x0FFFFFFF) 1 :: valByte (t.m_dwMs &&& 0x0FFFFFFF) 2
            :: valByte (t.m_dwMs &&& 0x0FFFFFFF) 3 :: valByte t.m_wDays 0
            :: valByte t.m_wDays 1 :: r) := by
    rw [AmiGetTimeOfDay_cons, valByte_sum_le32 _ hx, valByte_sum_le16 _ hd, hidem]
  refine ⟨_, _, AmiSetTimeOfDay_cons _ _ _ _ _ _ _ _, hget, fun hms => ?_⟩
  rw [hget]
  have hm : t.m_dwMs &&& 0x0FFFFFFF = t.m_dwMs := by
    rw [and_mask28]
    exact Nat.mod_eq_of_lt hms
  rw [hm]

/-- Witness for C14: `{0x1FFFFFFF, 100}` comes back as `{0x0FFFFFFF, 100}`. -/
theorem timeOfDay_roundtrip_witness :
    6 ≤ ([0, 0, 0, 0, 0, 0] : Buf).length ∧
    (⟨0x1FFFFFFF, 100⟩ : tTimeOfDay).m_wDays < 2 ^ 16 ∧
    (∃ m1 m2, AmiSetTimeOfDay [0, 0, 0, 0, 0, 0] ⟨0x1FFFFFFF, 100⟩ = some m1 ∧
      AmiGetTimeOfDay m1
        = some ({ m_dwMs := (⟨0x1FFFFFFF, 100⟩ : tTimeOfDay).m_dwMs &&& 0x0FFFFFFF,
                  m_wDays := (⟨0x1FFFFFFF, 100⟩ : tTimeOfDay).m_wDays }, m2) ∧
      ((⟨0x1FFFFFFF, 100⟩ : tTimeOfDay).m_dwMs < 2 ^ 28 →
        AmiGetTimeOfDay m1 = some (⟨0x1FFFFFFF, 100⟩, m2))) ∧
    (AmiSetTimeOfDay [0, 0, 0, 0, 0, 0] ⟨0x1FFFFFFF, 100⟩).bind AmiGetTimeOfDay
      = some (⟨0x0FFFFFFF, 100⟩, [0xFF, 0xFF, 0xFF, 0x0F, 100, 0]) :=
  ⟨by decide, by decide,
    timeOfDay_roundtrip [0, 0, 0, 0, 0, 0] ⟨0x1FFFFFFF, 100⟩ (by decide) (by decide),
    by decide⟩

/-! ## Where the `Set`s are defined -/

theorem AmiSetWordToBe_short (buf : Buf) (v : Nat) (h : buf.length < 2) :
    AmiSetWordToBe buf v = none := by
  rcases buf with _ | ⟨b0, _ | ⟨b1, r⟩⟩ <;>
    first | rfl | (simp only [List.length_cons] at h; omega)

theorem AmiSetWordToBe_isSome (buf : Buf) (v : Nat) :
    (AmiSetWordToBe buf v).isSome = true ↔ 2 ≤ buf.length :=
  isSome_iff_le (fun l h => AmiSetWordToBe_short l v h)
    (fun l h => by
      obtain ⟨b0, b1, r, rfl⟩ := buf_split2 h
      rw [AmiSetWordToBe_cons]
      rfl) buf

theorem AmiSetWordToLe_short (buf : Buf) (v : Nat) (h : buf.length < 2) :
    AmiSetWordToLe buf v = none := by
  rcases buf with _ | ⟨b0, _ | ⟨b1, r⟩⟩ <;>
    first | rfl | (simp only [List.length_cons] at h; omega)

theorem AmiSetWordToLe_isSome (buf : Buf) (v : Nat) :
    (AmiSetWordToLe buf v).isSome = true ↔ 2 ≤ buf.length :=
  isSome_iff_le (fun l h => AmiSetWordToLe_short l v h)
    (fun l h => by
      obtain ⟨b0, b1, r, rfl⟩ := buf_split2 h
      rw [AmiSetWordToLe_cons]
      rfl) buf

theorem AmiSetDword24ToBe_short (buf : Buf) (v : Nat) (h : buf.length < 3) :
    AmiSetDword24ToBe buf v = none := by
  rcases buf with _ | ⟨b0, _ | ⟨b1, _ | ⟨b2, r⟩⟩⟩ <;>
    first | rfl | (simp only [List.length_cons] at h; omega)

theorem AmiSetDword24ToBe_isSome (buf : Buf) (v : Nat) :
    (AmiSetDword24ToBe buf v).isSome = true ↔ 3 ≤ buf.length :=
  isSome_iff_le (fun l h => AmiSetDword24ToBe_short l v h)
    (fun l h => by
      obtain ⟨b0, b1, b2, r, rfl⟩ := buf_split3 h
      rw [AmiSetDword24ToBe_cons]
      rfl) buf

theorem AmiSetDword24ToLe_short (buf : Buf) (v : Nat) (h : buf.length < 3) :
    AmiSetDword24ToLe buf v = none := by
  rcases buf with _ | ⟨b0, _ | ⟨b1, _ | ⟨b2, r⟩⟩⟩ <;>
    first | rfl | (simp only [List.length_cons] at h; omega)

theorem AmiSetDword24ToLe_isSome (buf : Buf) (v : Nat) :
    (AmiSetDword24ToLe buf v).isSome = true ↔ 3 ≤ buf.length :=
  isSome_iff_le (fun l h => AmiSetDword24ToLe_short l v h)
    (fun l h => by
      obtain ⟨b0, b1, b2, r, rfl⟩ := buf_split3 h
      rw [AmiSetDword24ToLe_cons]
      rfl) buf

theorem AmiSetDwordToBe_short (buf : Buf) (v : Nat) (h : buf.length < 4) :
    AmiSetDwordToBe buf v = none := by
  rcases buf with _ | ⟨b0, _ | ⟨b1, _ | ⟨b2, _ | ⟨b3, r⟩⟩⟩⟩ <;>
    first | rfl | (simp only [List.length_cons] at h; omega)

theorem AmiSetDwordToBe_isSome (buf : Buf) (v : Nat) :
    (AmiSetDwordToBe buf v).isSome = true ↔ 4 ≤ buf.length :=
  isSome_iff_le (fun l h => AmiSetDwordToBe_short l v h)
    (fun l h => by
      obtain ⟨b0, b1, b2, b3, r, rfl⟩ := buf_split4 h
      rw [AmiSetDwordToBe_cons]
      rfl) buf

theorem AmiSetDwordToLe_short (buf : Buf) (v : Nat) (h : buf.length < 4) :
    AmiSetDwordToLe buf v = none := by
  rcases buf with _ | ⟨b0, _ | ⟨b1, _ | ⟨b2, _ | ⟨b3, r⟩⟩⟩⟩ <;>
    first | rfl | (simp only [List.length_cons] at h; omega)

theorem AmiSetDwordToLe_isSome (buf : Buf) (v : Nat) :
    (AmiSetDwordToLe buf v).isSome = true ↔ 4 ≤ buf.length :=
  isSome_iff_le (fun l h => AmiSetDwordToLe_short l v h)
    (fun l h => by
      obtain ⟨b0, b1, b2, b3, r, rfl⟩ := buf_split4 h
      rw [AmiSetDwordToLe_cons]
      rfl) buf

theorem AmiSetQword40ToBe_short (buf : Buf) (v : Nat) (h : buf.length < 5) :
    AmiSetQword40ToBe buf v = none := by
  rcases buf with _ | ⟨b0, _ | ⟨b1, _ | ⟨b2, _ | ⟨b3, _ | ⟨b4, r⟩⟩⟩⟩⟩ <;>
    first | rfl | (simp only [List.length_cons] at h; omega)

theorem AmiSetQword40ToBe_isSome (buf : Buf) (v : Nat) :
    (AmiSetQword40ToBe buf v).isSome = true ↔ 5 ≤ buf.length :=
  isSome_iff_le (fun l h => AmiSetQword40ToBe_short l v h)
    (fun l h => by
      obtain ⟨b0, b1, b2, b3, b4, r, rfl⟩ := buf_split5 h
      rw [AmiSetQword40ToBe_cons]
      rfl) buf

theorem AmiSetQword40ToLe_short (buf : Buf) (v : Nat) (h : buf.length < 5) :
    AmiSetQword40ToLe buf v = none := by
  rcases buf with _ | ⟨b0, _ | ⟨b1, _ | ⟨b2, _ | ⟨b3, _ | ⟨b4, r⟩⟩⟩⟩⟩ <;>
    first | rfl | (simp only [List.length_cons] at h; omega)

theorem AmiSetQword40ToLe_isSome (buf : Buf) (v : Nat) :
    (AmiSetQword40ToLe buf v).isSome = true ↔ 5 ≤ buf.length :=
  isSome_iff_le (fun l h => AmiSetQword40ToLe_short l v h)
    (fun l h => by
      obtain ⟨b0, b1, b2, b3, b4, r, rfl⟩ := buf_split5 h
      rw [AmiSetQword40ToLe_cons]
      rfl) buf

theorem AmiSetQword48ToBe_short (buf : Buf) (v : Nat) (h : buf.length < 6) :
    AmiSetQword48ToBe buf v = none := by
  rcases buf with _ | ⟨b0, _ | ⟨b1, _ | ⟨b2, _ | ⟨b3, _ | ⟨b4, _ | ⟨b5, r⟩⟩⟩⟩⟩⟩ <;>
    first | rfl | (simp only [List.length_cons] at h; omega)

theorem AmiSetQword48ToBe_isSome (buf : Buf) (v : Nat) :
    (AmiSetQword48ToBe buf v).isSome = true ↔ 6 ≤ buf.length :=
  isSome_iff_le (fun l h => AmiSetQword48ToBe_short l v h)
    (fun l h => by
      obtain ⟨b0, b1, b2, b3, b4, b5, r, rfl⟩ := buf_split6 h
      rw [AmiSetQword48ToBe_cons]
      rfl) buf

theorem AmiSetQword48ToLe_short (buf : Buf) (v : Nat) (h : buf.length < 6) :
    AmiSetQword48ToLe buf v = none := by
  rcases buf with _ | ⟨b0, _ | ⟨b1, _ | ⟨b2, _ | ⟨b3, _ | ⟨b4, _ | ⟨b5, r⟩⟩⟩⟩⟩⟩ <;>
    first | rfl | (simp only [List.length_cons] at h; omega)

theorem AmiSetQword48ToLe_isSome (buf : Buf) (v : Nat) :
    (AmiSetQword48ToLe buf v).isSome = true ↔ 6 ≤ buf.length :=
  isSome_iff_le (fun l h => AmiSetQword48ToLe_short l v h)
    (fun l h => by
      obtain ⟨b0, b1, b2, b3, b4, b5, r, rfl⟩ := buf_split6 h
      rw [AmiSetQword48ToLe_cons]
      rfl) buf

theorem AmiSetQword56ToBe_short (buf : Buf) (v : Nat) (h : buf.length < 7) :
    AmiSetQword56ToBe buf v = none := by
  rcases buf with _ | ⟨b0, _ | ⟨b1, _ | ⟨b2, _ | ⟨b3, _ | ⟨b4, _ | ⟨b5, _ | ⟨b6, r⟩⟩⟩⟩⟩⟩⟩ <;>
    first | rfl | (simp only [List.length_cons] at h; omega)

theorem AmiSetQword56ToBe_isSome (buf : Buf) (v : Nat) :
    (AmiSetQword56ToBe buf v).isSome = true ↔ 7 ≤ buf.length :=
  isSome_iff_le (fun l h => AmiSetQword56ToBe_short l v h)
    (fun l h => by
      obtain ⟨b0, b1, b2, b3, b4, b5, b6, r, rfl⟩ := buf_split7 h
      rw [AmiSetQword56ToBe_cons]
      rfl) buf

theorem AmiSetQword56ToLe_short (buf : Buf) (v : Nat) (h : buf.length < 7) :
    AmiSetQword56ToLe buf v = none := by
  rcases buf with _ | ⟨b0, _ | ⟨b1, _ | ⟨b2, _ | ⟨b3, _ | ⟨b4, _ | ⟨b5, _ | ⟨b6, r⟩⟩⟩⟩⟩⟩⟩ <;>
    first | rfl | (simp only [List.length_cons] at h; omega)

theorem AmiSetQword56ToLe_isSome (buf : Buf) (v : Nat) :
    (AmiSetQword56ToLe buf v).isSome = true ↔ 7 ≤ buf.length :=
  isSome_iff_le (fun l h => AmiSetQword56ToLe_short l v h)
    (fun l h => by
      obtain ⟨b0, b1, b2, b3, b4, b5, b6, r, rfl⟩ := buf_split7 h
      rw [AmiSetQword56ToLe_cons]
      rfl) buf

theorem AmiSetQword64ToBe_short (buf : Buf) (v : Nat) (h : buf.length < 8) :
    AmiSetQword64ToBe buf v = none := by
  rcases buf with _ | ⟨b0, _ | ⟨b1, _ | ⟨b2, _ | ⟨b3, _ | ⟨b4, _ | ⟨b5, _ | ⟨b6, _ | ⟨b7, r⟩⟩⟩⟩⟩⟩⟩⟩ <;>
    first | rfl | (simp only [List.length_cons] at h; omega)

theorem AmiSetQword64ToBe_isSome (buf : Buf) (v : Nat) :
    (AmiSetQword64ToBe buf v).isSome = true ↔ 8 ≤ buf.length :=
  isSome_iff_le (fun l h => AmiSetQword64ToBe_short l v h)
    (fun l h => by
      obtain ⟨b0, b1, b2, b3, b4, b5, b6, b7, r, rfl⟩ := buf_split8 h
      rw [AmiSetQword64ToBe_cons]
      rfl) buf

theorem AmiSetQword64ToLe_short (buf : Buf) (v : Nat) (h : buf.length < 8) :
    AmiSetQword64ToLe buf v = none := by
  rcases buf with _ | ⟨b0, _ | ⟨b1, _ | ⟨b2, _ | ⟨b3, _ | ⟨b4, _ | ⟨b5, _ | ⟨b6, _ | ⟨b7, r⟩⟩⟩⟩⟩⟩⟩⟩ <;>
    first | rfl | (simp only [List.length_cons] at h; omega)

theorem AmiSetQword64ToLe_isSome (buf : Buf) (v : Nat) :
    (AmiSetQword64ToLe buf v).isSome = true ↔ 8 ≤ buf.length :=
  isSome_iff_le (fun l h => AmiSetQword64ToLe_short l v h)
    (fun l h => by
      obtain ⟨b0, b1, b2, b3, b4, b5, b6, b7, r, rfl⟩ := buf_split8 h
      rw [AmiSetQword64ToLe_cons]
      rfl) buf

theorem setBe_isSome (w : Width) (buf : Buf) (v : Nat) :
    (setBe w buf v).isSome = true ↔ w.bytes ≤ buf.length := by
  cases w
  · exact AmiSetWordToBe_isSome buf v
  · exact AmiSetDword24ToBe_isSome buf v
  · exact AmiSetDwordToBe_isSome buf v
  · exact AmiSetQword40ToBe_isSome buf v
  · exact AmiSetQword48ToBe_isSome buf v
  · exact AmiSetQword56ToBe_isSome buf v
  · exact AmiSetQword64ToBe_isSome buf v

theorem setLe_isSome (w : Width) (buf : Buf) (v : Nat) :
    (setLe w buf v).isSome = true ↔ w.bytes ≤ buf.length := by
  cases w
  · exact AmiSetWordToLe_isSome buf v
  · exact AmiSetDword24ToLe_isSome buf v
  · exact AmiSetDwordToLe_isSome buf v
  · exact AmiSetQword40ToLe_isSome buf v
  · exact AmiSetQword48ToLe_isSome buf v
  · exact AmiSetQword56ToLe_isSome buf v
  · exact AmiSetQword64ToLe_isSome buf v

theorem getBe_isSome (w : Width) (src : Buf) :
    (getBe w src).isSome = true ↔ w.bytes ≤ src.length := by
  cases w
  · exact AmiGetWordFromBe_isSome src
  · exact AmiGetDword24FromBe_isSome src
  · exact AmiGetDwordFromBe_isSome src
  · exact AmiGetQword40FromBe_isSome src
  · exact AmiGetQword48FromBe_isSome src
  · exact AmiGetQword56FromBe_isSome src
  · exact AmiGetQword64FromBe_isSome src

theorem getLe_isSome (w : Width) (src : Buf) :
    (getLe w src).isSome = true ↔ w.leGetSpan ≤ src.length := by
  cases w
  · exact AmiGetWordFromLe_isSome src
  · exact AmiGetDword24FromLe_isSome src
  · exact AmiGetDwordFromLe_isSome src
  · exact AmiGetQword40FromLe_isSome src
  · exact AmiGetQword48FromLe_isSome src
  · exact AmiGetQword56FromLe_isSome src
  · exact AmiGetQword64FromLe_isSome src

/-! ## Repeated `Get`s -/

theorem getBe_twice (w : Width) (src : Buf) (hlen : w.bytes ≤ src.length) :
    ∃ v m1 m2, getBe w src = some (v, m1) ∧ getBe w m1 = some (v, m2) := by
  cases w
  · obtain ⟨b0, b1, r, rfl⟩ := buf_split2 hlen
    exact ⟨_, _, _, AmiGetWordFromBe_cons _ _ _, AmiGetWordFromBe_cons _ _ _⟩
  · obtain ⟨b0, b1, b2, r, rfl⟩ := buf_split3 hlen
    exact ⟨_, _, _, AmiGetDword24FromBe_cons _ _ _ _, AmiGetDword24FromBe_cons _ _ _ _⟩
  · obtain ⟨b0, b1, b2, b3, r, rfl⟩ := buf_split4 hlen
    exact ⟨_, _, _, AmiGetDwordFromBe_cons _ _ _ _ _, AmiGetDwordFromBe_cons _ _ _ _ _⟩
  · obtain ⟨b0, b1, b2, b3, b4, r, rfl⟩ := buf_split5 hlen
    exact ⟨_, _, _, AmiGetQword40FromBe_cons _ _ _ _ _ _, AmiGetQword40FromBe_cons _ _ _ _ _ _⟩
  · obtain ⟨b0, b1, b2, b3, b4, b5, r, rfl⟩ := buf_split6 hlen
    exact ⟨_, _, _, AmiGetQword48FromBe_cons _ _ _ _ _ _ _, AmiGetQword48FromBe_cons _ _ _ _ _ _ _⟩
  · obtain ⟨b0, b1, b2, b3, b4, b5, b6, r, rfl⟩ := buf_split7 hlen
    exact ⟨_, _, _, AmiGetQword56FromBe_cons _ _ _ _ _ _ _ _, AmiGetQword56FromBe_cons _ _ _ _ _ _ _ _⟩
  · obtain ⟨b0, b1, b2, b3, b4, b5, b6, b7, r, rfl⟩ := buf_split8 hlen
    exact ⟨_, _, _, AmiGetQword64FromBe_cons _ _ _ _ _ _ _ _ _, AmiGetQword64FromBe_cons _ _ _ _ _ _ _ _ _⟩

theorem getLe_twice (w : Width) (src : Buf) (hlen : w.leGetSpan ≤ src.length) :
    ∃ v m1 m2, getLe w src = some (v, m1) ∧ getLe w m1 = some (v, m2) := by
  cases w
  · obtain ⟨b0, b1, r, rfl⟩ := buf_split2 hlen
    exact ⟨_, _, _, AmiGetWordFromLe_cons _ _ _, AmiGetWordFromLe_cons _ _ _⟩
  · obtain ⟨b0, b1, b2, b3, r, rfl⟩ := buf_split4 hlen
    exact ⟨_, _, _, AmiGetDword24FromLe_cons _ _ _ _ _, AmiGetDword24FromLe_cons _ _ _ _ _⟩
  · obtain ⟨b0, b1, b2, b3, r, rfl⟩ := buf_split4 hlen
    exact ⟨_, _, _, AmiGetDwordFromLe_cons _ _ _ _ _, AmiGetDwordFromLe_cons _ _ _ _ _⟩
  · obtain ⟨b0, b1, b2, b3, b4, b5, b6, b7, r, rfl⟩ := buf_split8 hlen
    exact ⟨_, _, _, AmiGetQword40FromLe_cons _ _ _ _ _ _ _ _ _, AmiGetQword40FromLe_cons _ _ _ _ _ _ _ _ _⟩
  · obtain ⟨b0, b1, b2, b3, b4, b5, b6, b7, r, rfl⟩ := buf_split8 hlen
    exact ⟨_, _, _, AmiGetQword48FromLe_cons _ _ _ _ _ _ _ _ _, AmiGetQword48FromLe_cons _ _ _ _ _ _ _ _ _⟩
  · obtain ⟨b0, b1, b2, b3, b4, b5, b6, b7, r, rfl⟩ := buf_split8 hlen
    exact ⟨_, _, _, AmiGetQword56FromLe_cons _ _ _ _ _ _ _ _ _, AmiGetQword56FromLe_cons _ _ _ _ _ _ _ _ _⟩
  · obtain ⟨b0, b1, b2, b3, b4, b5, b6, b7, r, rfl⟩ := buf_split8 hlen
    exact ⟨_, _, _, AmiGetQword64FromLe_cons _ _ _ _ _ _ _ _ _, AmiGetQword64FromLe_cons _ _ _ _ _ _ _ _ _⟩

theorem AmiGetTimeOfDay_twice (src : Buf) (hlen : 6 ≤ src.length) :
    ∃ t m1 m2, AmiGetTimeOfDay src = some (t, m1) ∧ AmiGetTimeOfDay m1 = some (t, m2) := by
  obtain ⟨b0, b1, b2, b3, b4, b5, r, rfl⟩ := buf_split6 hlen
  exact ⟨_, _, _, AmiGetTimeOfDay_cons _ _ _ _ _ _ _, AmiGetTimeOfDay_cons _ _ _ _ _ _ _⟩

/-- C15: `Get` is repeatable.  For every width `W`, both byte orders and every source
buffer, a `Get` that returns a value returns the same value when it is called again on
the buffer the first call left; and on every buffer that holds the bytes the call accesses
both calls do return.  The same holds for `AmiGetTimeOfDay`. -/
theorem get_repeatable (w : Width) (src : Buf) :
    (∀ r, getBe w src = some r → ∃ m2, getBe w r.2 = some (r.1, m2)) ∧
    (∀ r, getLe w src = some r → ∃ m2, getLe w r.2 = some (r.1, m2)) ∧
    (∀ r, AmiGetTimeOfDay src = some r → ∃ m2, AmiGetTimeOfDay r.2 = some (r.1, m2)) ∧
    (w.bytes ≤ src.length →
      ∃ v m1 m2, getBe w src = some (v, m1) ∧ getBe w m1 = some (v, m2)) ∧
    (w.leGetSpan ≤ src.length →
      ∃ v m1 m2, getLe w src = some (v, m1) ∧ getLe w m1 = some (v, m2)) ∧
    (6 ≤ src.length →
      ∃ t m1 m2, AmiGetTimeOfDay src = some (t, m1) ∧ AmiGetTimeOfDay m1 = some (t, m2)) := by
  refine ⟨fun r h => ?_, fun r h => ?_, fun r h => ?_, getBe_twice w src, getLe_twice w src,
    AmiGetTimeOfDay_twice src⟩
  · obtain ⟨v, m1, m2, h1, h2⟩ := getBe_twice w src ((getBe_isSome w src).1 (by rw [h]; rfl))
    rw [h] at h1
    cases h1
    exact ⟨m2, h2⟩
  · obtain ⟨v, m1, m2, h1, h2⟩ := getLe_twice w src ((getLe_isSome w src).1 (by rw [h]; rfl))
    rw [h] at h1
    cases h1
    exact ⟨m2, h2⟩
  · obtain ⟨t, m1, m2, h1, h2⟩ :=
      AmiGetTimeOfDay_twice src ((AmiGetTimeOfDay_isSome src).1 (by rw [h]; rfl))
    rw [h] at h1
    cases h1
    exact ⟨m2, h2⟩

/-- Witness for C15: the 24 bit little-endian `Get` called twice on
`[0x01, 0x02, 0x03, 0xFF]` (the first call leaves `[0x01, 0x02, 0x03, 0x00]`), and
`AmiGetTimeOfDay` called twice. -/
theorem get_repeatable_witness :
    (∃ m2, getLe Width.w24 [0x01, 0x02, 0x03, 0x00] = some (0x030201, m2)) ∧
    (∃ m2, AmiGetTimeOfDay [0xFF, 0xFF, 0xFF, 0xFF, 100, 0]
        = some (⟨0x0FFFFFFF, 100⟩, m2)) :=
  ⟨(get_repeatable Width.w24 [0x01, 0x02, 0x03, 0xFF]).2.1
      (0x030201, [0x01, 0x02, 0x03, 0x00]) (by decide),
    (get_repeatable Width.w24 [0xFF, 0xFF, 0xFF, 0xFF, 100, 0]).2.2.1
      (⟨0x0FFFFFFF, 100⟩, [0xFF, 0xFF, 0xFF, 0xFF, 100, 0]) (by decide)⟩

/-! ## Bytes a `Set` needs -/

theorem setBe_exact (w : Width) (buf : Buf) (v : Nat) (hlen : buf.length = w.bytes) :
    ∃ m, setBe w buf v = some m ∧ m.length = w.bytes ∧
      ∀ buf2 : Buf, buf2.length = w.bytes → setBe w buf2 v = some m := by
  cases w
  · obtain ⟨b0, b1, r, rfl⟩ := buf_split2 (Nat.le_of_eq hlen.symm)
    obtain rfl : r = [] := List.eq_nil_of_length_eq_zero (by
      have h : r.length + 2 = 2 := hlen
      omega)
    refine ⟨_, AmiSetWordToBe_cons _ _ _ _, by simp [Width.bytes, Width.bits], fun buf2 h2 => ?_⟩
    obtain ⟨c0, c1, r2, rfl⟩ := buf_split2 (Nat.le_of_eq h2.symm)
    obtain rfl : r2 = [] := List.eq_nil_of_length_eq_zero (by
      have h : r2.length + 2 = 2 := h2
      omega)
    exact AmiSetWordToBe_cons _ _ _ _
  · obtain ⟨b0, b1, b2, r, rfl⟩ := buf_split3 (Nat.le_of_eq hlen.symm)
    obtain rfl : r = [] := List.eq_nil_of_length_eq_zero (by
      have h : r.length + 3 = 3 := hlen
      omega)
    refine ⟨_, AmiSetDword24ToBe_cons _ _ _ _ _, by simp [Width.bytes, Width.bits], fun buf2 h2 => ?_⟩
    obtain ⟨c0, c1, c2, r2, rfl⟩ := buf_split3 (Nat.le_of_eq h2.symm)
    obtain rfl : r2 = [] := List.eq_nil_of_length_eq_zero (by
      have h : r2.length + 3 = 3 := h2
      omega)
    exact AmiSetDword24ToBe_cons _ _ _ _ _
  · obtain ⟨b0, b1, b2, b3, r, rfl⟩ := buf_split4 (Nat.le_of_eq hlen.symm)
    obtain rfl : r = [] := List.eq_nil_of_length_eq_zero (by
      have h : r.length + 4 = 4 := hlen
      omega)
    refine ⟨_, AmiSetDwordToBe_cons _ _ _ _ _ _, by simp [Width.bytes, Width.bits], fun buf2 h2 => ?_⟩
    obtain ⟨c0, c1, c2, c3, r2, rfl⟩ := buf_split4 (Nat.le_of_eq h2.symm)
    obtain rfl : r2 = [] := List.eq_nil_of_length_eq_zero (by
      have h : r2.length + 4 = 4 := h2
      omega)
    exact AmiSetDwordToBe_cons _ _ _ _ _ _
  · obtain ⟨b0, b1, b2, b3, b4, r, rfl⟩ := buf_split5 (Nat.le_of_eq hlen.symm)
    obtain rfl : r = [] := List.eq_nil_of_length_eq_zero (by
      have h : r.length + 5 = 5 := hlen
      omega)
    refine ⟨_, AmiSetQword40ToBe_cons _ _ _ _ _ _ _, by simp [Width.bytes, Width.bits], fun buf2 h2 => ?_⟩
    obtain ⟨c0, c1, c2, c3, c4, r2, rfl⟩ := buf_split5 (Nat.le_of_eq h2.symm)
    obtain rfl : r2 = [] := List.eq_nil_of_length_eq_zero (by
      have h : r2.length + 5 = 5 := h2
      omega)
    exact AmiSetQword40ToBe_cons _ _ _ _ _ _ _
  · obtain ⟨b0, b1, b2, b3, b4, b5, r, rfl⟩ := buf_split6 (Nat.le_of_eq hlen.symm)
    obtain rfl : r = [] := List.eq_nil_of_length_eq_zero (by
      have h : r.length + 6 = 6 := hlen
      omega)
    refine ⟨_, AmiSetQword48ToBe_cons _ _ _ _ _ _ _ _, by simp [Width.bytes, Width.bits], fun buf2 h2 => ?_⟩
    obtain ⟨c0, c1, c2, c3, c4, c5, r2, rfl⟩ := buf_split6 (Nat.le_of_eq h2.symm)
    obtain rfl : r2 = [] := List.eq_nil_of_length_eq_zero (by
      have h : r2.length + 6 = 6 := h2
      omega)
    exact AmiSetQword48ToBe_cons _ _ _ _ _ _ _ _
  · obtain ⟨b0, b1, b2, b3, b4, b5, b6, r, rfl⟩ := buf_split7 (Nat.le_of_eq hlen.symm)
    obtain rfl : r = [] := List.eq_nil_of_length_eq_zero (by
      have h : r.length + 7 = 7 := hlen
      omega)
    refine ⟨_, AmiSetQword56ToBe_cons _ _ _ _ _ _ _ _ _, by simp [Width.bytes, Width.bits], fun buf2 h2 => ?_⟩
    obtain ⟨c0, c1, c2, c3, c4, c5, c6, r2, rfl⟩ := buf_split7 (Nat.le_of_eq h2.symm)
    obtain rfl : r2 = [] := List.eq_nil_of_length_eq_zero (by
      have h : r2.length + 7 = 7 := h2
      omega)
    exact AmiSetQword56ToBe_cons _ _ _ _ _ _ _ _ _
  · obtain ⟨b0, b1, b2, b3, b4, b5, b6, b7, r, rfl⟩ := buf_split8 (Nat.le_of_eq hlen.symm)
    obtain rfl : r = [] := List.eq_nil_of_length_eq_zero (by
      have h : r.length + 8 = 8 := hlen
      omega)
    refine ⟨_, AmiSetQword64ToBe_cons _ _ _ _ _ _ _ _ _ _, by simp [Width.bytes, Width.bits], fun buf2 h2 => ?_⟩
    obtain ⟨c0, c1, c2, c3, c4, c5, c6, c7, r2, rfl⟩ := buf_split8 (Nat.le_of_eq h2.symm)
    obtain rfl : r2 = [] := List.eq_nil_of_length_eq_zero (by
      have h : r2.length + 8 = 8 := h2
      omega)
    exact AmiSetQword64ToBe_cons _ _ _ _ _ _ _ _ _ _

theorem setLe_exact (w : Width) (buf : Buf) (v : Nat) (hlen : buf.length = w.bytes) :
    ∃ m, setLe w buf v = some m ∧ m.length = w.bytes ∧
      ∀ buf2 : Buf, buf2.length = w.bytes → setLe w buf2 v = some m := by
  cases w
  · obtain ⟨b0, b1, r, rfl⟩ := buf_split2 (Nat.le_of_eq hlen.symm)
    obtain rfl : r = [] := List.eq_nil_of_length_eq_zero (by
      have h : r.length + 2 = 2 := hlen
      omega)
    refine ⟨_, AmiSetWordToLe_cons _ _ _ _, by simp [Width.bytes, Width.bits], fun buf2 h2 => ?_⟩
    obtain ⟨c0, c1, r2, rfl⟩ := buf_split2 (Nat.le_of_eq h2.symm)
    obtain rfl : r2 = [] := List.eq_nil_of_length_eq_zero (by
      have h : r2.length + 2 = 2 := h2
      omega)
    exact AmiSetWordToLe_cons _ _ _ _
  · obtain ⟨b0, b1, b2, r, rfl⟩ := buf_split3 (Nat.le_of_eq hlen.symm)
    obtain rfl : r = [] := List.eq_nil_of_length_eq_zero (by
      have h : r.length + 3 = 3 := hlen
      omega)
    refine ⟨_, AmiSetDword24ToLe_cons _ _ _ _ _, by simp [Width.bytes, Width.bits], fun buf2 h2 => ?_⟩
    obtain ⟨c0, c1, c2, r2, rfl⟩ := buf_split3 (Nat.le_of_eq h2.symm)
    obtain rfl : r2 = [] := List.eq_nil_of_length_eq_zero (by
      have h : r2.length + 3 = 3 := h2
      omega)
    exact AmiSetDword24ToLe_cons _ _ _ _ _
  · obtain ⟨b0, b1, b2, b3, r, rfl⟩ := buf_split4 (Nat.le_of_eq hlen.symm)
    obtain rfl : r = [] := List.eq_nil_of_length_eq_zero (by
      have h : r.length + 4 = 4 := hlen
      omega)
    refine ⟨_, AmiSetDwordToLe_cons _ _ _ _ _ _, by simp [Width.bytes, Width.bits], fun buf2 h2 => ?_⟩
    obtain ⟨c0, c1, c2, c3, r2, rfl⟩ := buf_split4 (Nat.le_of_eq h2.symm)
    obtain rfl : r2 = [] := List.eq_nil_of_length_eq_zero (by
      have h : r2.length + 4 = 4 := h2
      omega)
    exact AmiSetDwordToLe_cons _ _ _ _ _ _
  · obtain ⟨b0, b1, b2, b3, b4, r, rfl⟩ := buf_split5 (Nat.le_of_eq hlen.symm)
    obtain rfl : r = [] := List.eq_nil_of_length_eq_zero (by
      have h : r.length + 5 = 5 := hlen
      omega)
    refine ⟨_, AmiSetQword40ToLe_cons _ _ _ _ _ _ _, by simp [Width.bytes, Width.bits], fun buf2 h2 => ?_⟩
    obtain ⟨c0, c1, c2, c3, c4, r2, rfl⟩ := buf_split5 (Nat.le_of_eq h2.symm)
    obtain rfl : r2 = [] := List.eq_nil_of_length_eq_zero (by
      have h : r2.length + 5 = 5 := h2
      omega)
    exact AmiSetQword40ToLe_cons _ _ _ _ _ _ _
  · obtain ⟨b0, b1, b2, b3, b4, b5, r, rfl⟩ := buf_split6 (Nat.le_of_eq hlen.symm)
    obtain rfl : r = [] := List.eq_nil_of_length_eq_zero (by
      have h : r.length + 6 = 6 := hlen
      omega)
    refine ⟨_, AmiSetQword48ToLe_cons _ _ _ _ _ _ _ _, by simp [Width.bytes, Width.bits], fun buf2 h2 => ?_⟩
    obtain ⟨c0, c1, c2, c3, c4, c5, r2, rfl⟩ := buf_split6 (Nat.le_of_eq h2.symm)
    obtain rfl : r2 = [] := List.eq_nil_of_length_eq_zero (by
      have h : r2.length + 6 = 6 := h2
      omega)
    exact AmiSetQword48ToLe_cons _ _ _ _ _ _ _ _
  · obtain ⟨b0, b1, b2, b3, b4, b5, b6, r, rfl⟩ := buf_split7 (Nat.le_of_eq hlen.symm)
    obtain rfl : r = [] := List.eq_nil_of_length_eq_zero (by
      have h : r.length + 7 = 7 := hlen
      omega)
    refine ⟨_, AmiSetQword56ToLe_cons _ _ _ _ _ _ _ _ _, by simp [Width.bytes, Width.bits], fun buf2 h2 => ?_⟩
    obtain ⟨c0, c1, c2, c3, c4, c5, c6, r2, rfl⟩ := buf_split7 (Nat.le_of_eq h2.symm)
    obtain rfl : r2 = [] := List.eq_nil_of_length_eq_zero (by
      have h : r2.length + 7 = 7 := h2
      omega)
    exact AmiSetQword56ToLe_cons _ _ _ _ _ _ _ _ _
  · obtain ⟨b0, b1, b2, b3, b4, b5, b6, b7, r, rfl⟩ := buf_split8 (Nat.le_of_eq hlen.symm)
    obtain rfl : r = [] := List.eq_nil_of_length_eq_zero (by
      have h : r.length + 8 = 8 := hlen
      omega)
    refine ⟨_, AmiSetQword64ToLe_cons _ _ _ _ _ _ _ _ _ _, by simp [Width.bytes, Width.bits], fun buf2 h2 => ?_⟩
    obtain ⟨c0, c1, c2, c3, c4, c5, c6, c7, r2, rfl⟩ := buf_split8 (Nat.le_of_eq h2.symm)
    obtain rfl : r2 = [] := List.eq_nil_of_length_eq_zero (by
      have h : r2.length + 8 = 8 := h2
      omega)
    exact AmiSetQword64ToLe_cons _ _ _ _ _ _ _ _ _ _

/-- C16: `Set` needs only `W/8` bytes.  For every width `W`, both byte orders and every
value `v`, the `Set` applied to a destination of exactly `W/8` bytes succeeds, yields a
region of exactly `W/8` bytes and overwrites every one of them (the result does not depend
on the previous contents); a `Set` is defined exactly on the regions of at least `W/8`
bytes, so it touches offset `W/8 - 1` and no offset `≥ W/8`.  The little-endian `Set`s of
the widths 24, 40, 48 and 56 are the segmented stores 16+8, 32+8, 32+16 and 32+16+8 bits. -/
theorem set_exact_span (w : Width) (buf : Buf) (v : Nat) (hlen : buf.length = w.bytes) :
    (∃ m, setBe w buf v = some m ∧ m.length = w.bytes ∧
      ∀ buf2 : Buf, buf2.length = w.bytes → setBe w buf2 v = some m) ∧
    (∃ m, setLe w buf v = some m ∧ m.length = w.bytes ∧
      ∀ buf2 : Buf, buf2.length = w.bytes → setLe w buf2 v = some m) ∧
    (∀ b : Buf, ((setBe w b v).isSome = true ↔ w.bytes ≤ b.length) ∧
      ((setLe w b v).isSome = true ↔ w.bytes ≤ b.length)) ∧
    (∀ b : Buf, AmiSetDword24ToLe b v
        = (stU16 b 0 (v % 2 ^ 16)).bind (fun m => stU8 m 2 (byteOf (v / 2 ^ 16)))) ∧
    (∀ b : Buf, AmiSetQword40ToLe b v
        = (stU32 b 0 (v % 2 ^ 32)).bind (fun m => stU8 m 4 (byteOf (v / 2 ^ 32)))) ∧
    (∀ b : Buf, AmiSetQword48ToLe b v
        = (stU32 b 0 (v % 2 ^ 32)).bind (fun m => stU16 m 2 (v / 2 ^ 32 % 2 ^ 16))) ∧
    (∀ b : Buf, AmiSetQword56ToLe b v
        = (stU32 b 0 (v % 2 ^ 32)).bind (fun m =>
            (stU16 m 2 (v / 2 ^ 32 % 2 ^ 16)).bind (fun m => stU8 m 6 (byteOf (v / 2 ^ 48))))) := by
  refine ⟨setBe_exact w buf v hlen, setLe_exact w buf v hlen,
    fun b => ⟨setBe_isSome w b v, setLe_isSome w b v⟩, fun b => ?_, fun b => ?_, fun b => ?_,
    fun b => ?_⟩
  · simp [AmiSetDword24ToLe, valWord, valByte]
  · simp [AmiSetQword40ToLe, valDword, valByte]
  · simp [AmiSetQword48ToLe, valDword, valWord]
  · simp [AmiSetQword56ToLe, valDword, valWord, valByte]

/-- Witness for C16: the 56 bit `Set`s on a region of exactly seven bytes. -/
theorem set_exact_span_witness :
    ([1, 2, 3, 4, 5, 6, 7] : Buf).length = Width.w56.bytes ∧
    (∃ m, setLe Width.w56 [1, 2, 3, 4, 5, 6, 7] 0x11223344556677 = some m ∧
      m.length = Width.w56.bytes ∧
      ∀ buf2 : Buf, buf2.length = Width.w56.bytes →
        setLe Width.w56 buf2 0x11223344556677 = some m) ∧
    setLe Width.w56 [1, 2, 3, 4, 5, 6, 7] 0x11223344556677
      = some [0x77, 0x66, 0x55, 0x44, 0x33, 0x22, 0x11] ∧
    setBe Width.w56 [1, 2, 3, 4, 5, 6, 7] 0x11223344556677
      = some [0x11, 0x22, 0x33, 0x44, 0x55, 0x66, 0x77] :=
  ⟨by decide,
    (set_exact_span Width.w56 [1, 2, 3, 4, 5, 6, 7] 0x11223344556677 (by decide)).2.1,
    by decide, by decide⟩

/-! ## The two `Get` paths, and the two encodings -/

/-- C17: the two `Get` paths agree up to byte order.  For every partial width `W` and every
sequence `b` of `W/8` bytes, the big-endian `Get` (byte-wise assembly into a zero
carrier, no mask) on `b` followed by any trailing bytes returns the same value as the
little-endian `Get` (native load and mask) on the reversed sequence followed by any
trailing bytes that complete the carrier the native load reads. -/
theorem get_paths_agree (w : Width) (b t1 t2 : Buf) (hn : w.isNarrow = true)
    (hb : b.length = w.bytes) (ht : w.leGetSpan ≤ (b.reverse ++ t2).length) :
    ∃ v m1 m2, getBe w (b ++ t1) = some (v, m1) ∧ getLe w (b.reverse ++ t2) = some (v, m2) := by
  cases w
  · cases hn
  · obtain ⟨b0, b1, b2, r, rfl⟩ := buf_split3 (Nat.le_of_eq hb.symm)
    obtain rfl : r = [] := List.eq_nil_of_length_eq_zero (by
      have h : r.length + 3 = 3 := hb
      omega)
    obtain ⟨c0, r2, rfl⟩ : ∃ c0 r2, t2 = c0 :: r2 := by
      have h : 1 ≤ t2.length := by
        have h0 : 4 ≤ (List.reverse [b0, b1, b2] ++ t2).length := ht
        simp at h0
        omega
      obtain ⟨c, r2, rfl, _⟩ := exists_cons_of_succ_le h
      exact ⟨_, _, rfl⟩
    have hv : b2.val + b1.val * 2 ^ 8 + b0.val * 2 ^ 16 = b0.val * 2 ^ 16 + b1.val * 2 ^ 8 + b2.val := by
      omega
    exact ⟨_, _, _, AmiGetDword24FromBe_cons _ _ _ _, by
      show AmiGetDword24FromLe _ = _
      simp only [List.reverse_cons, List.reverse_nil, List.nil_append, List.cons_append]
      rw [AmiGetDword24FromLe_cons, hv]⟩
  · cases hn
  · obtain ⟨b0, b1, b2, b3, b4, r, rfl⟩ := buf_split5 (Nat.le_of_eq hb.symm)
    obtain rfl : r = [] := List.eq_nil_of_length_eq_zero (by
      have h : r.length + 5 = 5 := hb
      omega)
    obtain ⟨c0, c1, c2, r2, rfl⟩ : ∃ c0 c1 c2 r2, t2 = c0 :: c1 :: c2 :: r2 := by
      have h : 3 ≤ t2.length := by
        have h0 : 8 ≤ (List.reverse [b0, b1, b2, b3, b4] ++ t2).length := ht
        simp at h0
        omega
      obtain ⟨c0, c1, c2, r2, rfl⟩ := buf_split3 h
      exact ⟨_, _, _, _, rfl⟩
    have hv : b4.val + b3.val * 2 ^ 8 + b2.val * 2 ^ 16 + b1.val * 2 ^ 24 + b0.val * 2 ^ 32 = b0.val * 2 ^ 32 + b1.val * 2 ^ 24 + b2.val * 2 ^ 16 + b3.val * 2 ^ 8 + b4.val := by
      omega
    exact ⟨_, _, _, AmiGetQword40FromBe_cons _ _ _ _ _ _, by
      show AmiGetQword40FromLe _ = _
      simp only [List.reverse_cons, List.reverse_nil, List.nil_append, List.cons_append]
      rw [AmiGetQword40FromLe_cons, hv]⟩
  · obtain ⟨b0, b1, b2, b3, b4, b5, r, rfl⟩ := buf_split6 (Nat.le_of_eq hb.symm)
    obtain rfl : r = [] := List.eq_nil_of_length_eq_zero (by
      have h : r.length + 6 = 6 := hb
      omega)
    obtain ⟨c0, c1, r2, rfl⟩ : ∃ c0 c1 r2, t2 = c0 :: c1 :: r2 := by
      have h : 2 ≤ t2.length := by
        have h0 : 8 ≤ (List.reverse [b0, b1, b2, b3, b4, b5] ++ t2).length := ht
        simp at h0
        omega
      obtain ⟨c0, c1, r2, rfl⟩ := buf_split2 h
      exact ⟨_, _, _, rfl⟩
    have hv : b5.val + b4.val * 2 ^ 8 + b3.val * 2 ^ 16 + b2.val * 2 ^ 24 + b1.val * 2 ^ 32 + b0.val * 2 ^ 40 = b0.val * 2 ^ 40 + b1.val * 2 ^ 32 + b2.val * 2 ^ 24 + b3.val * 2 ^ 16 + b4.val * 2 ^ 8 + b5.val := by
      omega
    exact ⟨_, _, _, AmiGetQword48FromBe_cons _ _ _ _ _ _ _, by
      show AmiGetQword48FromLe _ = _
      simp only [List.reverse_cons, List.reverse_nil, List.nil_append, List.cons_append]
      rw [AmiGetQword48FromLe_cons, hv]⟩
  · obtain ⟨b0, b1, b2, b3, b4, b5, b6, r, rfl⟩ := buf_split7 (Nat.le_of_eq hb.symm)
    obtain rfl : r = [] := List.eq_nil_of_length_eq_zero (by
      have h : r.length + 7 = 7 := hb
      omega)
    obtain ⟨c0, r2, rfl⟩ : ∃ c0 r2, t2 = c0 :: r2 := by
      have h : 1 ≤ t2.length := by
        have h0 : 8 ≤ (List.reverse [b0, b1, b2, b3, b4, b5, b6] ++ t2).length := ht
        simp at h0
        omega
      obtain ⟨c, r2, rfl, _⟩ := exists_cons_of_succ_le h
      exact ⟨_, _, rfl⟩
    have hv : b6.val + b5.val * 2 ^ 8 + b4.val * 2 ^ 16 + b3.val * 2 ^ 24 + b2.val * 2 ^ 32 + b1.val * 2 ^ 40 + b0.val * 2 ^ 48 = b0.val * 2 ^ 48 + b1.val * 2 ^ 40 + b2.val * 2 ^ 32 + b3.val * 2 ^ 24 + b4.val * 2 ^ 16 + b5.val * 2 ^ 8 + b6.val := by
      omega
    exact ⟨_, _, _, AmiGetQword56FromBe_cons _ _ _ _ _ _ _ _, by
      show AmiGetQword56FromLe _ = _
      simp only [List.reverse_cons, List.reverse_nil, List.nil_append, List.cons_append]
      rw [AmiGetQword56FromLe_cons, hv]⟩
  · cases hn

/-- Witness for C17: `[0x12, 0x34, 0x56]` read big-endian and `[0x56, 0x34, 0x12]` read
little-endian, with different trailing bytes. -/
theorem get_paths_agree_witness :
    Width.w24.isNarrow = true ∧ ([0x12, 0x34, 0x56] : Buf).length = Width.w24.bytes ∧
    Width.w24.leGetSpan ≤ (([0x12, 0x34, 0x56] : Buf).reverse ++ [0xFF, 0xEE]).length ∧
    (∃ v m1 m2, getBe Width.w24 ([0x12, 0x34, 0x56] ++ [0xAA]) = some (v, m1) ∧
      getLe Width.w24 (([0x12, 0x34, 0x56] : Buf).reverse ++ [0xFF, 0xEE]) = some (v, m2)) ∧
    (getBe Width.w24 [0x12, 0x34, 0x56, 0xAA]).map Prod.fst = some 0x123456 ∧
    (getLe Width.w24 [0x56, 0x34, 0x12, 0xFF, 0xEE]).map Prod.fst = some 0x123456 :=
  ⟨rfl, by decide, by decide,
    get_paths_agree Width.w24 [0x12, 0x34, 0x56] [0xAA] [0xFF, 0xEE] rfl (by decide) (by decide),
    by decide, by decide⟩

/-- C18: the big-endian encoding is the byte reversal of the little-endian encoding.  For
every width `W`, every value `v` and every buffer of at least `W/8` bytes, both `Set`s
succeed and the `W/8` bytes written by the big-endian `Set` are the `W/8` bytes written
by the little-endian `Set`, in reverse order. -/
theorem be_set_is_reversed_le_set (w : Width) (buf : Buf) (v : Nat)
    (hlen : w.bytes ≤ buf.length) :
    ∃ m1 m2, setBe w buf v = some m1 ∧ setLe w buf v = some m2 ∧
      m1.take w.bytes = (m2.take w.bytes).reverse := by
  cases w
  · obtain ⟨b0, b1, r, rfl⟩ := buf_split2 hlen
    exact ⟨_, _, AmiSetWordToBe_cons _ _ _ _, AmiSetWordToLe_cons _ _ _ _, by
      simp [Width.bytes, Width.bits]⟩
  · obtain ⟨b0, b1, b2, r, rfl⟩ := buf_split3 hlen
    exact ⟨_, _, AmiSetDword24ToBe_cons _ _ _ _ _, AmiSetDword24ToLe_cons _ _ _ _ _, by
      simp [Width.bytes, Width.bits]⟩
  · obtain ⟨b0, b1, b2, b3, r, rfl⟩ := buf_split4 hlen
    exact ⟨_, _, AmiSetDwordToBe_cons _ _ _ _ _ _, AmiSetDwordToLe_cons _ _ _ _ _ _, by
      simp [Width.bytes, Width.bits]⟩
  · obtain ⟨b0, b1, b2, b3, b4, r, rfl⟩ := buf_split5 hlen
    exact ⟨_, _, AmiSetQword40ToBe_cons _ _ _ _ _ _ _, AmiSetQword40ToLe_cons _ _ _ _ _ _ _, by
      simp [Width.bytes, Width.bits]⟩
  · obtain ⟨b0, b1, b2, b3, b4, b5, r, rfl⟩ := buf_split6 hlen
    exact ⟨_, _, AmiSetQword48ToBe_cons _ _ _ _ _ _ _ _, AmiSetQword48ToLe_cons _ _ _ _ _ _ _ _, by
      simp [Width.bytes, Width.bits]⟩
  · obtain ⟨b0, b1, b2, b3, b4, b5, b6, r, rfl⟩ := buf_split7 hlen
    exact ⟨_, _, AmiSetQword56ToBe_cons _ _ _ _ _ _ _ _ _, AmiSetQword56ToLe_cons _ _ _ _ _ _ _ _ _, by
      simp [Width.bytes, Width.bits]⟩
  · obtain ⟨b0, b1, b2, b3, b4, b5, b6, b7, r, rfl⟩ := buf_split8 hlen
    exact ⟨_, _, AmiSetQword64ToBe_cons _ _ _ _ _ _ _ _ _ _, AmiSetQword64ToLe_cons _ _ _ _ _ _ _ _ _ _, by
      simp [Width.bytes, Width.bits]⟩

/-- Witness for C18: the 48 bit encodings of `0x112233445566`. -/
theorem be_set_is_reversed_le_set_witness :
    Width.w48.bytes ≤ ([0, 0, 0, 0, 0, 0, 9] : Buf).length ∧
    (∃ m1 m2, setBe Width.w48 [0, 0, 0, 0, 0, 0, 9] 0x112233445566 = some m1 ∧
      setLe Width.w48 [0, 0, 0, 0, 0, 0, 9] 0x112233445566 = some m2 ∧
      m1.take Width.w48.bytes = (m2.take Width.w48.bytes).reverse) ∧
    setBe Width.w48 [0, 0, 0, 0, 0, 0, 9] 0x112233445566
      = some [0x11, 0x22, 0x33, 0x44, 0x55, 0x66, 9] ∧
    setLe Width.w48 [0, 0, 0, 0, 0, 0, 9] 0x112233445566
      = some [0x66, 0x55, 0x44, 0x33, 0x22, 0x11, 9] :=
  ⟨by decide,
    be_set_is_reversed_le_set Width.w48 [0, 0, 0, 0, 0, 0, 9] 0x112233445566 (by decide),
    by decide, by decide⟩

/-! ## Decoding, then encoding -/

theorem valByte_of_sum_be16 (b0 b1 : Byte) :
    valByte (b0.val * 2 ^ 8 + b1.val) 1 = b0 ∧
    valByte (b0.val * 2 ^ 8 + b1.val) 0 = b1 := by
  refine ⟨?_, ?_⟩
  all_goals simp [valByte, byteOf, Fin.ext_iff]
  all_goals omega

theorem valByte_of_sum_le16 (b0 b1 : Byte) :
    valByte (b0.val + b1.val * 2 ^ 8) 0 = b0 ∧
    valByte (b0.val + b1.val * 2 ^ 8) 1 = b1 := by
  refine ⟨?_, ?_⟩
  all_goals simp [valByte, byteOf, Fin.ext_iff]
  all_goals omega

theorem valByte_of_sum_be24 (b0 b1 b2 : Byte) :
    valByte (b0.val * 2 ^ 16 + b1.val * 2 ^ 8 + b2.val) 2 = b0 ∧
    valByte (b0.val * 2 ^ 16 + b1.val * 2 ^ 8 + b2.val) 1 = b1 ∧
    valByte (b0.val * 2 ^ 16 + b1.val * 2 ^ 8 + b2.val) 0 = b2 := by
  refine ⟨?_, ?_, ?_⟩
  all_goals simp [valByte, byteOf, Fin.ext_iff]
  all_goals omega

theorem valByte_of_sum_le24 (b0 b1 b2 : Byte) :
    valByte (b0.val + b1.val * 2 ^ 8 + b2.val * 2 ^ 16) 0 = b0 ∧
    valByte (b0.val + b1.val * 2 ^ 8 + b2.val * 2 ^ 16) 1 = b1 ∧
    valByte (b0.val + b1.val * 2 ^ 8 + b2.val * 2 ^ 16) 2 = b2 := by
  refine ⟨?_, ?_, ?_⟩
  all_goals simp [valByte, byteOf, Fin.ext_iff]
  all_goals omega

theorem valByte_of_sum_be32 (b0 b1 b2 b3 : Byte) :
    valByte (b0.val * 2 ^ 24 + b1.val * 2 ^ 16 + b2.val * 2 ^ 8 + b3.val) 3 = b0 ∧
    valByte (b0.val * 2 ^ 24 + b1.val * 2 ^ 16 + b2.val * 2 ^ 8 + b3.val) 2 = b1 ∧
    valByte (b0.val * 2 ^ 24 + b1.val * 2 ^ 16 + b2.val * 2 ^ 8 + b3.val) 1 = b2 ∧
    valByte (b0.val * 2 ^ 24 + b1.val * 2 ^ 16 + b2.val * 2 ^ 8 + b3.val) 0 = b3 := by
  refine ⟨?_, ?_, ?_, ?_⟩
  all_goals simp [valByte, byteOf, Fin.ext_iff]
  all_goals omega

theorem valByte_of_sum_le32 (b0 b1 b2 b3 : Byte) :
    valByte (b0.val + b1.val * 2 ^ 8 + b2.val * 2 ^ 16 + b3.val * 2 ^ 24) 0 = b0 ∧
    valByte (b0.val + b1.val * 2 ^ 8 + b2.val * 2 ^ 16 + b3.val * 2 ^ 24) 1 = b1 ∧
    valByte (b0.val + b1.val * 2 ^ 8 + b2.val * 2 ^ 16 + b3.val * 2 ^ 24) 2 = b2 ∧
    valByte (b0.val + b1.val * 2 ^ 8 + b2.val * 2 ^ 16 + b3.val * 2 ^ 24) 3 = b3 := by
  refine ⟨?_, ?_, ?_, ?_⟩
  all_goals simp [valByte, byteOf, Fin.ext_iff]
  all_goals omega

theorem valByte_of_sum_be40 (b0 b1 b2 b3 b4 : Byte) :
    valByte (b0.val * 2 ^ 32 + b1.val * 2 ^ 24 + b2.val * 2 ^ 16 + b3.val * 2 ^ 8 + b4.val) 4 = b0 ∧
    valByte (b0.val * 2 ^ 32 + b1.val * 2 ^ 24 + b2.val * 2 ^ 16 + b3.val * 2 ^ 8 + b4.val) 3 = b1 ∧
    valByte (b0.val * 2 ^ 32 + b1.val * 2 ^ 24 + b2.val * 2 ^ 16 + b3.val * 2 ^ 8 + b4.val) 2 = b2 ∧
    valByte (b0.val * 2 ^ 32 + b1.val * 2 ^ 24 + b2.val * 2 ^ 16 + b3.val * 2 ^ 8 + b4.val) 1 = b3 ∧
    valByte (b0.val * 2 ^ 32 + b1.val * 2 ^ 24 + b2.val * 2 ^ 16 + b3.val * 2 ^ 8 + b4.val) 0 = b4 := by
  refine ⟨?_, ?_, ?_, ?_, ?_⟩
  all_goals simp [valByte, byteOf, Fin.ext_iff]
  all_goals omega

theorem valByte_of_sum_le40 (b0 b1 b2 b3 b4 : Byte) :
    valByte (b0.val + b1.val * 2 ^ 8 + b2.val * 2 ^ 16 + b3.val * 2 ^ 24 + b4.val * 2 ^ 32) 0 = b0 ∧
    valByte (b0.val + b1.val * 2 ^ 8 + b2.val * 2 ^ 16 + b3.val * 2 ^ 24 + b4.val * 2 ^ 32) 1 = b1 ∧
    valByte (b0.val + b1.val * 2 ^ 8 + b2.val * 2 ^ 16 + b3.val * 2 ^ 24 + b4.val * 2 ^ 32) 2 = b2 ∧
    valByte (b0.val + b1.val * 2 ^ 8 + b2.val * 2 ^ 16 + b3.val * 2 ^ 24 + b4.val * 2 ^ 32) 3 = b3 ∧
    valByte (b0.val + b1.val * 2 ^ 8 + b2.val * 2 ^ 16 + b3.val * 2 ^ 24 + b4.val * 2 ^ 32) 4 = b4 := by
  refine ⟨?_, ?_, ?_, ?_, ?_⟩
  all_goals simp [valByte, byteOf, Fin.ext_iff]
  all_goals omega

theorem valByte_of_sum_be48 (b0 b1 b2 b3 b4 b5 : Byte) :
    valByte (b0.val * 2 ^ 40 + b1.val * 2 ^ 32 + b2.val * 2 ^ 24 + b3.val * 2 ^ 16 + b4.val * 2 ^ 8 + b5.val) 5 = b0 ∧
    valByte (b0.val * 2 ^ 40 + b1.val * 2 ^ 32 + b2.val * 2 ^ 24 + b3.val * 2 ^ 16 + b4.val * 2 ^ 8 + b5.val) 4 = b1 ∧
    valByte (b0.val * 2 ^ 40 + b1.val * 2 ^ 32 + b2.val * 2 ^ 24 + b3.val * 2 ^ 16 + b4.val * 2 ^ 8 + b5.val) 3 = b2 ∧
    valByte (b0.val * 2 ^ 40 + b1.val * 2 ^ 32 + b2.val * 2 ^ 24 + b3.val * 2 ^ 16 + b4.val * 2 ^ 8 + b5.val) 2 = b3 ∧
    valByte (b0.val * 2 ^ 40 + b1.val * 2 ^ 32 + b2.val * 2 ^ 24 + b3.val * 2 ^ 16 + b4.val * 2 ^ 8 + b5.val) 1 = b4 ∧
    valByte (b0.val * 2 ^ 40 + b1.val * 2 ^ 32 + b2.val * 2 ^ 24 + b3.val * 2 ^ 16 + b4.val * 2 ^ 8 + b5.val) 0 = b5 := by
  refine ⟨?_, ?_, ?_, ?_, ?_, ?_⟩
  all_goals simp [valByte, byteOf, Fin.ext_iff]
  all_goals omega

theorem valByte_of_sum_le48 (b0 b1 b2 b3 b4 b5 : Byte) :
    valByte (b0.val + b1.val * 2 ^ 8 + b2.val * 2 ^ 16 + b3.val * 2 ^ 24 + b4.val * 2 ^ 32 + b5.val * 2 ^ 40) 0 = b0 ∧
    valByte (b0.val + b1.val * 2 ^ 8 + b2.val * 2 ^ 16 + b3.val * 2 ^ 24 + b4.val * 2 ^ 32 + b5.val * 2 ^ 40) 1 = b1 ∧
    valByte (b0.val + b1.val * 2 ^ 8 + b2.val * 2 ^ 16 + b3.val * 2 ^ 24 + b4.val * 2 ^ 32 + b5.val * 2 ^ 40) 2 = b2 ∧
    valByte (b0.val + b1.val * 2 ^ 8 + b2.val * 2 ^ 16 + b3.val * 2 ^ 24 + b4.val * 2 ^ 32 + b5.val * 2 ^ 40) 3 = b3 ∧
    valByte (b0.val + b1.val * 2 ^ 8 + b2.val * 2 ^ 16 + b3.val * 2 ^ 24 + b4.val * 2 ^ 32 + b5.val * 2 ^ 40) 4 = b4 ∧
    valByte (b0.val + b1.val * 2 ^ 8 + b2.val * 2 ^ 16 + b3.val * 2 ^ 24 + b4.val * 2 ^ 32 + b5.val * 2 ^ 40) 5 = b5 := by
  refine ⟨?_, ?_, ?_, ?_, ?_, ?_⟩
  all_goals simp [valByte, byteOf, Fin.ext_iff]
  all_goals omega

theorem valByte_of_sum_be56 (b0 b1 b2 b3 b4 b5 b6 : Byte) :
    valByte (b0.val * 2 ^ 48 + b1.val * 2 ^ 40 + b2.val * 2 ^ 32 + b3.val * 2 ^ 24 + b4.val * 2 ^ 16 + b5.val * 2 ^ 8 + b6.val) 6 = b0 ∧
    valByte (b0.val * 2 ^ 48 + b1.val * 2 ^ 40 + b2.val * 2 ^ 32 + b3.val * 2 ^ 24 + b4.val * 2 ^ 16 + b5.val * 2 ^ 8 + b6.val) 5 = b1 ∧
    valByte (b0.val * 2 ^ 48 + b1.val * 2 ^ 40 + b2.val * 2 ^ 32 + b3.val * 2 ^ 24 + b4.val * 2 ^ 16 + b5.val * 2 ^ 8 + b6.val) 4 = b2 ∧
    valByte (b0.val * 2 ^ 48 + b1.val * 2 ^ 40 + b2.val * 2 ^ 32 + b3.val * 2 ^ 24 + b4.val * 2 ^ 16 + b5.val * 2 ^ 8 + b6.val) 3 = b3 ∧
    valByte (b0.val * 2 ^ 48 + b1.val * 2 ^ 40 + b2.val * 2 ^ 32 + b3.val * 2 ^ 24 + b4.val * 2 ^ 16 + b5.val * 2 ^ 8 + b6.val) 2 = b4 ∧
    valByte (b0.val * 2 ^ 48 + b1.val * 2 ^ 40 + b2.val * 2 ^ 32 + b3.val * 2 ^ 24 + b4.val * 2 ^ 16 + b5.val * 2 ^ 8 + b6.val) 1 = b5 ∧
    valByte (b0.val * 2 ^ 48 + b1.val * 2 ^ 40 + b2.val * 2 ^ 32 + b3.val * 2 ^ 24 + b4.val * 2 ^ 16 + b5.val * 2 ^ 8 + b6.val) 0 = b6 := by
  refine ⟨?_, ?_, ?_, ?_, ?_, ?_, ?_⟩
  all_goals simp [valByte, byteOf, Fin.ext_iff]
  all_goals omega

theorem valByte_of_sum_le56 (b0 b1 b2 b3 b4 b5 b6 : Byte) :
    valByte (b0.val + b1.val * 2 ^ 8 + b2.val * 2 ^ 16 + b3.val * 2 ^ 24 + b4.val * 2 ^ 32 + b5.val * 2 ^ 40 + b6.val * 2 ^ 48) 0 = b0 ∧
    valByte (b0.val + b1.val * 2 ^ 8 + b2.val * 2 ^ 16 + b3.val * 2 ^ 24 + b4.val * 2 ^ 32 + b5.val * 2 ^ 40 + b6.val * 2 ^ 48) 1 = b1 ∧
    valByte (b0.val + b1.val * 2 ^ 8 + b2.val * 2 ^ 16 + b3.val * 2 ^ 24 + b4.val * 2 ^ 32 + b5.val * 2 ^ 40 + b6.val * 2 ^ 48) 2 = b2 ∧
    valByte (b0.val + b1.val * 2 ^ 8 + b2.val * 2 ^ 16 + b3.val * 2 ^ 24 + b4.val * 2 ^ 32 + b5.val * 2 ^ 40 + b6.val * 2 ^ 48) 3 = b3 ∧
    valByte (b0.val + b1.val * 2 ^ 8 + b2.val * 2 ^ 16 + b3.val * 2 ^ 24 + b4.val * 2 ^ 32 + b5.val * 2 ^ 40 + b6.val * 2 ^ 48) 4 = b4 ∧
    valByte (b0.val + b1.val * 2 ^ 8 + b2.val * 2 ^ 16 + b3.val * 2 ^ 24 + b4.val * 2 ^ 32 + b5.val * 2 ^ 40 + b6.val * 2 ^ 48) 5 = b5 ∧
    valByte (b0.val + b1.val * 2 ^ 8 + b2.val * 2 ^ 16 + b3.val * 2 ^ 24 + b4.val * 2 ^ 32 + b5.val * 2 ^ 40 + b6.val * 2 ^ 48) 6 = b6 := by
  refine ⟨?_, ?_, ?_, ?_, ?_, ?_, ?_⟩
  all_goals simp [valByte, byteOf, Fin.ext_iff]
  all_goals omega

theorem valByte_of_sum_be64 (b0 b1 b2 b3 b4 b5 b6 b7 : Byte) :
    valByte (b0.val * 2 ^ 56 + b1.val * 2 ^ 48 + b2.val * 2 ^ 40 + b3.val * 2 ^ 32 + b4.val * 2 ^ 24 + b5.val * 2 ^ 16 + b6.val * 2 ^ 8 + b7.val) 7 = b0 ∧
    valByte (b0.val * 2 ^ 56 + b1.val * 2 ^ 48 + b2.val * 2 ^ 40 + b3.val * 2 ^ 32 + b4.val * 2 ^ 24 + b5.val * 2 ^ 16 + b6.val * 2 ^ 8 + b7.val) 6 = b1 ∧
    valByte (b0.val * 2 ^ 56 + b1.val * 2 ^ 48 + b2.val * 2 ^ 40 + b3.val * 2 ^ 32 + b4.val * 2 ^ 24 + b5.val * 2 ^ 16 + b6.val * 2 ^ 8 + b7.val) 5 = b2 ∧
    valByte (b0.val * 2 ^ 56 + b1.val * 2 ^ 48 + b2.val * 2 ^ 40 + b3.val * 2 ^ 32 + b4.val * 2 ^ 24 + b5.val * 2 ^ 16 + b6.val * 2 ^ 8 + b7.val) 4 = b3 ∧
    valByte (b0.val * 2 ^ 56 + b1.val * 2 ^ 48 + b2.val * 2 ^ 40 + b3.val * 2 ^ 32 + b4.val * 2 ^ 24 + b5.val * 2 ^ 16 + b6.val * 2 ^ 8 + b7.val) 3 = b4 ∧
    valByte (b0.val * 2 ^ 56 + b1.val * 2 ^ 48 + b2.val * 2 ^ 40 + b3.val * 2 ^ 32 + b4.val * 2 ^ 24 + b5.val * 2 ^ 16 + b6.val * 2 ^ 8 + b7.val) 2 = b5 ∧
    valByte (b0.val * 2 ^ 56 + b1.val * 2 ^ 48 + b2.val * 2 ^ 40 + b3.val * 2 ^ 32 + b4.val * 2 ^ 24 + b5.val * 2 ^ 16 + b6.val * 2 ^ 8 + b7.val) 1 = b6 ∧
    valByte (b0.val * 2 ^ 56 + b1.val * 2 ^ 48 + b2.val * 2 ^ 40 + b3.val * 2 ^ 32 + b4.val * 2 ^ 24 + b5.val * 2 ^ 16 + b6.val * 2 ^ 8 + b7.val) 0 = b7 := by
  refine ⟨?_, ?_, ?_, ?_, ?_, ?_, ?_, ?_⟩
  all_goals simp [valByte, byteOf, Fin.ext_iff]
  all_goals omega

theorem valByte_of_sum_le64 (b0 b1 b2 b3 b4 b5 b6 b7 : Byte) :
    valByte (b0.val + b1.val * 2 ^ 8 + b2.val * 2 ^ 16 + b3.val * 2 ^ 24 + b4.val * 2 ^ 32 + b5.val * 2 ^ 40 + b6.val * 2 ^ 48 + b7.val * 2 ^ 56) 0 = b0 ∧
    valByte (b0.val + b1.val * 2 ^ 8 + b2.val * 2 ^ 16 + b3.val * 2 ^ 24 + b4.val * 2 ^ 32 + b5.val * 2 ^ 40 + b6.val * 2 ^ 48 + b7.val * 2 ^ 56) 1 = b1 ∧
    valByte (b0.val + b1.val * 2 ^ 8 + b2.val * 2 ^ 16 + b3.val * 2 ^ 24 + b4.val * 2 ^ 32 + b5.val * 2 ^ 40 + b6.val * 2 ^ 48 + b7.val * 2 ^ 56) 2 = b2 ∧
    valByte (b0.val + b1.val * 2 ^ 8 + b2.val * 2 ^ 16 + b3.val * 2 ^ 24 + b4.val * 2 ^ 32 + b5.val * 2 ^ 40 + b6.val * 2 ^ 48 + b7.val * 2 ^ 56) 3 = b3 ∧
    valByte (b0.val + b1.val * 2 ^ 8 + b2.val * 2 ^ 16 + b3.val * 2 ^ 24 + b4.val * 2 ^ 32 + b5.val * 2 ^ 40 + b6.val * 2 ^ 48 + b7.val * 2 ^ 56) 4 = b4 ∧
    valByte (b0.val + b1.val * 2 ^ 8 + b2.val * 2 ^ 16 + b3.val * 2 ^ 24 + b4.val * 2 ^ 32 + b5.val * 2 ^ 40 + b6.val * 2 ^ 48 + b7.val * 2 ^ 56) 5 = b5 ∧
    valByte (b0.val + b1.val * 2 ^ 8 + b2.val * 2 ^ 16 + b3.val * 2 ^ 24 + b4.val * 2 ^ 32 + b5.val * 2 ^ 40 + b6.val * 2 ^ 48 + b7.val * 2 ^ 56) 6 = b6 ∧
    valByte (b0.val + b1.val * 2 ^ 8 + b2.val * 2 ^ 16 + b3.val * 2 ^ 24 + b4.val * 2 ^ 32 + b5.val * 2 ^ 40 + b6.val * 2 ^ 48 + b7.val * 2 ^ 56) 7 = b7 := by
  refine ⟨?_, ?_, ?_, ?_, ?_, ?_, ?_, ?_⟩
  all_goals simp [valByte, byteOf, Fin.ext_iff]
  all_goals omega

theorem getBe_then_setBe (w : Width) (buf : Buf) (hlen : w.bytes ≤ buf.length) :
    ∃ v m1 m2 m3, getBe w buf = some (v, m1) ∧ setBe w m1 v = some m2 ∧
      m2.take w.bytes = buf.take w.bytes ∧
      setBe w buf v = some m3 ∧ m3.take w.bytes = buf.take w.bytes ∧
      v < 2 ^ w.bits ∧
      (∀ dest : Buf, w.bytes ≤ dest.length →
        ∃ m4, setBe w dest v = some m4 ∧ m4.take w.bytes = buf.take w.bytes) ∧
      (∀ (dest : Buf) (x : Nat) (m4 : Buf), x < 2 ^ w.bits → setBe w dest x = some m4 →
        m4.take w.bytes = buf.take w.bytes → x = v) := by
  cases w
  · obtain ⟨b0, b1, r, rfl⟩ := buf_split2 hlen
    obtain ⟨e0, e1⟩ := valByte_of_sum_be16 b0 b1
    refine ⟨_, _, _, _, AmiGetWordFromBe_cons _ _ _, AmiSetWordToBe_cons _ _ _ _,
      by rw [e0, e1],
      AmiSetWordToBe_cons _ _ _ _,
      by rw [e0, e1], ?_, fun dest hd => ?_, fun dest x m4 hx hset htake => ?_⟩
    · show _ < 2 ^ 16
      omega
    · obtain ⟨c0, c1, r2, rfl⟩ := buf_split2 hd
      exact ⟨_, AmiSetWordToBe_cons _ _ _ _, by rw [e0, e1]; rfl⟩
    · have hd := (AmiSetWordToBe_isSome dest x).1 (by
        rw [show AmiSetWordToBe dest x = some m4 from hset]
        rfl)
      obtain ⟨c0, c1, r2, rfl⟩ := buf_split2 hd
      change AmiSetWordToBe _ _ = _ at hset
      rw [AmiSetWordToBe_cons] at hset
      cases hset
      have h : [valByte x 1, valByte x 0] = [b0, b1] := htake
      simp only [List.cons.injEq, and_true] at h
      obtain ⟨h0, h1⟩ := h
      rw [← h0, ← h1]
      exact (valByte_sum_be16 x hx).symm
  · obtain ⟨b0, b1, b2, r, rfl⟩ := buf_split3 hlen
    obtain ⟨e0, e1, e2⟩ := valByte_of_sum_be24 b0 b1 b2
    refine ⟨_, _, _, _, AmiGetDword24FromBe_cons _ _ _ _, AmiSetDword24ToBe_cons _ _ _ _ _,
      by rw [e0, e1, e2],
      AmiSetDword24ToBe_cons _ _ _ _ _,
      by rw [e0, e1, e2], ?_, fun dest hd => ?_, fun dest x m4 hx hset htake => ?_⟩
    · show _ < 2 ^ 24
      omega
    · obtain ⟨c0, c1, c2, r2, rfl⟩ := buf_split3 hd
      exact ⟨_, AmiSetDword24ToBe_cons _ _ _ _ _, by rw [e0, e1, e2]; rfl⟩
    · have hd := (AmiSetDword24ToBe_isSome dest x).1 (by
        rw [show AmiSetDword24ToBe dest x = some m4 from hset]
        rfl)
      obtain ⟨c0, c1, c2, r2, rfl⟩ := buf_split3 hd
      change AmiSetDword24ToBe _ _ = _ at hset
      rw [AmiSetDword24ToBe_cons] at hset
      cases hset
      have h : [valByte x 2, valByte x 1, valByte x 0] = [b0, b1, b2] := htake
      simp only [List.cons.injEq, and_true] at h
      obtain ⟨h0, h1, h2⟩ := h
      rw [← h0, ← h1, ← h2]
      exact (valByte_sum_be24 x hx).symm
  · obtain ⟨b0, b1, b2, b3, r, rfl⟩ := buf_split4 hlen
    obtain ⟨e0, e1, e2, e3⟩ := valByte_of_sum_be32 b0 b1 b2 b3
    refine ⟨_, _, _, _, AmiGetDwordFromBe_cons _ _ _ _ _, AmiSetDwordToBe_cons _ _ _ _ _ _,
      by rw [e0, e1, e2, e3],
      AmiSetDwordToBe_cons _ _ _ _ _ _,
      by rw [e0, e1, e2, e3], ?_, fun dest hd => ?_, fun dest x m4 hx hset htake => ?_⟩
    · show _ < 2 ^ 32
      omega
    · obtain ⟨c0, c1, c2, c3, r2, rfl⟩ := buf_split4 hd
      exact ⟨_, AmiSetDwordToBe_cons _ _ _ _ _ _, by rw [e0, e1, e2, e3]; rfl⟩
    · have hd := (AmiSetDwordToBe_isSome dest x).1 (by
        rw [show AmiSetDwordToBe dest x = some m4 from hset]
        rfl)
      obtain ⟨c0, c1, c2, c3, r2, rfl⟩ := buf_split4 hd
      change AmiSetDwordToBe _ _ = _ at hset
      rw [AmiSetDwordToBe_cons] at hset
      cases hset
      have h : [valByte x 3, valByte x 2, valByte x 1, valByte x 0] = [b0, b1, b2, b3] := htake
      simp only [List.cons.injEq, and_true] at h
      obtain ⟨h0, h1, h2, h3⟩ := h
      rw [← h0, ← h1, ← h2, ← h3]
      exact (valByte_sum_be32 x hx).symm
  · obtain ⟨b0, b1, b2, b3, b4, r, rfl⟩ := buf_split5 hlen
    obtain ⟨e0, e1, e2, e3, e4⟩ := valByte_of_sum_be40 b0 b1 b2 b3 b4
    refine ⟨_, _, _, _, AmiGetQword40FromBe_cons _ _ _ _ _ _, AmiSetQword40ToBe_cons _ _ _ _ _ _ _,
      by rw [e0, e1, e2, e3, e4],
      AmiSetQword40ToBe_cons _ _ _ _ _ _ _,
      by rw [e0, e1, e2, e3, e4], ?_, fun dest hd => ?_, fun dest x m4 hx hset htake => ?_⟩
    · show _ < 2 ^ 40
      omega
    · obtain ⟨c0, c1, c2, c3, c4, r2, rfl⟩ := buf_split5 hd
      exact ⟨_, AmiSetQword40ToBe_cons _ _ _ _ _ _ _, by rw [e0, e1, e2, e3, e4]; rfl⟩
    · have hd := (AmiSetQword40ToBe_isSome dest x).1 (by
        rw [show AmiSetQword40ToBe dest x = some m4 from hset]
        rfl)
      obtain ⟨c0, c1, c2, c3, c4, r2, rfl⟩ := buf_split5 hd
      change AmiSetQword40ToBe _ _ = _ at hset
      rw [AmiSetQword40ToBe_cons] at hset
      cases hset
      have h : [valByte x 4, valByte x 3, valByte x 2, valByte x 1, valByte x 0] = [b0, b1, b2, b3, b4] := htake
      simp only [List.cons.injEq, and_true] at h
      obtain ⟨h0, h1, h2, h3, h4⟩ := h
      rw [← h0, ← h1, ← h2, ← h3, ← h4]
      exact (valByte_sum_be40 x hx).symm
  · obtain ⟨b0, b1, b2, b3, b4, b5, r, rfl⟩ := buf_split6 hlen
    obtain ⟨e0, e1, e2, e3, e4, e5⟩ := valByte_of_sum_be48 b0 b1 b2 b3 b4 b5
    refine ⟨_, _, _, _, AmiGetQword48FromBe_cons _ _ _ _ _ _ _, AmiSetQword48ToBe_cons _ _ _ _ _ _ _ _,
      by rw [e0, e1, e2, e3, e4, e5],
      AmiSetQword48ToBe_cons _ _ _ _ _ _ _ _,
      by rw [e0, e1, e2, e3, e4, e5], ?_, fun dest hd => ?_, fun dest x m4 hx hset htake => ?_⟩
    · show _ < 2 ^ 48
      omega
    · obtain ⟨c0, c1, c2, c3, c4, c5, r2, rfl⟩ := buf_split6 hd
      exact ⟨_, AmiSetQword48ToBe_cons _ _ _ _ _ _ _ _, by rw [e0, e1, e2, e3, e4, e5]; rfl⟩
    · have hd := (AmiSetQword48ToBe_isSome dest x).1 (by
        rw [show AmiSetQword48ToBe dest x = some m4 from hset]
        rfl)
      obtain ⟨c0, c1, c2, c3, c4, c5, r2, rfl⟩ := buf_split6 hd
      change AmiSetQword48ToBe _ _ = _ at hset
      rw [AmiSetQword48ToBe_cons] at hset
      cases hset
      have h : [valByte x 5, valByte x 4, valByte x 3, valByte x 2, valByte x 1, valByte x 0] = [b0, b1, b2, b3, b4, b5] := htake
      simp only [List.cons.injEq, and_true] at h
      obtain ⟨h0, h1, h2, h3, h4, h5⟩ := h
      rw [← h0, ← h1, ← h2, ← h3, ← h4, ← h5]
      exact (valByte_sum_be48 x hx).symm
  · obtain ⟨b0, b1, b2, b3, b4, b5, b6, r, rfl⟩ := buf_split7 hlen
    obtain ⟨e0, e1, e2, e3, e4, e5, e6⟩ := valByte_of_sum_be56 b0 b1 b2 b3 b4 b5 b6
    refine ⟨_, _, _, _, AmiGetQword56FromBe_cons _ _ _ _ _ _ _ _, AmiSetQword56ToBe_cons _ _ _ _ _ _ _ _ _,
      by rw [e0, e1, e2, e3, e4, e5, e6],
      AmiSetQword56ToBe_cons _ _ _ _ _ _ _ _ _,
      by rw [e0, e1, e2, e3, e4, e5, e6], ?_, fun dest hd => ?_, fun dest x m4 hx hset htake => ?_⟩
    · show _ < 2 ^ 56
      omega
    · obtain ⟨c0, c1, c2, c3, c4, c5, c6, r2, rfl⟩ := buf_split7 hd
      exact ⟨_, AmiSetQword56ToBe_cons _ _ _ _ _ _ _ _ _, by rw [e0, e1, e2, e3, e4, e5, e6]; rfl⟩
    · have hd := (AmiSetQword56ToBe_isSome dest x).1 (by
        rw [show AmiSetQword56ToBe dest x = some m4 from hset]
        rfl)
      obtain ⟨c0, c1, c2, c3, c4, c5, c6, r2, rfl⟩ := buf_split7 hd
      change AmiSetQword56ToBe _ _ = _ at hset
      rw [AmiSetQword56ToBe_cons] at hset
      cases hset
      have h : [valByte x 6, valByte x 5, valByte x 4, valByte x 3, valByte x 2, valByte x 1, valByte x 0] = [b0, b1, b2, b3, b4, b5, b6] := htake
      simp only [List.cons.injEq, and_true] at h
      obtain ⟨h0, h1, h2, h3, h4, h5, h6⟩ := h
      rw [← h0, ← h1, ← h2, ← h3, ← h4, ← h5, ← h6]
      exact (valByte_sum_be56 x hx).symm
  · obtain ⟨b0, b1, b2, b3, b4, b5, b6, b7, r, rfl⟩ := buf_split8 hlen
    obtain ⟨e0, e1, e2, e3, e4, e5, e6, e7⟩ := valByte_of_sum_be64 b0 b1 b2 b3 b4 b5 b6 b7
    refine ⟨_, _, _, _, AmiGetQword64FromBe_cons _ _ _ _ _ _ _ _ _, AmiSetQword64ToBe_cons _ _ _ _ _ _ _ _ _ _,
      by rw [e0, e1, e2, e3, e4, e5, e6, e7],
      AmiSetQword64ToBe_cons _ _ _ _ _ _ _ _ _ _,
      by rw [e0, e1, e2, e3, e4, e5, e6, e7], ?_, fun dest hd => ?_, fun dest x m4 hx hset htake => ?_⟩
    · show _ < 2 ^ 64
      omega
    · obtain ⟨c0, c1, c2, c3, c4, c5, c6, c7, r2, rfl⟩ := buf_split8 hd
      exact ⟨_, AmiSetQword64ToBe_cons _ _ _ _ _ _ _ _ _ _, by rw [e0, e1, e2, e3, e4, e5, e6, e7]; rfl⟩
    · have hd := (AmiSetQword64ToBe_isSome dest x).1 (by
        rw [show AmiSetQword64ToBe dest x = some m4 from hset]
        rfl)
      obtain ⟨c0, c1, c2, c3, c4, c5, c6, c7, r2, rfl⟩ := buf_split8 hd
      change AmiSetQword64ToBe _ _ = _ at hset
      rw [AmiSetQword64ToBe_cons] at hset
      cases hset
      have h : [valByte x 7, valByte x 6, valByte x 5, valByte x 4, valByte x 3, valByte x 2, valByte x 1, valByte x 0] = [b0, b1, b2, b3, b4, b5, b6, b7] := htake
      simp only [List.cons.injEq, and_true] at h
      obtain ⟨h0, h1, h2, h3, h4, h5, h6, h7⟩ := h
      rw [← h0, ← h1, ← h2, ← h3, ← h4, ← h5, ← h6, ← h7]
      exact (valByte_sum_be64 x hx).symm

theorem getLe_then_setLe (w : Width) (buf : Buf) (hlen : w.leGetSpan ≤ buf.length) :
    ∃ v m1 m2 m3, getLe w buf = some (v, m1) ∧ setLe w m1 v = some m2 ∧
      m2.take w.bytes = buf.take w.bytes ∧
      setLe w buf v = some m3 ∧ m3.take w.bytes = buf.take w.bytes ∧
      v < 2 ^ w.bits ∧
      (∀ dest : Buf, w.bytes ≤ dest.length →
        ∃ m4, setLe w dest v = some m4 ∧ m4.take w.bytes = buf.take w.bytes) ∧
      (∀ (dest : Buf) (x : Nat) (m4 : Buf), x < 2 ^ w.bits → setLe w dest x = some m4 →
        m4.take w.bytes = buf.take w.bytes → x = v) := by
  cases w
  · obtain ⟨b0, b1, r, rfl⟩ := buf_split2 hlen
    obtain ⟨e0, e1⟩ := valByte_of_sum_le16 b0 b1
    refine ⟨_, _, _, _, AmiGetWordFromLe_cons _ _ _, AmiSetWordToLe_cons _ _ _ _,
      by rw [e0, e1],
      AmiSetWordToLe_cons _ _ _ _,
      by rw [e0, e1], ?_, fun dest hd => ?_, fun dest x m4 hx hset htake => ?_⟩
    · show _ < 2 ^ 16
      omega
    · obtain ⟨c0, c1, r2, rfl⟩ := buf_split2 hd
      exact ⟨_, AmiSetWordToLe_cons _ _ _ _, by rw [e0, e1]; rfl⟩
    · have hd := (AmiSetWordToLe_isSome dest x).1 (by
        rw [show AmiSetWordToLe dest x = some m4 from hset]
        rfl)
      obtain ⟨c0, c1, r2, rfl⟩ := buf_split2 hd
      change AmiSetWordToLe _ _ = _ at hset
      rw [AmiSetWordToLe_cons] at hset
      cases hset
      have h : [valByte x 0, valByte x 1] = [b0, b1] := htake
      simp only [List.cons.injEq, and_true] at h
      obtain ⟨h0, h1⟩ := h
      rw [← h0, ← h1]
      exact (valByte_sum_le16 x hx).symm
  · obtain ⟨b0, b1, b2, b3, r, rfl⟩ := buf_split4 hlen
    obtain ⟨e0, e1, e2⟩ := valByte_of_sum_le24 b0 b1 b2
    refine ⟨_, _, _, _, AmiGetDword24FromLe_cons _ _ _ _ _, AmiSetDword24ToLe_cons _ _ _ _ _,
      by rw [e0, e1, e2]; rfl,
      AmiSetDword24ToLe_cons _ _ _ _ _,
      by rw [e0, e1, e2], ?_, fun dest hd => ?_, fun dest x m4 hx hset htake => ?_⟩
    · show _ < 2 ^ 24
      omega
    · obtain ⟨c0, c1, c2, r2, rfl⟩ := buf_split3 hd
      exact ⟨_, AmiSetDword24ToLe_cons _ _ _ _ _, by rw [e0, e1, e2]; rfl⟩
    · have hd := (AmiSetDword24ToLe_isSome dest x).1 (by
        rw [show AmiSetDword24ToLe dest x = some m4 from hset]
        rfl)
      obtain ⟨c0, c1, c2, r2, rfl⟩ := buf_split3 hd
      change AmiSetDword24ToLe _ _ = _ at hset
      rw [AmiSetDword24ToLe_cons] at hset
      cases hset
      have h : [valByte x 0, valByte x 1, valByte x 2] = [b0, b1, b2] := htake
      simp only [List.cons.injEq, and_true] at h
      obtain ⟨h0, h1, h2⟩ := h
      rw [← h0, ← h1, ← h2]
      exact (valByte_sum_le24 x hx).symm
  · obtain ⟨b0, b1, b2, b3, r, rfl⟩ := buf_split4 hlen
    obtain ⟨e0, e1, e2, e3⟩ := valByte_of_sum_le32 b0 b1 b2 b3
    refine ⟨_, _, _, _, AmiGetDwordFromLe_cons _ _ _ _ _, AmiSetDwordToLe_cons _ _ _ _ _ _,
      by rw [e0, e1, e2, e3],
      AmiSetDwordToLe_cons _ _ _ _ _ _,
      by rw [e0, e1, e2, e3], ?_, fun dest hd => ?_, fun dest x m4 hx hset htake => ?_⟩
    · show _ < 2 ^ 32
      omega
    · obtain ⟨c0, c1, c2, c3, r2, rfl⟩ := buf_split4 hd
      exact ⟨_, AmiSetDwordToLe_cons _ _ _ _ _ _, by rw [e0, e1, e2, e3]; rfl⟩
    · have hd := (AmiSetDwordToLe_isSome dest x).1 (by
        rw [show AmiSetDwordToLe dest x = some m4 from hset]
        rfl)
      obtain ⟨c0, c1, c2, c3, r2, rfl⟩ := buf_split4 hd
      change AmiSetDwordToLe _ _ = _ at hset
      rw [AmiSetDwordToLe_cons] at hset
      cases hset
      have h : [valByte x 0, valByte x 1, valByte x 2, valByte x 3] = [b0, b1, b2, b3] := htake
      simp only [List.cons.injEq, and_true] at h
      obtain ⟨h0, h1, h2, h3⟩ := h
      rw [← h0, ← h1, ← h2, ← h3]
      exact (valByte_sum_le32 x hx).symm
  · obtain ⟨b0, b1, b2, b3, b4, b5, b6, b7, r, rfl⟩ := buf_split8 hlen
    obtain ⟨e0, e1, e2, e3, e4⟩ := valByte_of_sum_le40 b0 b1 b2 b3 b4
    refine ⟨_, _, _, _, AmiGetQword40FromLe_cons _ _ _ _ _ _ _ _ _, AmiSetQword40ToLe_cons _ _ _ _ _ _ _,
      by rw [e0, e1, e2, e3, e4]; rfl,
      AmiSetQword40ToLe_cons _ _ _ _ _ _ _,
      by rw [e0, e1, e2, e3, e4], ?_, fun dest hd => ?_, fun dest x m4 hx hset htake => ?_⟩
    · show _ < 2 ^ 40
      omega
    · obtain ⟨c0, c1, c2, c3, c4, r2, rfl⟩ := buf_split5 hd
      exact ⟨_, AmiSetQword40ToLe_cons _ _ _ _ _ _ _, by rw [e0, e1, e2, e3, e4]; rfl⟩
    · have hd := (AmiSetQword40ToLe_isSome dest x).1 (by
        rw [show AmiSetQword40ToLe dest x = some m4 from hset]
        rfl)
      obtain ⟨c0, c1, c2, c3, c4, r2, rfl⟩ := buf_split5 hd
      change AmiSetQword40ToLe _ _ = _ at hset
      rw [AmiSetQword40ToLe_cons] at hset
      cases hset
      have h : [valByte x 0, valByte x 1, valByte x 2, valByte x 3, valByte x 4] = [b0, b1, b2, b3, b4] := htake
      simp only [List.cons.injEq, and_true] at h
      obtain ⟨h0, h1, h2, h3, h4⟩ := h
      rw [← h0, ← h1, ← h2, ← h3, ← h4]
      exact (valByte_sum_le40 x hx).symm
  · obtain ⟨b0, b1, b2, b3, b4, b5, b6, b7, r, rfl⟩ := buf_split8 hlen
    obtain ⟨e0, e1, e2, e3, e4, e5⟩ := valByte_of_sum_le48 b0 b1 b2 b3 b4 b5
    refine ⟨_, _, _, _, AmiGetQword48FromLe_cons _ _ _ _ _ _ _ _ _, AmiSetQword48ToLe_cons _ _ _ _ _ _ _ _,
      by rw [e0, e1, e2, e3, e4, e5]; rfl,
      AmiSetQword48ToLe_cons _ _ _ _ _ _ _ _,
      by rw [e0, e1, e2, e3, e4, e5], ?_, fun dest hd => ?_, fun dest x m4 hx hset htake => ?_⟩
    · show _ < 2 ^ 48
      omega
    · obtain ⟨c0, c1, c2, c3, c4, c5, r2, rfl⟩ := buf_split6 hd
      exact ⟨_, AmiSetQword48ToLe_cons _ _ _ _ _ _ _ _, by rw [e0, e1, e2, e3, e4, e5]; rfl⟩
    · have hd := (AmiSetQword48ToLe_isSome dest x).1 (by
        rw [show AmiSetQword48ToLe dest x = some m4 from hset]
        rfl)
      obtain ⟨c0, c1, c2, c3, c4, c5, r2, rfl⟩ := buf_split6 hd
      change AmiSetQword48ToLe _ _ = _ at hset
      rw [AmiSetQword48ToLe_cons] at hset
      cases hset
      have h : [valByte x 0, valByte x 1, valByte x 2, valByte x 3, valByte x 4, valByte x 5] = [b0, b1, b2, b3, b4, b5] := htake
      simp only [List.cons.injEq, and_true] at h
      obtain ⟨h0, h1, h2, h3, h4, h5⟩ := h
      rw [← h0, ← h1, ← h2, ← h3, ← h4, ← h5]
      exact (valByte_sum_le48 x hx).symm
  · obtain ⟨b0, b1, b2, b3, b4, b5, b6, b7, r, rfl⟩ := buf_split8 hlen
    obtain ⟨e0, e1, e2, e3, e4, e5, e6⟩ := valByte_of_sum_le56 b0 b1 b2 b3 b4 b5 b6
    refine ⟨_, _, _, _, AmiGetQword56FromLe_cons _ _ _ _ _ _ _ _ _, AmiSetQword56ToLe_cons _ _ _ _ _ _ _ _ _,
      by rw [e0, e1, e2, e3, e4, e5, e6]; rfl,
      AmiSetQword56ToLe_cons _ _ _ _ _ _ _ _ _,
      by rw [e0, e1, e2, e3, e4, e5, e6], ?_, fun dest hd => ?_, fun dest x m4 hx hset htake => ?_⟩
    · show _ < 2 ^ 56
      omega
    · obtain ⟨c0, c1, c2, c3, c4, c5, c6, r2, rfl⟩ := buf_split7 hd
      exact ⟨_, AmiSetQword56ToLe_cons _ _ _ _ _ _ _ _ _, by rw [e0, e1, e2, e3, e4, e5, e6]; rfl⟩
    · have hd := (AmiSetQword56ToLe_isSome dest x).1 (by
        rw [show AmiSetQword56ToLe dest x = some m4 from hset]
        rfl)
      obtain ⟨c0, c1, c2, c3, c4, c5, c6, r2, rfl⟩ := buf_split7 hd
      change AmiSetQword56ToLe _ _ = _ at hset
      rw [AmiSetQword56ToLe_cons] at hset
      cases hset
      have h : [valByte x 0, valByte x 1, valByte x 2, valByte x 3, valByte x 4, valByte x 5, valByte x 6] = [b0, b1, b2, b3, b4, b5, b6] := htake
      simp only [List.cons.injEq, and_true] at h
      obtain ⟨h0, h1, h2, h3, h4, h5, h6⟩ := h
      rw [← h0, ← h1, ← h2, ← h3, ← h4, ← h5, ← h6]
      exact (valByte_sum_le56 x hx).symm
  · obtain ⟨b0, b1, b2, b3, b4, b5, b6, b7, r, rfl⟩ := buf_split8 hlen
    obtain ⟨e0, e1, e2, e3, e4, e5, e6, e7⟩ := valByte_of_sum_le64 b0 b1 b2 b3 b4 b5 b6 b7
    refine ⟨_, _, _, _, AmiGetQword64FromLe_cons _ _ _ _ _ _ _ _ _, AmiSetQword64ToLe_cons _ _ _ _ _ _ _ _ _ _,
      by rw [e0, e1, e2, e3, e4, e5, e6, e7],
      AmiSetQword64ToLe_cons _ _ _ _ _ _ _ _ _ _,
      by rw [e0, e1, e2, e3, e4, e5, e6, e7], ?_, fun dest hd => ?_, fun dest x m4 hx hset htake => ?_⟩
    · show _ < 2 ^ 64
      omega
    · obtain ⟨c0, c1, c2, c3, c4, c5, c6, c7, r2, rfl⟩ := buf_split8 hd
      exact ⟨_, AmiSetQword64ToLe_cons _ _ _ _ _ _ _ _ _ _, by rw [e0, e1, e2, e3, e4, e5, e6, e7]; rfl⟩
    · have hd := (AmiSetQword64ToLe_isSome dest x).1 (by
        rw [show AmiSetQword64ToLe dest x = some m4 from hset]
        rfl)
      obtain ⟨c0, c1, c2, c3, c4, c5, c6, c7, r2, rfl⟩ := buf_split8 hd
      change AmiSetQword64ToLe _ _ = _ at hset
      rw [AmiSetQword64ToLe_cons] at hset
      cases hset
      have h : [valByte x 0, valByte x 1, valByte x 2, valByte x 3, valByte x 4, valByte x 5, valByte x 6, valByte x 7] = [b0, b1, b2, b3, b4, b5, b6, b7] := htake
      simp only [List.cons.injEq, and_true] at h
      obtain ⟨h0, h1, h2, h3, h4, h5, h6, h7⟩ := h
      rw [← h0, ← h1, ← h2, ← h3, ← h4, ← h5, ← h6, ← h7]
      exact (valByte_sum_le64 x hx).symm

/-- C19: decode-then-encode restores the field.  For every width `W`, both byte orders
and every buffer that holds the bytes the calls access, the `Get` returns a value
`v < 2 ^ W`, and the matching `Set` of `v` — on the buffer as the `Get` left it, on the
buffer as it was before the `Get`, and on any other destination of at least `W/8` bytes,
whatever it holds — succeeds and leaves in the first `W/8` bytes the values the source
buffer held before the `Get`.  The first `W/8` bytes are thus the encoding of the value
they decode to, and of no other value below `2 ^ W`. -/
theorem get_then_set_restores (w : Width) (buf : Buf) :
    (w.bytes ≤ buf.length →
      ∃ v m1 m2 m3, getBe w buf = some (v, m1) ∧ setBe w m1 v = some m2 ∧
        m2.take w.bytes = buf.take w.bytes ∧
        setBe w buf v = some m3 ∧ m3.take w.bytes = buf.take w.bytes ∧
        v < 2 ^ w.bits ∧
        (∀ dest : Buf, w.bytes ≤ dest.length →
          ∃ m4, setBe w dest v = some m4 ∧ m4.take w.bytes = buf.take w.bytes) ∧
        (∀ (dest : Buf) (x : Nat) (m4 : Buf), x < 2 ^ w.bits → setBe w dest x = some m4 →
          m4.take w.bytes = buf.take w.bytes → x = v)) ∧
    (w.leGetSpan ≤ buf.length →
      ∃ v m1 m2 m3, getLe w buf = some (v, m1) ∧ setLe w m1 v = some m2 ∧
        m2.take w.bytes = buf.take w.bytes ∧
        setLe w buf v = some m3 ∧ m3.take w.bytes = buf.take w.bytes ∧
        v < 2 ^ w.bits ∧
        (∀ dest : Buf, w.bytes ≤ dest.length →
          ∃ m4, setLe w dest v = some m4 ∧ m4.take w.bytes = buf.take w.bytes) ∧
        (∀ (dest : Buf) (x : Nat) (m4 : Buf), x < 2 ^ w.bits → setLe w dest x = some m4 →
          m4.take w.bytes = buf.take w.bytes → x = v)) :=
  ⟨getBe_then_setBe w buf, getLe_then_setLe w buf⟩

/-- Witness for C19: the 56 bit little-endian and the 32 bit big-endian field of a nine
byte buffer, decoded and then encoded into the same buffer and into a destination that
holds other bytes. -/
theorem get_then_set_restores_witness :
    (∃ v m1 m2 m3, getLe Width.w56 [1, 2, 3, 4, 5, 6, 7, 8, 9] = some (v, m1) ∧
      setLe Width.w56 m1 v = some m2 ∧
      m2.take Width.w56.bytes = ([1, 2, 3, 4, 5, 6, 7, 8, 9] : Buf).take Width.w56.bytes ∧
      setLe Width.w56 [1, 2, 3, 4, 5, 6, 7, 8, 9] v = some m3 ∧
      m3.take Width.w56.bytes = ([1, 2, 3, 4, 5, 6, 7, 8, 9] : Buf).take Width.w56.bytes ∧
      v < 2 ^ Width.w56.bits ∧
      (∀ dest : Buf, Width.w56.bytes ≤ dest.length →
        ∃ m4, setLe Width.w56 dest v = some m4 ∧
          m4.take Width.w56.bytes = ([1, 2, 3, 4, 5, 6, 7, 8, 9] : Buf).take Width.w56.bytes) ∧
      (∀ (dest : Buf) (x : Nat) (m4 : Buf), x < 2 ^ Width.w56.bits →
        setLe Width.w56 dest x = some m4 →
        m4.take Width.w56.bytes = ([1, 2, 3, 4, 5, 6, 7, 8, 9] : Buf).take Width.w56.bytes →
        x = v)) ∧
    (∃ v m1 m2 m3, getBe Width.w32 [1, 2, 3, 4, 5, 6, 7, 8, 9] = some (v, m1) ∧
      setBe Width.w32 m1 v = some m2 ∧
      m2.take Width.w32.bytes = ([1, 2, 3, 4, 5, 6, 7, 8, 9] : Buf).take Width.w32.bytes ∧
      setBe Width.w32 [1, 2, 3, 4, 5, 6, 7, 8, 9] v = some m3 ∧
      m3.take Width.w32.bytes = ([1, 2, 3, 4, 5, 6, 7, 8, 9] : Buf).take Width.w32.bytes ∧
      v < 2 ^ Width.w32.bits ∧
      (∀ dest : Buf, Width.w32.bytes ≤ dest.length →
        ∃ m4, setBe Width.w32 dest v = some m4 ∧
          m4.take Width.w32.bytes = ([1, 2, 3, 4, 5, 6, 7, 8, 9] : Buf).take Width.w32.bytes) ∧
      (∀ (dest : Buf) (x : Nat) (m4 : Buf), x < 2 ^ Width.w32.bits →
        setBe Width.w32 dest x = some m4 →
        m4.take Width.w32.bytes = ([1, 2, 3, 4, 5, 6, 7, 8, 9] : Buf).take Width.w32.bytes →
        x = v)) ∧
    (getLe Width.w56 [1, 2, 3, 4, 5, 6, 7, 8, 9]).bind (fun r => setLe Width.w56 r.2 r.1)
      = some [1, 2, 3, 4, 5, 6, 7, 0, 9] ∧
    (getLe Width.w56 [1, 2, 3, 4, 5, 6, 7, 8, 9]).bind
        (fun r => setLe Width.w56 [0xA0, 0xA1, 0xA2, 0xA3, 0xA4, 0xA5, 0xA6, 0xA7] r.1)
      = some [1, 2, 3, 4, 5, 6, 7, 0xA7] ∧
    (getBe Width.w32 [1, 2, 3, 4, 5, 6, 7, 8, 9]).bind
        (fun r => setBe Width.w32 [0xA0, 0xA1, 0xA2, 0xA3, 0xA4] r.1)
      = some [1, 2, 3, 4, 0xA4] :=
  ⟨(get_then_set_restores Width.w56 [1, 2, 3, 4, 5, 6, 7, 8, 9]).2 (by decide),
    (get_then_set_restores Width.w32 [1, 2, 3, 4, 5, 6, 7, 8, 9]).1 (by decide),
    by decide, by decide, by decide⟩

end Ami
